import Mathlib

/-!
Leoedit frontend: outline scanner, dirty tracking, tab manager, file explorer,
saving, language detector.

A shallow embedding of `frontend/src/clsOutliner.js` (the outline scanner
`parseOutline`, `removeDuplicates`, `getContext`, `buildTree`), of the dirty
tracking of `frontend/src/state.js` / `frontend/src/editor.js`, of the tab
manager `frontend/src/tabManager.js` with the split panes, of the ordering
of `frontend/src/clsFileExplorer.js`, of `saveFile` of
`frontend/src/fileOperations.js` and of `detect` of `frontend/src/language.js`,
with the properties proved about them.

Conventions of the embedding:
* a JavaScript string is a `List Char`;
* the objects of an array handed to `buildTree` are told apart by their
  position in that array (every `outline.push` of `parseOutline` allocates a
  fresh object), and their mutable `children` arrays live in an explicit heap
  `Nat → List Nat`;
* a JavaScript operation that can raise (`lines[i].trim()` on a missing
  element, dereferencing a `null` match) is an `Option`, `none` being the
  raised `TypeError`.
-/

namespace Leoedit

/-! ## `buildTree` (clsOutliner.js, lines 463-484) -/

/-- The mutable state of `buildTree`: the array `tree`, the `children` arrays
of the items (indexed by position of the item in `items`), and the working
`stack` (its head is `stack[stack.length - 1]`). -/
structure BuildState where
  tree : List Nat
  children : Nat → List Nat
  stack : List Nat

/-- Assignment `heap[i] = v` to the `children` field of item `i`. -/
def setChildren (heap : Nat → List Nat) (i : Nat) (v : List Nat) : Nat → List Nat :=
  fun k => if k = i then v else heap k

/-- The loop `while (stack.length > 0 && stack[stack.length - 1].level >= level) stack.pop()`. -/
def popWhile (lvl : Nat → Int) (level : Int) : List Nat → List Nat
  | [] => []
  | top :: below => if lvl top ≥ level then popWhile lvl level below else top :: below

/-- One run of the `items.forEach` callback of `buildTree`, for the item at
position `i`. -/
def buildStep (lvl : Nat → Int) (st : BuildState) (i : Nat) : BuildState :=
  let heap := setChildren st.children i []
  match popWhile lvl (lvl i) st.stack with
  | [] => { tree := st.tree ++ [i], children := heap, stack := [i] }
  | top :: below =>
      { tree := st.tree
        children := setChildren heap top (heap top ++ [i])
        stack := i :: top :: below }

/-- Level of the item at position `i` of the array (`0` past the end; never
read there). -/
def levelAt (levels : List Int) (i : Nat) : Int := levels.getD i 0

/-- The state of `buildTree` after the callback has run on the first `n`
items. -/
def buildRun (lvl : Nat → Int) (n : Nat) : BuildState :=
  (List.range n).foldl (buildStep lvl) { tree := [], children := fun _ => [], stack := [] }

/-- Function `buildTree(items)`, on the list of the items' levels: the final
state holds the returned array `tree` and the `children` array of every
item. -/
def buildTree (levels : List Int) : BuildState :=
  buildRun (levelAt levels) levels.length

/-- The nearest position before `i` whose level is strictly below `level`. -/
def nearestBelow (lvl : Nat → Int) (level : Int) : Nat → Option Nat
  | 0 => none
  | i + 1 => if lvl i < level then some i else nearestBelow lvl level i

/-- The position that the parent rule assigns to item `j`. -/
def parentOf (lvl : Nat → Int) (j : Nat) : Option Nat := nearestBelow lvl (lvl j) j

/-- Two items are siblings in the tree returned by `buildTree`: both are in
the returned array `tree`, or both are in the `children` array of one item. -/
def Siblings (levels : List Int) (i j : Nat) : Prop :=
  (i ∈ (buildTree levels).tree ∧ j ∈ (buildTree levels).tree) ∨
    ∃ p, p < levels.length ∧
      i ∈ (buildTree levels).children p ∧ j ∈ (buildTree levels).children p

instance decidableSiblings (levels : List Int) (i j : Nat) : Decidable (Siblings levels i j) := by
  unfold Siblings; infer_instance

/-- White space and line terminators of JavaScript: the characters removed by
`String.prototype.trim` and matched by `\s`. -/
def isJsSpace (c : Char) : Bool :=
  let n := c.toNat
  n == 9 || n == 10 || n == 11 || n == 12 || n == 13 || n == 32 || n == 160 ||
  n == 5760 || (8192 ≤ n && n ≤ 8202) || n == 8232 || n == 8233 || n == 8239 ||
  n == 8287 || n == 12288 || n == 65279

/-- Characters matched by `\w`. -/
def isWordChar (c : Char) : Bool :=
  let n := c.toNat
  (48 ≤ n && n ≤ 57) || (65 ≤ n && n ≤ 90) || n == 95 || (97 ≤ n && n ≤ 122)

/-- Function `String.prototype.trim`. -/
def trim (s : List Char) : List Char :=
  ((s.dropWhile isJsSpace).reverse.dropWhile isJsSpace).reverse

/-- Function `content.split('\n')`. -/
def splitLines : List Char → List (List Char)
  | [] => [[]]
  | c :: cs =>
    if c = '\n' then [] :: splitLines cs
    else match splitLines cs with
      | l :: ls => (c :: l) :: ls
      | [] => [[c]]

/-- Function `String.prototype.includes`. -/
def includes : List Char → List Char → Bool
  | [], sub => sub.isEmpty
  | c :: cs, sub => sub.isPrefixOf (c :: cs) || includes cs sub

/-- Function `String.prototype.startsWith`. -/
def startsWith (s pre : List Char) : Bool := pre.isPrefixOf s

/-! ## Regular expressions -/

/-- The regular expressions used by the outliner. `group n r` is the `n`-th
capturing group. -/
inductive Re where
  | cls (p : Char → Bool)
  | eps
  | bol
  | wordb
  | seq (a b : Re)
  | alt (a b : Re)
  | opt (a : Re)
  | star (a : Re)
  | group (n : Nat) (a : Re)

/-- A position of the backtracking matcher: the character before the position
(`none` at the start of the input), the input from the position on, and the
captures made so far. -/
structure MState where
  prev : Option Char
  rest : List Char
  caps : List (Nat × List Char)

/-- Whether the optional character is a word character (for `\b`). -/
def isWordAt : Option Char → Bool
  | some c => isWordChar c
  | none => false

/-- Greedy iteration `a*`, `m` being the matcher of `a`: the results with the
most iterations come first; an iteration that consumes nothing is rejected.
Every iteration consumes a character, so a bound equal to the length of the
remaining input never cuts the iteration short (`starLoop_fuel_enough`). -/
def starLoop (m : MState → List MState) : Nat → MState → List MState
  | 0, s => [s]
  | fuel + 1, s =>
    ((m s).filter (fun s' => s'.rest.length < s.rest.length)).flatMap (starLoop m fuel) ++ [s]

/-- All the ways in which the expression matches at a position, in the order
in which a backtracking matcher tries them (greedy quantifiers, alternatives
left to right). -/
def Re.run : Re → MState → List MState
  | .cls p, s =>
    match s.rest with
    | c :: r => if p c then [{ prev := some c, rest := r, caps := s.caps }] else []
    | [] => []
  | .eps, s => [s]
  | .bol, s => if s.prev.isNone then [s] else []
  | .wordb, s => if isWordAt s.prev != isWordAt s.rest.head? then [s] else []
  | .seq a b, s => (a.run s).flatMap (fun s' => b.run s')
  | .alt a b, s => a.run s ++ b.run s
  | .opt a, s => (a.run s).filter (fun s' => s'.rest.length < s.rest.length) ++ [s]
  | .star a, s => starLoop (fun s' => a.run s') s.rest.length s
  | .group n a, s =>
    (a.run s).map (fun s' =>
      { s' with caps := (n, s.rest.take (s.rest.length - s'.rest.length)) :: s'.caps })

/-- The search of `String.prototype.match` (no `g` flag) from a position on:
the captures of the first match at the leftmost position that has one, or
`none` for the result `null`. -/
def Re.execFrom (re : Re) : Option Char → List Char → Option (List (Nat × List Char))
  | prev, [] =>
    match (re.run { prev := prev, rest := [], caps := [] }).head? with
    | some s => some s.caps
    | none => none
  | prev, c :: cs =>
    match (re.run { prev := prev, rest := c :: cs, caps := [] }).head? with
    | some s => some s.caps
    | none => Re.execFrom re (some c) cs

/-- Call `s.match(re)`. -/
def Re.exec (re : Re) (s : List Char) : Option (List (Nat × List Char)) :=
  re.execFrom none s

/-- Capture group `m[n]` of a match: `none` is `undefined`. -/
def capture (caps : List (Nat × List Char)) (n : Nat) : Option (List Char) :=
  caps.lookup n

/-- The literal text `t`. -/
def lit (t : String) : Re :=
  t.toList.foldr (fun c r => Re.seq (Re.cls (fun d => d == c)) r) Re.eps

/-- The literal text `t` under the flag `i` (ASCII letters in either case). -/
def litNoCase (t : String) : Re :=
  t.toList.foldr (fun c r => Re.seq (Re.cls (fun d => d.toLower == c.toLower)) r) Re.eps

/-- Concatenation of a list of expressions. -/
def cat (rs : List Re) : Re := rs.foldr Re.seq Re.eps

/-- Quantifier `a+`. -/
def plus (a : Re) : Re := Re.seq a (Re.star a)

/-- Class `\s`. -/
def ws : Re := Re.cls isJsSpace

/-- Class `\w`. -/
def wd : Re := Re.cls isWordChar

/-- Class `[^c]`. -/
def notChar (c : Char) : Re := Re.cls (fun d => d != c)

/-- Expression `\([^)]*\)`. -/
def parens : Re := cat [lit "(", Re.star (notChar ')'), lit ")"]

/-- Expression `/^#|\/\//` of the comment filter. -/
def commentRe : Re := Re.alt (cat [Re.bol, lit "#"]) (lit "//")

/-- Expression `/^(export\s+)?(async\s+)?function\s+(\w+)/`. -/
def jsFunctionRe : Re :=
  cat [Re.bol, Re.opt (Re.group 1 (cat [lit "export", plus ws])),
    Re.opt (Re.group 2 (cat [lit "async", plus ws])), lit "function", plus ws,
    Re.group 3 (plus wd)]

/-- Expression `(const|let|var)`, as group 1. -/
def declKeyword : Re := Re.group 1 (Re.alt (lit "const") (Re.alt (lit "let") (lit "var")))

/-- Expression `/\b(const|let|var)\s+(\w+)\s*=\s*(async\s*)?(\([^)]*\)|[^=]+)\s*=>/`. -/
def arrowFuncRe : Re :=
  cat [Re.wordb, declKeyword, plus ws, Re.group 2 (plus wd), Re.star ws, lit "=", Re.star ws,
    Re.opt (Re.group 3 (cat [lit "async", Re.star ws])),
    Re.group 4 (Re.alt parens (plus (notChar '='))), Re.star ws, lit "=>"]

/-- Expression `/\b(const|let|var)\s+(\w+)\s*=\s*(async\s*)?function/`. -/
def funcAssignmentRe : Re :=
  cat [Re.wordb, declKeyword, plus ws, Re.group 2 (plus wd), Re.star ws, lit "=", Re.star ws,
    Re.opt (Re.group 3 (cat [lit "async", Re.star ws])), lit "function"]

/-- Expression `/^(async\s+)?(\w+)\s*\([^)]*\)\s*\{/`. -/
def methodRe : Re :=
  cat [Re.bol, Re.opt (Re.group 1 (cat [lit "async", plus ws])), Re.group 2 (plus wd),
    Re.star ws, parens, Re.star ws, lit "\x7b"]

/-- Expression `/^(get|set)\s+(\w+)\s*\([^)]*\)?\s*\{/`. -/
def getterSetterRe : Re :=
  cat [Re.bol, Re.group 1 (Re.alt (lit "get") (lit "set")), plus ws, Re.group 2 (plus wd),
    Re.star ws, lit "(", Re.star (notChar ')'), Re.opt (lit ")"), Re.star ws, lit "\x7b"]

/-- Expression `/^(export\s+)?class\s+(\w+)/`. -/
def classRe : Re :=
  cat [Re.bol, Re.opt (Re.group 1 (cat [lit "export", plus ws])), lit "class", plus ws,
    Re.group 2 (plus wd)]

/-- Expression `/^(sub|procedure|proc)\s+(\w+)/i`. -/
def subRe : Re :=
  cat [Re.bol,
    Re.group 1 (Re.alt (litNoCase "sub") (Re.alt (litNoCase "procedure") (litNoCase "proc"))),
    plus ws, Re.group 2 (plus wd)]

/-- Expression `/^def\s+(\w+)/`. -/
def pythonRe : Re := cat [Re.bol, lit "def", plus ws, Re.group 1 (plus wd)]

/-- Expression `/^func\s+(\([^)]*\)\s+)?(\w+)\s*\([^)]*\)/`. -/
def goFunctionRe : Re :=
  cat [Re.bol, lit "func", plus ws, Re.opt (Re.group 1 (cat [parens, plus ws])),
    Re.group 2 (plus wd), Re.star ws, parens]

/-- Expression `/^\s*(public|private|protected)?\s*(static)?\s*function\s+(\w+)/`. -/
def phpFunctionRe : Re :=
  cat [Re.bol, Re.star ws,
    Re.opt (Re.group 1 (Re.alt (lit "public") (Re.alt (lit "private") (lit "protected")))),
    Re.star ws, Re.opt (Re.group 2 (lit "static")), Re.star ws, lit "function", plus ws,
    Re.group 3 (plus wd)]

/-- Expression
`/^\s*(public|private|protected|internal)\s+(static\s+)?(\w+\s+)?(\w+)\s*\([^)]*\)/`. -/
def csharpMethodRe : Re :=
  cat [Re.bol, Re.star ws,
    Re.group 1 (Re.alt (lit "public") (Re.alt (lit "private")
      (Re.alt (lit "protected") (lit "internal")))),
    plus ws, Re.opt (Re.group 2 (cat [lit "static", plus ws])),
    Re.opt (Re.group 3 (cat [plus wd, plus ws])), Re.group 4 (plus wd), Re.star ws, parens]

/-- Expression `/^\s*(constructor|__construct)\s*\([^)]*\)/`. -/
def constructorRe : Re :=
  cat [Re.bol, Re.star ws, Re.group 1 (Re.alt (lit "constructor") (lit "__construct")),
    Re.star ws, parens]

/-- Expression `/^\s*(destructor|__destruct)\s*\([^)]*\)/`. -/
def destructorRe : Re :=
  cat [Re.bol, Re.star ws, Re.group 1 (Re.alt (lit "destructor") (lit "__destruct")),
    Re.star ws, parens]

/-- Expression `/^class\s+(\w+)/` of `getContext`. -/
def contextClassRe : Re := cat [Re.bol, lit "class", plus ws, Re.group 1 (plus wd)]

/-- Expression `/^(\s*)/` of `getContext`. -/
def indentRe : Re := cat [Re.bol, Re.group 1 (Re.star ws)]

/-! ## The outline scanner (clsOutliner.js, lines 126-461) -/

/-- An object pushed onto `outline` by `parseOutline`. A field that the object
literal does not have is `none` (`false` for `arrow` and `assignment`);
`classField` is the field `class`, whose value is `null` or a name;
`exportFlag` is the field `export`. The field `children` lives in the heap of
`buildTree`. -/
structure Item where
  type : String
  name : String
  line : Nat
  level : Int
  async : Option Bool := none
  exportFlag : Option Bool := none
  arrow : Bool := false
  assignment : Bool := false
  language : Option String := none
  visibility : Option String := none
  static : Option Bool := none
  classField : Option (Option String) := none
  deriving DecidableEq, Repr

/-- Truthiness of a capture group, as in `m[1] ? true : false`. -/
def truthy : Option (List Char) → Bool
  | some (_ :: _) => true
  | _ => false

/-- The text of a capture group that is used as a string (`undefined` is
printed as such by a template and never arises for a mandatory group). -/
def captureText (caps : List (Nat × List Char)) (n : Nat) : String :=
  match capture caps n with
  | some t => String.mk t
  | none => "undefined"

/-- The record `context` returned by `getContext`. -/
structure Context where
  inClass : Bool
  className : Option String
  indentLevel : Nat
  deriving DecidableEq, Repr

/-- One iteration of the `for` loop of `getContext` at index `i`; `next` is
the rest of the loop (the iterations below `i`). The result is the pair
`(inClass, className)` at the exit of the loop, `none` when `lines[i]` is
`undefined` and `.trim()` raises. -/
def scanBackBody (lines : List (List Char)) (currentLine i : Nat)
    (next : Option (Bool × Option String)) : Option (Bool × Option String) :=
  match lines.get? i with
  | none => none
  | some l =>
    match contextClassRe.exec (trim l) with
    | some caps => some (true, some (captureText caps 1))
    | none => if (i : Int) < (currentLine : Int) - 50 then some (false, none) else next

/-- The loop `for (let i = currentLine; i >= 0; i--)` of `getContext`, from
index `i` downward. -/
def scanBack (lines : List (List Char)) (currentLine : Nat) : Nat → Option (Bool × Option String)
  | 0 => scanBackBody lines currentLine 0 (some (false, none))
  | i + 1 => scanBackBody lines currentLine (i + 1) (scanBack lines currentLine i)

/-- Function `getContext(lines, currentLine)`; `none` when it raises. -/
def getContext (lines : List (List Char)) (currentLine : Nat) : Option Context :=
  match scanBack lines currentLine currentLine with
  | none => none
  | some (inClass, className) =>
    match lines.get? currentLine with
    | none => none
    | some l =>
      match indentRe.exec l with
      | none => none
      | some caps =>
        match capture caps 1 with
        | none => none
        | some indent =>
          some { inClass := inClass, className := className, indentLevel := indent.length / 4 }

/-- Pattern 1, JavaScript functions. -/
def jsFunctionItems (index : Nat) (trimmed : List Char) : List Item :=
  match jsFunctionRe.exec trimmed with
  | some m =>
    [{ type := "function", name := captureText m 3, async := some (truthy (capture m 2)),
       exportFlag := some (truthy (capture m 1)), line := index, level := 1 }]
  | none => []

/-- Pattern 2, arrow functions and function assignments. -/
def arrowItems (index : Nat) (trimmed : List Char) : List Item :=
  match arrowFuncRe.exec trimmed with
  | some m =>
    [{ type := "function", name := captureText m 2, arrow := true,
       async := some (truthy (capture m 3)), line := index, level := 1 }]
  | none =>
    match funcAssignmentRe.exec trimmed with
    | some m =>
      [{ type := "function", name := captureText m 2, assignment := true,
         async := some (truthy (capture m 3)), line := index, level := 1 }]
    | none => []

/-- The guard on the control-flow keywords of pattern 3. -/
def startsWithControl (trimmed : List Char) : Bool :=
  startsWith trimmed "if".toList || startsWith trimmed "for".toList ||
  startsWith trimmed "while".toList || startsWith trimmed "elsif".toList ||
  startsWith trimmed "elif".toList || startsWith trimmed "else".toList

/-- Pattern 3, methods; `none` when `getContext` raises. -/
def methodItems (lines : List (List Char)) (index : Nat) (trimmed : List Char) :
    Option (List Item) :=
  match methodRe.exec trimmed with
  | some m =>
    if startsWithControl trimmed then some []
    else
      match getContext lines index with
      | none => none
      | some context =>
        some [{ type := "method", name := captureText m 2, async := some (truthy (capture m 1)),
                line := index, level := if context.inClass then 2 else 1,
                classField := some context.className }]
  | none => some []

/-- Pattern 4, getters and setters. -/
def getterSetterItems (index : Nat) (trimmed : List Char) : List Item :=
  match getterSetterRe.exec trimmed with
  | some m =>
    [{ type := if captureText m 1 = "get" then "getter" else "setter",
       name := captureText m 2, line := index, level := 2 }]
  | none => []

/-- Pattern 5, class declarations. -/
def classItems (index : Nat) (trimmed : List Char) : List Item :=
  match classRe.exec trimmed with
  | some m =>
    [{ type := "class", name := captureText m 2, exportFlag := some (truthy (capture m 1)),
       line := index, level := 0 }]
  | none => []

/-- Pattern 6, subs and procedures; `none` when `subMatch[1]` is `undefined`
and `.toLowerCase()` raises. -/
def subItems (index : Nat) (trimmed : List Char) : Option (List Item) :=
  match subRe.exec trimmed with
  | some m =>
    match capture m 1 with
    | none => none
    | some k =>
      some [{ type := if k.map Char.toLower = "sub".toList then "sub" else "procedure",
              name := captureText m 2, line := index, level := 1 }]
  | none => some []

/-- Pattern 7, Python functions. -/
def pythonItems (index : Nat) (trimmed : List Char) : List Item :=
  match pythonRe.exec trimmed with
  | some m =>
    [{ type := "function", language := some "python", name := captureText m 1,
       line := index, level := 1 }]
  | none => []

/-- Pattern 9, Go functions; the name is `m[2] || m[1]`. -/
def goItems (index : Nat) (trimmed : List Char) : List Item :=
  match goFunctionRe.exec trimmed with
  | some m =>
    [{ type := "function", language := some "go",
       name := if truthy (capture m 2) then captureText m 2 else captureText m 1,
       line := index, level := 1 }]
  | none => []

/-- Pattern 10, PHP functions; the visibility is `m[1] || 'public'`. -/
def phpItems (index : Nat) (trimmed : List Char) : List Item :=
  match phpFunctionRe.exec trimmed with
  | some m =>
    if includes trimmed "=".toList then []
    else
      [{ type := "function", language := some "php", name := captureText m 3,
         visibility := some (if truthy (capture m 1) then captureText m 1 else "public"),
         static := some (truthy (capture m 2)), line := index, level := 1 }]
  | none => []

/-- Pattern 9 (second), C# and Java methods. -/
def csharpItems (index : Nat) (trimmed : List Char) : List Item :=
  match csharpMethodRe.exec trimmed with
  | some m =>
    if includes trimmed "\x7b".toList then
      match capture m 4 with
      | some (c :: cs) =>
        if !includes (c :: cs) "class".toList && !includes (c :: cs) "interface".toList then
          [{ type := "method", language := some "csharp", name := String.mk (c :: cs),
             visibility := some (captureText m 1), static := some (truthy (capture m 2)),
             line := index, level := 1 }]
        else []
      | _ => []
    else []
  | none => []

/-- Pattern 10 (second), constructors. -/
def constructorItems (index : Nat) (trimmed : List Char) : List Item :=
  match constructorRe.exec trimmed with
  | some m => [{ type := "constructor", name := captureText m 1, line := index, level := 1 }]
  | none => []

/-- Pattern 11, destructors. -/
def destructorItems (index : Nat) (trimmed : List Char) : List Item :=
  match destructorRe.exec trimmed with
  | some m => [{ type := "destructor", name := captureText m 1, line := index, level := 1 }]
  | none => []

/-- The battery of patterns run on a trimmed line that passed the comment
filter: the objects pushed, in order. -/
def scanTrimmed (lines : List (List Char)) (index : Nat) (trimmed : List Char) :
    Option (List Item) :=
  match methodItems lines index trimmed, subItems index trimmed with
  | some methods, some subs =>
    some (jsFunctionItems index trimmed ++ arrowItems index trimmed ++ methods ++
      getterSetterItems index trimmed ++ classItems index trimmed ++ subs ++
      pythonItems index trimmed ++ goItems index trimmed ++ phpItems index trimmed ++
      csharpItems index trimmed ++ constructorItems index trimmed ++
      destructorItems index trimmed)
  | _, _ => none

/-- The callback of `lines.forEach` in `parseOutline`, for the line `line` at
`index`: the objects it pushes onto `outline`, `none` when it raises. -/
def scanLine (lines : List (List Char)) (index : Nat) (line : List Char) : Option (List Item) :=
  match commentRe.exec (trim line) with
  | some _ => some []
  | none => scanTrimmed lines index (trim line)

/-- The loop `lines.forEach((line, index) => ...)` over the lines from `index`
on: the array `outline` they fill. -/
def scanFrom (lines : List (List Char)) : Nat → List (List Char) → Option (List Item)
  | _, [] => some []
  | index, line :: rest =>
    match scanLine lines index line, scanFrom lines (index + 1) rest with
    | some here, some later => some (here ++ later)
    | _, _ => none

/-- The array `outline` of `parseOutline(content)` before `removeDuplicates`. -/
def scanOutline (content : List Char) : Option (List Item) :=
  scanFrom (splitLines content) 0 (splitLines content)

/-! ## `removeDuplicates` and `parseOutline` (clsOutliner.js, lines 412-428) -/

/-- The key `${item.line}-${item.name || item.text}` of `removeDuplicates`. No
object pushed by `parseOutline` has a field `text`, so an empty name gives the
text `undefined`. -/
def itemKey (item : Item) : List Char :=
  Nat.toDigits 10 item.line ++
    '-' :: (if item.name = "" then "undefined".toList else item.name.toList)

/-- The filter of `removeDuplicates`, `seen` being the keys added to the set
so far. -/
def removeDuplicatesFrom (seen : List (List Char)) : List Item → List Item
  | [] => []
  | item :: rest =>
    if itemKey item ∈ seen then removeDuplicatesFrom seen rest
    else item :: removeDuplicatesFrom (itemKey item :: seen) rest

/-- Function `removeDuplicates(outline)`. -/
def removeDuplicates (outline : List Item) : List Item := removeDuplicatesFrom [] outline

/-- The pair of the line and the name of an item. -/
def linePair (item : Item) : Nat × String := (item.line, item.name)

/-- The value returned by `parseOutline`: the objects of `uniqueOutline` in
source order, the returned array of roots (positions in `items`) and the
`children` array of every object. -/
structure Outline where
  items : List Item
  tree : List Nat
  children : Nat → List Nat

/-- Function `parseOutline(content)`; `none` when it raises. -/
def parseOutline (content : List Char) : Option Outline :=
  match scanOutline content with
  | none => none
  | some outline =>
    let uniqueOutline := removeDuplicates outline
    let built := buildTree (uniqueOutline.map Item.level)
    some { items := uniqueOutline, tree := built.tree, children := built.children }

/-! ## Application state and dirty tracking (state.js, editor.js, tabManager.js) -/

/-- An entry of `appState.openTabs`. A field holding `undefined` or `null` is
`none`. -/
structure Tab where
  fileName : String
  type : String
  url : Option String
  dirty : Bool
  filePath : Option String
  savedContent : Option String
  lastContent : Option String
  pane : String
  deriving DecidableEq, Repr

/-- An entry of `editorManager.panes`: the text of the document of the view
(`view.state.doc.toString()`) and the field `activeTabId`. -/
structure PaneData where
  doc : String
  activeTabId : Option String
  deriving DecidableEq, Repr

/-- An entry of `editorManager.tabStates`: the text of the document of the
stored editor state and the field `pane`. -/
structure TabState where
  doc : String
  pane : String
  deriving DecidableEq, Repr

/-- A call of the backend. -/
inductive BackendCall where
  | setUnsavedChanges (flag : Bool)
  | markFileAsUnsaved (path : Option String)
  | markFileAsSaved (path : String)
  | saveFile (content : String) (path : String) (directSave : Bool)
  deriving DecidableEq, Repr

/-- An element `.tab` of the tab strip: its attribute `data-tab-id` and the
pane `p` of its class `pane-p`. -/
structure TabElement where
  tabId : String
  pane : String
  deriving DecidableEq, Repr

/-- The singletons `appState` and `editorManager`, the part of the document
that the tab manager reads back (the elements `.tab` of the tab strip in
document order, the class `hidden` of the two editor panes and of the divider),
and the calls sent to the backend so far. The JavaScript maps are association
lists in insertion order; `editorInstance` tells whether
`appState.editorInstance` is set (it is only ever set to `editorManager`);
`isSplitActive` is the property of that name, which the constructor does not
create (`none` is `undefined`). -/
structure AppState where
  openTabs : List (String × Tab)
  activeTabId : Option String
  editorInstance : Bool
  isVSplitActive : Bool
  isHSplitActive : Bool
  activePane : String
  panes : List (String × PaneData)
  tabStates : List (String × TabState)
  backendCalls : List BackendCall
  tabElements : List TabElement
  leftPaneHidden : Bool
  rightPaneHidden : Bool
  dividerHidden : Bool
  isSplitActive : Option Bool
  deriving DecidableEq, Repr

/-- Method `Map.prototype.set`: replaces the value of an existing key in
place, appends a new key. -/
def mapSet {β : Type} (m : List (String × β)) (k : String) (v : β) : List (String × β) :=
  match m with
  | [] => [(k, v)]
  | (k', v') :: rest => if k' = k then (k, v) :: rest else (k', v') :: mapSet rest k v

/-- Method `Map.prototype.get`. -/
def mapGet {β : Type} (m : List (String × β)) (k : String) : Option β :=
  match m with
  | [] => none
  | (k', v') :: rest => if k' = k then some v' else mapGet rest k

/-- Method `getActiveTab()`:
`this.activeTabId ? this.openTabs.get(this.activeTabId) : null`. -/
def getActiveTab (st : AppState) : Option Tab :=
  match st.activeTabId with
  | none => none
  | some id => if id = "" then none else mapGet st.openTabs id

/-- Method `editorManager.getValue()` without argument: the document of the
pane `appState.activePane || 'left'`, or the empty string. -/
def getValue (st : AppState) : String :=
  match mapGet st.panes (if st.activePane = "" then "left" else st.activePane) with
  | some target => target.doc
  | none => ""

/-- Method `editorManager.getTabContent(tabId)`. -/
def getTabContent (st : AppState) (tabId : Option String) : String :=
  match tabId with
  | none => ""
  | some id =>
    match mapGet st.tabStates id with
    | some state => state.doc
    | none => ""

/-- Operator `a ?? b`. -/
def nullish {α : Type} (a b : Option α) : Option α :=
  match a with
  | some v => some v
  | none => b

/-- The chain
`this.editorInstance?.getValue?.() ?? editorManager.getTabContent?.(this.activeTabId)
  ?? tab.lastContent ?? tab.savedContent ?? ''` of `isDirty`. -/
def currentContent (st : AppState) (tab : Tab) : String :=
  (nullish (nullish (nullish (if st.editorInstance then some (getValue st) else none)
    (some (getTabContent st st.activeTabId))) tab.lastContent) tab.savedContent).getD ""

/-- Method `isDirty()`. -/
def isDirty (st : AppState) : Bool :=
  match getActiveTab st with
  | none => false
  | some tab => currentContent st tab != tab.savedContent.getD ""

/-- Assignment to fields of the active tab object: `f` is applied to the entry
of `openTabs` under `activeTabId`. -/
def updateActiveTab (st : AppState) (f : Tab → Tab) : AppState :=
  match st.activeTabId, getActiveTab st with
  | some id, some tab => { st with openTabs := mapSet st.openTabs id (f tab) }
  | _, _ => st

/-- Method `setDirty(dirty, updateContent)` (the refresh of the tab title and
of the menu reads the state and changes nothing in it). -/
def setDirty (st : AppState) (dirty : Bool) (updateContent : Bool) : AppState :=
  updateActiveTab st (fun tab =>
    { tab with
      dirty := dirty
      lastContent :=
        if updateContent && dirty then some (currentContent st { tab with dirty := dirty })
        else tab.lastContent })

/-- Method `handleContentChange(content)`. -/
def handleContentChange (st : AppState) (content : String) : AppState :=
  updateActiveTab st (fun tab => { tab with lastContent := some content })

/-- The branch `update.docChanged` of the update listener (editor.js, lines
385-394), run after the handler of the content change. The object of a tab has
no property `filename`, so `MarkFileAsUnsaved(tab.filename)` passes
`undefined`. -/
def notifyIfClean (st : AppState) : AppState :=
  match getActiveTab st with
  | none => st
  | some tab =>
    if tab.dirty then st
    else
      let st1 := updateActiveTab st (fun t => { t with dirty := true })
      let st2 := setDirty st1 true false
      { st2 with
        backendCalls := st2.backendCalls ++
          [BackendCall.setUnsavedChanges true, BackendCall.markFileAsUnsaved none] }

/-- A content-change event: the view of the pane `paneId` has changed its
document to `content`, and the update listener runs. -/
def docChanged (st : AppState) (paneId : String) (content : String) : AppState :=
  let st0 :=
    match mapGet st.panes paneId with
    | some pane => { st with panes := mapSet st.panes paneId { pane with doc := content } }
    | none => st
  notifyIfClean (handleContentChange st0 content)

/-- Function `createEditorTab(tabId, filename, content, pane)`. -/
def createEditorTab (st : AppState) (tabId filename content pane : String) : AppState :=
  { st with
    openTabs := mapSet st.openTabs tabId
      { fileName := filename, type := "editor", url := none, dirty := false, filePath := none,
        savedContent := some content, lastContent := some content, pane := pane }
    tabStates := mapSet st.tabStates tabId { doc := content, pane := pane } }

/-- The assignment `el.className = ...` of a pane class to the first element
of the tab strip with the attribute `data-tab-id` equal to `tabId`
(`document.querySelector`). -/
def setElementPane (els : List TabElement) (tabId paneId : String) : List TabElement :=
  match els with
  | [] => []
  | el :: rest =>
    if el.tabId = tabId then { el with pane := paneId } :: rest
    else el :: setElementPane rest tabId paneId

/-- Method `updateUIFocus(tabId, paneId, ...)`, state part: the pane and the
application take the tab as active, and the element of the tab gets the class
`pane-${paneId}`. -/
def updateUIFocus (st : AppState) (tabId paneId : String) : AppState :=
  { st with
    panes :=
      match mapGet st.panes paneId with
      | some pane => mapSet st.panes paneId { pane with activeTabId := some tabId }
      | none => st.panes
    activeTabId := some tabId
    activePane := paneId
    tabElements := setElementPane st.tabElements tabId paneId }

/-- Method `handleEditorTab`: the view of the pane takes the stored state of
the tab, or a new state made of `tabInfo.lastContent ?? tabInfo.savedContent ?? ''`. -/
def handleEditorTab (st : AppState) (tabId : String) (tabInfo : Tab) (paneId : String) :
    AppState :=
  let doc :=
    match mapGet st.tabStates tabId with
    | some saved => saved.doc
    | none => (nullish tabInfo.lastContent tabInfo.savedContent).getD ""
  match mapGet st.panes paneId with
  | some pane => { st with panes := mapSet st.panes paneId { pane with doc := doc } }
  | none => st

/-- Step 1 of `switchToTabInPane`: the state of the view is stored for the
tab `paneData.activeTabId`, unless that tab is the target or is a web or AI
tab (a tab id without entry in `openTabs` passes the test
`prevTabInfo?.type !== 'web' && prevTabInfo?.type !== 'ai'`). -/
def storePreviousTab (st : AppState) (paneData : PaneData) (tabId paneId : String) : AppState :=
  match paneData.activeTabId with
  | some currentTabId =>
    if currentTabId ≠ "" ∧ currentTabId ≠ tabId then
      match mapGet st.openTabs currentTabId with
      | some prevTabInfo =>
        if prevTabInfo.type ≠ "web" ∧ prevTabInfo.type ≠ "ai" then
          { st with tabStates :=
              mapSet st.tabStates currentTabId { doc := paneData.doc, pane := paneId } }
        else st
      | none =>
        { st with tabStates :=
            mapSet st.tabStates currentTabId { doc := paneData.doc, pane := paneId } }
    else st
  | none => st

/-- Step 3 of `switchToTabInPane`: the surface of a web or AI tab leaves the
editor state alone, an editor tab goes through `handleEditorTab`. -/
def showTab (st : AppState) (tabId : String) (tabInfo : Tab) (paneId : String) : AppState :=
  if tabInfo.type = "web" ∨ tabInfo.type = "ai" then st
  else handleEditorTab st tabId tabInfo paneId

/-- Method `switchToTabInPane(tabId, paneId)` (editor.js, lines 571-624). -/
def switchToTabInPane (st : AppState) (tabId paneId : String) : AppState :=
  match mapGet st.openTabs tabId, mapGet st.panes paneId with
  | some tabInfo, some paneData =>
    match st.panes.find? (fun entry => entry.2.activeTabId = some tabId) with
    | some (existingPaneId, _) => updateUIFocus st tabId existingPaneId
    | none =>
      updateUIFocus (showTab (storePreviousTab st paneData tabId paneId) tabId tabInfo paneId)
        tabId paneId
  | _, _ => st

/-- The state after the update listener has run on the content-change events
`events` of the pane `paneId`, in order. -/
def docChangedAll (st : AppState) (paneId : String) (events : List String) : AppState :=
  events.foldl (fun s content => docChanged s paneId content) st

/-! ## Definitions used by the statements -/

/-- Value of a decimal digit character. -/
def digitValue (c : Char) : Nat := c.toNat - 48

/-- Value of a string of decimal digits. -/
def decimalValue (ds : List Char) : Nat := ds.foldl (fun acc c => 10 * acc + digitValue c) 0

/-- The document of three lines of the example. -/
def demoDocument : List Char :=
  "function foo() \x7b\x7d\nexport async function bar() \x7b\x7d\nclass Baz \x7b\x7d".toList

/-- An array `outline` in which the first two objects carry the same line
and name. -/
def duplicateOutline : List Item :=
  [{ type := "function", name := "foo", line := 0, level := 1, async := some false,
     exportFlag := some false },
   { type := "function", name := "foo", line := 0, level := 1, language := some "php",
     visibility := some "public", static := some false },
   { type := "class", name := "Baz", line := 2, level := 0, exportFlag := some false }]

/-- The lines `class A {`, fifty empty lines, `foo() {`. -/
def farClassLines : List (List Char) :=
  "class A \x7b".toList :: (List.replicate 50 [] ++ ["foo() \x7b".toList])

/-- The singletons right after their constructors have run, with an empty tab
strip and the panes and the divider hidden. -/
def initialAppState : AppState :=
  { openTabs := [], activeTabId := none, editorInstance := false, isVSplitActive := false,
    isHSplitActive := false, activePane := "left", panes := [], tabStates := [],
    backendCalls := [], tabElements := [], leftPaneHidden := true, rightPaneHidden := true,
    dividerHidden := true, isSplitActive := none }

/-- Method `initializePane(paneId)`, state part: a new pane has a view with an
empty document and no active tab. -/
def initializePane (st : AppState) (paneId : String) : AppState :=
  match mapGet st.panes paneId with
  | some _ => st
  | none => { st with panes := mapSet st.panes paneId { doc := "", activeTabId := none } }

/-- The content of the last of the content-change events, `content` when
there is none. -/
def latestContent (content : String) (events : List String) : String :=
  events.foldl (fun _ c => c) content

/-- The state after an editor tab `tab-1-left` has been created with the
content `X` in the left pane and made active, and its content has been changed
to `Y` and then back to `X`. -/
def editedBackState : AppState :=
  docChangedAll
    (switchToTabInPane
      (createEditorTab (initializePane initialAppState "left") "tab-1-left" "a.txt" "X" "left")
      "tab-1-left" "left")
    "left" ["Y", "X"]

/-! ## Tab manager (tabManager.js) and split panes (editor.js) -/

/-- Constant `APP_CONFIG.DEFAULT_TAB_NAME`. -/
def defaultTabName : String := "Unbenannt.txt"

/-- Truthiness of a string-valued field: `undefined`, `null` and `''` are
falsy. -/
def truthyString : Option String → Bool
  | some s => s != ""
  | none => false

/-- Method `Map.prototype.delete`. -/
def mapDelete {β : Type} (m : List (String × β)) (k : String) : List (String × β) :=
  match m with
  | [] => []
  | (k', v') :: rest => if k' = k then rest else (k', v') :: mapDelete rest k

/-- The template `tab-${Date.now()}-${targetPane}`, `now` being the clock
reading in milliseconds. -/
def makeTabId (now : Nat) (targetPane : String) : String :=
  String.mk ("tab-".toList ++ (Nat.toDigits 10 now ++ '-' :: targetPane.toList))

/-- The search for an open tab of the file in `createNewTab` (lines 174-177):
the first entry of `openTabs` with that file name and a truthy `filePath`,
unless the name is the default name. -/
def existingTab (st : AppState) (filename : String) : Option (String × Tab) :=
  if filename ≠ defaultTabName then
    st.openTabs.find? (fun entry => entry.2.fileName = filename && truthyString entry.2.filePath)
  else none

/-- The target pane of `createNewTab` (lines 196-203). -/
def targetPaneOf (st : AppState) (paneId : Option String) : String :=
  if truthyString paneId then paneId.getD ""
  else if st.isVSplitActive || st.isHSplitActive then
    (if st.activePane = "" then "left" else st.activePane)
  else "left"

/-- Function `createWebTab(tabId, filename, url, pane)`. -/
def createWebTab (st : AppState) (tabId filename url pane : String) : AppState :=
  { st with
    openTabs := mapSet st.openTabs tabId
      { fileName := filename, type := "web", url := some url, dirty := false, filePath := none,
        savedContent := some "", lastContent := some "", pane := pane } }

/-- Function `createAiTab(tabId, filename, pane)`. -/
def createAiTab (st : AppState) (tabId filename pane : String) : AppState :=
  { st with
    openTabs := mapSet st.openTabs tabId
      { fileName := filename, type := "ai", url := some "", dirty := false, filePath := none,
        savedContent := some "", lastContent := some "", pane := pane } }

/-- Function `setupTabElement(tabId, filename, pane, ...)`: a new element with
the class `pane-${pane}` is appended to the tab strip. -/
def setupTabElement (st : AppState) (tabId pane : String) : AppState :=
  { st with tabElements := st.tabElements ++ [{ tabId := tabId, pane := pane }] }

/-- The creation of the tab of the kind told by the initial string
(`createNewTab`, lines 221-231). -/
def createTabOfKind (st : AppState) (tabId filename initialContent targetPane : String) :
    AppState :=
  if startsWith initialContent.toList "http://".toList ||
      startsWith initialContent.toList "https://".toList then
    createWebTab st tabId filename initialContent targetPane
  else if startsWith initialContent.toList "StarteAI".toList then
    createAiTab st tabId filename targetPane
  else createEditorTab st tabId filename initialContent targetPane

/-- Function `createNewTab(filename, initialContent, paneId)` at the clock
reading `now`: the new state and the returned tab id. `initializePane` returns
the view of the pane, so the fallback to the left pane (lines 208-218) is not
taken; focusing a view and refreshing a tab title change nothing in the
state. -/
def createNewTab (st : AppState) (filename initialContent : String) (paneId : Option String)
    (now : Nat) : AppState × String :=
  match existingTab st filename with
  | some (existingTabId, existingTabInfo) =>
    (switchToTabInPane st existingTabId
      (if existingTabInfo.pane = "" then "left" else existingTabInfo.pane), existingTabId)
  | none =>
    let targetPane := targetPaneOf st paneId
    let tabId := makeTabId now targetPane
    let st1 := createTabOfKind (initializePane st targetPane) tabId filename initialContent
      targetPane
    let st2 := switchToTabInPane (setupTabElement st1 tabId targetPane) tabId targetPane
    ({ st2 with leftPaneHidden := false }, tabId)

/-- Whether `closeTab(tabId)` opens the confirmation dialog. -/
def closeTabAsks (st : AppState) (tabId : String) : Bool :=
  match mapGet st.openTabs tabId with
  | none => false
  | some tabInfo => tabInfo.dirty && tabInfo.type = "editor"

/-- The `switch (tabInfo.type)` of `closeTab` (lines 22-45): for an editor tab
the stored editor state is deleted and the backend is told that the file is
saved when the tab has a file path. -/
def typeCleanup (st : AppState) (tabId : String) (tabInfo : Tab) : AppState :=
  if tabInfo.type = "editor" then
    let st1 := { st with tabStates := mapDelete st.tabStates tabId }
    match tabInfo.filePath with
    | some path =>
      if path ≠ "" then
        { st1 with backendCalls := st1.backendCalls ++ [BackendCall.markFileAsSaved path] }
      else st1
    | none => st1
  else st

/-- Removal of the first element of the tab strip with the given
`data-tab-id` (`document.querySelector(...)`, `tabElement.remove()`). -/
def removeTabElement (els : List TabElement) (tabId : String) : List TabElement :=
  match els with
  | [] => []
  | el :: rest => if el.tabId = tabId then rest else el :: removeTabElement rest tabId

/-- Function `cleanupEmptyPane(pane)`. -/
def cleanupEmptyPane (st : AppState) (pane : String) : AppState :=
  let st1 :=
    if pane = "right" ∧ (st.openTabs.filter (fun entry => entry.2.pane = "right")).length = 0 ∧
        st.isVSplitActive = true then
      { st with rightPaneHidden := true, dividerHidden := true, isVSplitActive := false,
                isHSplitActive := false, activePane := "left" }
    else st
  if st1.openTabs.length = 0 then
    { st1 with leftPaneHidden := true, rightPaneHidden := true, dividerHidden := true }
  else st1

/-- The pane read from the class of a tab element:
`classList.contains('pane-right') ? 'right' : 'left'`. -/
def elementPane (el : TabElement) : String := if el.pane = "right" then "right" else "left"

/-- The switch to the last remaining tab of the tab strip in `closeTab`
(lines 67-73). -/
def fallbackSwitch (st : AppState) : AppState :=
  match st.tabElements.getLast? with
  | some nextTab => switchToTabInPane st nextTab.tabId (elementPane nextTab)
  | none => st

/-- The teardown of `closeTab` (lines 21-54): the cleanup by type, the removal
of the element of the tab from the tab strip, and the removal of the entry
from the registry. -/
def removeTab (st : AppState) (tabId : String) (tabInfo : Tab) : AppState :=
  { typeCleanup st tabId tabInfo with
    tabElements := removeTabElement (typeCleanup st tabId tabInfo).tabElements tabId
    openTabs := mapDelete (typeCleanup st tabId tabInfo).openTabs tabId }

/-- The reset of `closeTab` (lines 57-60): if the tab was the active tab,
`setDirty(false)` is called and `activeTabId` becomes `null`. -/
def resetActive (st : AppState) (tabId : String) : AppState :=
  if st.activeTabId = some tabId then { setDirty st false false with activeTabId := none }
  else st

/-- Function `closeTab(tabId)`; `confirmed` is the answer of the user to the
confirmation dialog, read only when the dialog is opened. -/
def closeTab (st : AppState) (tabId : String) (confirmed : Bool) : AppState :=
  match mapGet st.openTabs tabId with
  | none => st
  | some tabInfo =>
    if (tabInfo.dirty && tabInfo.type = "editor") && !confirmed then st
    else
      let st5 := cleanupEmptyPane (resetActive (removeTab st tabId tabInfo) tabId) tabInfo.pane
      if st5.activeTabId = some tabId ∨ truthyString st5.activeTabId = false then
        fallbackSwitch st5
      else st5

/-- The loop of `resetSplitWindow` and `toggleSplit` over `tabStates`: every
stored state of the right pane is assigned to the left pane. -/
def moveStatesLeft (tabStates : List (String × TabState)) : List (String × TabState) :=
  tabStates.map (fun entry =>
    if entry.2.pane = "right" then (entry.1, { entry.2 with pane := "left" }) else entry)

/-- The classes set by `resetSplitWindow` on the tab elements of the stored
states of the right pane, in the order of `tabStates`. -/
def moveElementsLeft (tabStates : List (String × TabState)) (els : List TabElement) :
    List TabElement :=
  tabStates.foldl
    (fun acc entry => if entry.2.pane = "right" then setElementPane acc entry.1 "left" else acc)
    els

/-- Function `resetSplitWindow()`. -/
def resetSplitWindow (st : AppState) : AppState :=
  { st with
    rightPaneHidden := true
    dividerHidden := true
    tabElements := moveElementsLeft st.tabStates st.tabElements
    tabStates := moveStatesLeft st.tabStates
    isVSplitActive := false
    isHSplitActive := false
    activePane := "left" }

/-- Method `toggleSplit()` at the clock reading `now`. -/
def toggleSplit (st : AppState) (now : Nat) : AppState :=
  if !st.rightPaneHidden then
    { st with
      rightPaneHidden := true
      dividerHidden := true
      tabStates := moveStatesLeft st.tabStates
      isVSplitActive := false
      activePane := "left" }
  else
    let st1 := initializePane st "right"
    let st2 :=
      match st1.activeTabId with
      | some id =>
        if id ≠ "" then
          match mapGet st1.tabStates id with
          | some tabState =>
            { st1 with tabStates := mapSet st1.tabStates id { tabState with pane := "left" } }
          | none => st1
        else st1
      | none => st1
    let st3 := (createNewTab st2 defaultTabName "" (some "right") now).1
    { st3 with rightPaneHidden := false, dividerHidden := false, isVSplitActive := true,
               isHSplitActive := false }

/-- Method `handleFocusChange(view)` (editor.js, lines 436-452), run by the
update listener when the view of the pane `paneId` has received the focus: the
pane becomes the active pane, the editor instance is registered, and the tab
shown in the pane, if any, becomes the active tab. -/
def handleFocusChange (st : AppState) (paneId : String) : AppState :=
  if paneId = "" then st
  else
    match mapGet st.panes paneId with
    | some paneData =>
      if truthyString paneData.activeTabId then
        { st with activePane := paneId, editorInstance := true,
                  activeTabId := paneData.activeTabId }
      else { st with activePane := paneId, editorInstance := true }
    | none => { st with activePane := paneId, editorInstance := true }

/-- Method `markAsClean()`: the new state and the returned value. -/
def markAsClean (st : AppState) : AppState × Bool :=
  match getActiveTab st with
  | none => (st, false)
  | some tab =>
    (updateActiveTab st (fun t =>
      { t with savedContent := some (currentContent st tab), dirty := false,
               lastContent := some (currentContent st tab) }), true)

/-! ## File explorer (clsFileExplorer.js, lines 164-193) -/

/-- An entry of a directory listing. -/
structure Entry where
  name : String
  isDir : Bool
  deriving DecidableEq, Repr

/-- The comparator handed to `entries.sort` in `render`, `localeCompare` being
the collation of the names. -/
def entryCompare (localeCompare : String → String → Int) (a b : Entry) : Int :=
  if a.isDir && !b.isDir then -1
  else if !a.isDir && b.isDir then 1
  else localeCompare a.name b.name

/-- Insertion of an entry into a sorted list after the entries that do not
compare greater. -/
def sortInsert (compare : Entry → Entry → Int) (a : Entry) : List Entry → List Entry
  | [] => [a]
  | b :: rest => if compare a b < 0 then a :: b :: rest else b :: sortInsert compare a rest

/-- Method `Array.prototype.sort` with a comparator, as a stable insertion
sort (the builtin is stable, and for a consistent comparator every stable
sort returns the same array). -/
def arraySort (compare : Entry → Entry → Int) (entries : List Entry) : List Entry :=
  entries.foldl (fun sorted a => sortInsert compare a sorted) []

/-- The item of the tab `..` that `render` puts first unless the base path is
the root. -/
def upItems (basePath : String) : List Entry :=
  if basePath ≠ "/" then [{ name := "..", isDir := true }] else []

/-- The array `sortedEntries` of `render`. -/
def sortedEntries (localeCompare : String → String → Int) (entries : List Entry) : List Entry :=
  arraySort (entryCompare localeCompare) entries

/-- Method `render(entries, basePath)`: the entries of the items appended to
the container, in order. -/
def render (localeCompare : String → String → Int) (entries : List Entry) (basePath : String) :
    List Entry :=
  upItems basePath ++ sortedEntries localeCompare entries

/-! ## Definitions used by the statements on the tab manager and the file explorer -/

/-- The state after two editor tabs have been created one after the other in
the left pane, `a.txt` at the clock reading 1 and `b.txt` at the clock
reading 2 (the second one is active). -/
def twoTabsState : AppState :=
  (createNewTab (createNewTab initialAppState "a.txt" "X" none 1).1 "b.txt" "Y" none 2).1

/-- The state after an editor tab has been created in the left pane at the
clock reading 1 and the vertical split has been switched on at the clock
reading 2 (which creates the tab `tab-2-right` in the right pane). -/
def splitState : AppState :=
  toggleSplit (createNewTab initialAppState "a.txt" "X" none 1).1 2

/-- The state after one editor tab has been created at the clock reading 5. -/
def oneTabState : AppState := (createNewTab initialAppState "a.txt" "X" none 5).1

/-- The handler of a file opened from the file explorer (main.js, lines
81-97): the tab is created (or found), takes the path and the content as
saved, and is clean; the closing call `switchToTabInPane(tabId)` names no
pane and returns at once. -/
def openFile (st : AppState) (name content path : String) (now : Nat) : AppState :=
  let created :=
    createNewTab st name content (some (if st.activePane = "" then "left" else st.activePane)) now
  match mapGet created.1.openTabs created.2 with
  | some tab =>
    setDirty
      { created.1 with
        openTabs := mapSet created.1.openTabs created.2
          { tab with filePath := some path, savedContent := some content, dirty := false } }
      false false
  | none => created.1

/-- The state after the file `/home/a.txt` has been opened from the file
explorer at the clock reading 1. -/
def openedFileState : AppState := openFile initialAppState "a.txt" "X" "/home/a.txt" 1

/-- The state after the file `/home/a.txt` (content `X`) has been opened from
the file explorer at the clock reading 1 and the view of the left pane has
received the focus. -/
def openedFileFocusedState : AppState := handleFocusChange openedFileState "left"

/-- The state after these steps: the tab `a.txt` is created with the content
`X` at the clock reading 1 and its view receives the focus; the vertical split
is switched on at the clock reading 2, which creates the empty tab
`tab-2-right` in the right pane, and the view of the right pane receives the
focus; then the split is switched off again. No content change has occurred. -/
def splitOffState : AppState :=
  toggleSplit
    (handleFocusChange
      (toggleSplit (handleFocusChange (createNewTab initialAppState "a.txt" "X" none 1).1 "left") 2)
      "right")
    3

/-- The state after the split of `splitState` has been reset with
`resetSplitWindow()` and the user has clicked on the tab `a.txt` (the click
handler of the tab element calls `switchToTabInPane` with the pane the tab was
created in). -/
def resetSplitClickedState : AppState :=
  switchToTabInPane (resetSplitWindow splitState) "tab-1-left" "left"

/-- A collation used as an example: names compared by their length. -/
def lengthCompare (a b : String) : Int := (a.length : Int) - (b.length : Int)

/-- A directory listing used as an example. -/
def demoEntries : List Entry :=
  [{ name := "notes.txt", isDir := false }, { name := "src", isDir := true },
   { name := "a.md", isDir := false }, { name := "build", isDir := true }]

/-! ## Saving, closing all tabs, menu state (fileOperations.js, state.js, tabManager.js) -/

/-- The segments of `path.split(/[\\/]/)`, the last one first in the
accumulator `current`. -/
def pathSegments (current : List Char) : List Char → List (List Char)
  | [] => [current.reverse]
  | c :: cs =>
    if c = '/' ∨ c = Char.ofNat 92 then current.reverse :: pathSegments [] cs
    else pathSegments (c :: current) cs

/-- The expression `filePath.split(/[\\/]/).pop()`. -/
def lastSegment (path : String) : String :=
  String.mk ((pathSegments [] path.toList).getLast?.getD [])

/-- Function `updateCurrentTabOnSave(filePath, newContent)` (state.js, lines
313-336); the refresh of the title, of the menu and of the status line reads
the state and changes nothing in it. -/
def updateCurrentTabOnSave (st : AppState) (filePath : Option String) (newContent : String) :
    AppState :=
  updateActiveTab st (fun tab =>
    if truthyString filePath then
      { tab with filePath := filePath, fileName := lastSegment (filePath.getD ""),
                 savedContent := some newContent, dirty := false }
    else { tab with savedContent := some newContent, dirty := false })

/-- Function `validateContent(content)`: `!content || !content.trim()` gives
false. -/
def validateContent (content : String) : Bool :=
  content != "" && trim content.toList != []

/-- Function `saveFile()`; `backendResult` is the value that the backend call
`SaveFile` resolves to. The new state and the returned value. Without an
active tab `appState.getActiveTab().fileName` raises, and the `catch` returns
false. -/
def saveFile (st : AppState) (backendResult : Bool) : AppState × Bool :=
  if !validateContent (getValue st) then (st, false)
  else
    match getActiveTab st with
    | none => (st, false)
    | some tab =>
      let fname := if tab.fileName = "" then defaultTabName else tab.fileName
      let fnamepath := if truthyString tab.filePath then tab.filePath.getD "" else fname
      if fname = "" ∨ fnamepath = "" then (st, false)
      else
        let st1 := { st with backendCalls := st.backendCalls ++
          [BackendCall.saveFile (getValue st) fnamepath (fname != defaultTabName)] }
        if !backendResult then (st1, false)
        else (updateCurrentTabOnSave st1 (some fname) (getValue st), true)

/-- Function `closeTabWithoutConfirmation(tabId)` (tabManager.js, lines
118-124): it looks the tab up and returns. -/
def closeTabWithoutConfirmation (st : AppState) (tabId : String) : AppState :=
  match mapGet st.openTabs tabId with
  | none => st
  | some _ => st

/-- Function `closeAllTabs()` at the clock reading `now`; `confirmed` is the
answer of the user to the confirmation dialog, read only when an editor tab is
dirty. -/
def closeAllTabs (st : AppState) (confirmed : Bool) (now : Nat) : AppState :=
  if st.openTabs.length = 0 then (createNewTab st defaultTabName "" none now).1
  else if (st.openTabs.filter (fun entry => entry.2.type = "editor" && entry.2.dirty)).length > 0
      && !confirmed then st
  else
    let st1 := (st.openTabs.map Prod.fst).foldl
      (fun s tabId =>
        match mapGet s.openTabs tabId with
        | some _ => closeTabWithoutConfirmation s tabId
        | none => s) st
    if st1.openTabs.length = 0 then (createNewTab st1 defaultTabName "" none now).1 else st1

/-- Method `setSplitActive(active)` (state.js, lines 23-29); no code calls
it. -/
def setSplitActive (st : AppState) (active : Bool) : AppState :=
  { st with isSplitActive := some active,
            activePane := if !active then "left" else st.activePane }

/-- The constant `canSplit` of `updateMenuState` (state.js, line 190):
`hasOpenTabs && !this.isSplitActive`; it is the enabled state given to the
menu entry `menu-split-vertical`. -/
def canSplit (st : AppState) : Bool :=
  decide (st.openTabs.length > 0) && !(st.isSplitActive.getD false)

/-! ## Language detector (language.js) -/

/-- A rule of `LanguageDetector.rules`. -/
structure Rule where
  tag : String
  keywords : Option (List String)
  test : Option (List Char → Bool)

/-- Call `l.includes(text)` on the lower-cased prompt. -/
def has (l : List Char) (text : String) : Bool := includes l text.toList

/-- A rule with a list of keywords. -/
def keywordRule (tag : String) (keywords : List String) : Rule :=
  { tag := tag, keywords := some keywords, test := none }

/-- A rule with a test function. -/
def testRule (tag : String) (test : List Char → Bool) : Rule :=
  { tag := tag, keywords := none, test := some test }

/-- The array `this.rules` of the constructor, in order. -/
def rules : List Rule :=
  [ keywordRule "//c#" ["c#"],
    keywordRule "cpp" ["c++", "cpp"],
    keywordRule "//ts" ["typescript", ".ts", "tsx"],
    testRule "go" (fun l => has l "go " || has l "golang" || has l "func main()" ||
      has l "package "),
    keywordRule "//js" ["javascript", "js ", "node.js", ".js", "console.log", "function()",
      "const ", "let ", "var "],
    keywordRule "//py" ["python", "py ", ".py", "import ", "def ", "print(", "numpy", "pandas"],
    keywordRule "html" ["html", "<div", "<html", "<!doctype", "<body", "</", "<p>", "<span"],
    testRule "css" (fun l => has l "css" || (has l "\x7b" && has l "\x7d" &&
      (has l "color:" || has l "margin:" || has l "padding:" || has l "font-" || has l ".css"))),
    keywordRule "rust" ["rust", "fn main()", "let mut", "println!"],
    keywordRule "java" ["java", "public class", "system.out.print", ".java", "void main"],
    testRule "c" (fun l => has l " c " || has l "c program" || has l "#include <stdio.h>" ||
      has l "printf(" || (has l "int main" && !has l "c++")),
    testRule "ruby" (fun l => has l "ruby" || has l "rb " || (has l "def " && has l "end") ||
      has l "puts " || has l "require "),
    keywordRule "php" ["php", "<?php", "$_", "echo "],
    testRule "swift" (fun l => has l "swift" || (has l "func " && has l "var " && has l ": ")),
    keywordRule "kotlin" ["kotlin", "fun ", "val ", "println("],
    keywordRule "sql" ["sql", "select ", "from ", "where ", "insert into", "update "],
    keywordRule "bash" ["bash", "shell", "#!", "#!/bin/", "echo ", "$"],
    keywordRule "markdown" ["markdown", "# ", "## ", "* ", "- [ ]"],
    testRule "json" (fun l => (has l "\x7b" && has l "\x7d") &&
      (has l "\": \"" || has l "\": [")),
    testRule "yaml" (fun l => has l "yaml" || (has l ": " && (has l "\n  " || has l "- "))),
    testRule "docker" (fun l => has l "docker" || (has l "from " && has l "copy " ||
      has l "run ")),
    testRule "graphql" (fun l => has l "graphql" || (has l "query " ||
      (has l "\x7b" && has l "\x7d" && has l ":"))),
    keywordRule "assembly" ["assembly", "asm ", "mov ", "eax,"],
    keywordRule "r" [" r ", "r studio", "<-", "data.frame"],
    testRule "matlab" (fun l => has l "matlab" ||
      (has l "function " && has l "end" && has l "%")),
    keywordRule "dart" ["dart", "flutter", "void main()", "widget"],
    testRule "lua" (fun l => has l "lua" || (has l "function " && has l "end" && has l "local ")),
    keywordRule "powershell" ["powershell", "ps1", "get-", "$"],
    testRule "scala" (fun l => has l "scala" || has l "object " || (has l "def " && has l ": ")),
    keywordRule "perl" ["perl", "#!/usr/bin/perl", "my $", "print "],
    keywordRule "fortran" ["fortran", "program ", "integer", "write(*,*"],
    keywordRule "haskell" ["haskell", ":: ", "->", "let "],
    testRule "elixir" (fun l => has l "elixir" || has l "defmodule " ||
      (has l "def " && has l "do")),
    keywordRule "clojure" ["clojure", "(defn ", "(println ", "))"],
    testRule "fsharp" (fun l => has l "f#" || (has l "let " && has l "->")),
    keywordRule "objective-c" ["objective-c", "objc", "@interface", "[self "],
    testRule "groovy" (fun l => has l "groovy" ||
      (has l "def " && has l "println " && !has l "java")),
    testRule "julia" (fun l => has l "julia" ||
      (has l "function " && has l "end" && has l "println(")),
    keywordRule "ada" ["ada", "procedure ", "begin", "end "],
    keywordRule "prolog" ["prolog", ":-", "."],
    keywordRule "verilog" ["verilog", "vhdl", "module ", "entity "] ]

/-- The two tests of the body of the loop of `detect` on one rule:
`rule.keywords && rule.keywords.some(kw => lower.includes(kw))`, then
`rule.test && rule.test(lower)`. -/
def ruleMatches (lower : List Char) (rule : Rule) : Bool :=
  (match rule.keywords with
    | some keywords => keywords.any (fun kw => has lower kw)
    | none => false) ||
  (match rule.test with
    | some test => test lower
    | none => false)

/-- The loop `for (const rule of this.rules)` of `detect` and the code after
it, on the lower-cased prompt. -/
def detectLoop (lower : List Char) : List Rule → String
  | [] => if has lower "c " && !has lower "c#" && !has lower "c++" then "c" else "general"
  | rule :: rest => if ruleMatches lower rule then rule.tag else detectLoop lower rest

/-- Method `LanguageDetector.detect(prompt)`, `toLowerCase` being the builtin
`String.prototype.toLowerCase`. -/
def detect (toLowerCase : List Char → List Char) (prompt : List Char) : String :=
  if prompt = [] then "general" else detectLoop (toLowerCase prompt) rules

/-- The mapping `toLowerCase` on the letters of ASCII (on a string of ASCII
characters it is the builtin). -/
def asciiLowerCase (s : List Char) : List Char := s.map Char.toLower

/-! ## Definitions used by the statements on saving, comments and contexts -/

/-- A document of one line: a declaration followed by a comment. -/
def trailingCommentDocument : List Char := "function foo() \x7b\x7d // helper".toList

/-- A document of two lines: an exported class and a method signature. -/
def exportedClassDocument : List Char := "export class Foo \x7b\n  bar() \x7b".toList

/-- The state after an editor tab has been created with a content of white
space only. -/
def blankTabState : AppState := (createNewTab initialAppState "a.txt" " \n\t" none 1).1

/-! ## Definitions used by the statements on the shape of the tree -/

/-- Pre-order (depth-first, children in order) traversal of the forest whose
roots are `nodes`, every item's children being read from `children`; `fuel`
bounds the depth that is visited. -/
def preorder (children : Nat → List Nat) : Nat → List Nat → List Nat
  | 0, _ => []
  | fuel + 1, nodes => nodes.flatMap (fun v => v :: preorder children fuel (children v))

/-! ## Proofs: `buildTree` -/

theorem popWhile_popWhile (lvl : Nat → Int) (a b : Int) (h : a ≤ b) (s : List Nat) :
    popWhile lvl a (popWhile lvl b s) = popWhile lvl a s := by
  induction s with
  | nil => rfl
  | cons t s ih =>
    by_cases hb : lvl t ≥ b
    · have ha : lvl t ≥ a := le_trans h hb
      simp [popWhile, hb, ha, ih]
    · simp [popWhile, hb]

theorem nearestBelow_lt (lvl : Nat → Int) (level : Int) (n p : Nat)
    (h : nearestBelow lvl level n = some p) : p < n := by
  induction n with
  | zero => simp [nearestBelow] at h
  | succ n ih =>
    unfold nearestBelow at h
    split at h
    · cases h; exact Nat.lt_succ_self _
    · exact Nat.lt_succ_of_lt (ih h)

theorem nearestBelow_eq_some (lvl : Nat → Int) (level : Int) (n p : Nat) :
    nearestBelow lvl level n = some p ↔
      (p < n ∧ lvl p < level ∧ ∀ k, p < k → k < n → level ≤ lvl k) := by
  induction n with
  | zero => simp [nearestBelow]
  | succ n ih =>
    unfold nearestBelow
    by_cases hn : lvl n < level
    · simp only [hn, if_true, Option.some.injEq]
      constructor
      · rintro rfl
        exact ⟨Nat.lt_succ_self _, hn, fun k h1 h2 => absurd h1 (by omega)⟩
      · rintro ⟨h1, _, h3⟩
        by_contra hne
        have hlt : p < n := by omega
        have := h3 n hlt (Nat.lt_succ_self _)
        omega
    · simp only [hn, if_false, ih]
      constructor
      · rintro ⟨h1, h2, h3⟩
        refine ⟨Nat.lt_succ_of_lt h1, h2, fun k hk1 hk2 => ?_⟩
        rcases Nat.lt_succ_iff_lt_or_eq.mp hk2 with hk | rfl
        · exact h3 k hk1 hk
        · exact not_lt.mp hn
      · rintro ⟨h1, h2, h3⟩
        have hpn : p ≠ n := by rintro rfl; exact hn h2
        exact ⟨by omega, h2, fun k hk1 hk2 => h3 k hk1 (Nat.lt_succ_of_lt hk2)⟩

theorem nearestBelow_eq_none (lvl : Nat → Int) (level : Int) (n : Nat) :
    nearestBelow lvl level n = none ↔ ∀ k, k < n → level ≤ lvl k := by
  induction n with
  | zero => simp [nearestBelow]
  | succ n ih =>
    unfold nearestBelow
    by_cases hn : lvl n < level
    · simp only [hn, if_true]
      constructor
      · intro h; cases h
      · intro h; have := h n (Nat.lt_succ_self _); omega
    · simp only [hn, if_false, ih]
      constructor
      · intro h k hk
        rcases Nat.lt_succ_iff_lt_or_eq.mp hk with hk | rfl
        · exact h k hk
        · exact not_lt.mp hn
      · intro h k hk
        exact h k (Nat.lt_succ_of_lt hk)

theorem filter_range_succ (q : Nat → Bool) (n : Nat) :
    (List.range (n + 1)).filter q = (List.range n).filter q ++ (if q n then [n] else []) := by
  rw [List.range_succ, List.filter_append]
  by_cases h : q n <;> simp [List.filter, h]

/-- Invariant of the loop of `buildTree`. -/
theorem buildRun_spec (lvl : Nat → Int) (n : Nat) :
    (∀ level, (popWhile lvl level (buildRun lvl n).stack).head? = nearestBelow lvl level n) ∧
    (buildRun lvl n).tree = (List.range n).filter (fun j => decide (parentOf lvl j = none)) ∧
    (∀ p, (buildRun lvl n).children p
        = (List.range n).filter (fun j => decide (parentOf lvl j = some p))) := by
  induction n with
  | zero =>
    refine ⟨fun level => ?_, ?_, fun p => ?_⟩ <;> simp [buildRun, popWhile, nearestBelow]
  | succ n ih =>
    obtain ⟨hstack, htree, hch⟩ := ih
    have hrun : buildRun lvl (n + 1) = buildStep lvl (buildRun lvl n) n := by
      simp [buildRun, List.range_succ, List.foldl_append]
    have hnoself : (List.range n).filter (fun j => decide (parentOf lvl j = some n)) = [] := by
      rw [List.filter_eq_nil_iff]
      intro j hj
      have hjn : j < n := List.mem_range.mp hj
      simp only [decide_eq_true_eq]
      intro hp
      have := nearestBelow_lt lvl (lvl j) j n hp
      omega
    have hhead := hstack (lvl n)
    rw [hrun]
    cases hpop : popWhile lvl (lvl n) (buildRun lvl n).stack with
    | nil =>
      rw [hpop] at hhead
      have hpar : parentOf lvl n = none := by simpa [parentOf] using hhead.symm
      refine ⟨fun level => ?_, ?_, fun p => ?_⟩
      · simp only [buildStep, hpop]
        by_cases hl : lvl n < level
        · have hl2 : ¬ (lvl n ≥ level) := not_le.mpr hl
          simp [popWhile, nearestBelow, hl, hl2]
        · have hl2 : lvl n ≥ level := not_lt.mp hl
          have h2 := hstack level
          rw [← popWhile_popWhile lvl level (lvl n) hl2, hpop] at h2
          simp only [popWhile, nearestBelow, hl, hl2, if_true, if_false]
          simpa [popWhile] using h2
      · simp only [buildStep, hpop]
        rw [filter_range_succ, htree]
        simp [hpar]
      · simp only [buildStep, hpop, setChildren]
        rw [filter_range_succ]
        by_cases hpn : p = n
        · subst hpn; simp [hnoself, hpar]
        · simp [hpn, hch p, hpar]
    | cons top below =>
      rw [hpop] at hhead
      have hpar : parentOf lvl n = some top := by simpa [parentOf] using hhead.symm
      have htop : top < n := nearestBelow_lt lvl (lvl n) n top hpar
      have htopne : top ≠ n := Nat.ne_of_lt htop
      refine ⟨fun level => ?_, ?_, fun p => ?_⟩
      · simp only [buildStep, hpop]
        by_cases hl : lvl n < level
        · have hl2 : ¬ (lvl n ≥ level) := not_le.mpr hl
          simp [popWhile, nearestBelow, hl, hl2]
        · have hl2 : lvl n ≥ level := not_lt.mp hl
          have h2 := hstack level
          rw [← popWhile_popWhile lvl level (lvl n) hl2, hpop] at h2
          rw [show popWhile lvl level (n :: top :: below) = popWhile lvl level (top :: below) by
            simp [popWhile, hl2]]
          simp only [nearestBelow, hl, if_false]
          exact h2
      · simp only [buildStep, hpop]
        rw [filter_range_succ, htree]
        simp [hpar]
      · simp only [buildStep, hpop, setChildren]
        rw [filter_range_succ]
        by_cases hpt : p = top
        · subst hpt
          simp [htopne, hch p, hpar]
        · have hne : ¬ (top = p) := fun h => hpt h.symm
          by_cases hpn : p = n
          · subst hpn; simp [hpt, hnoself, hpar, hne]
          · simp [hpt, hpn, hch p, hpar, hne]

theorem mem_tree_iff (levels : List Int) (j : Nat) :
    j ∈ (buildTree levels).tree ↔ (j < levels.length ∧ parentOf (levelAt levels) j = none) := by
  unfold buildTree
  rw [(buildRun_spec (levelAt levels) levels.length).2.1]
  simp [List.mem_filter]

theorem mem_children_iff (levels : List Int) (p j : Nat) :
    j ∈ (buildTree levels).children p ↔
      (j < levels.length ∧ parentOf (levelAt levels) j = some p) := by
  unfold buildTree
  rw [(buildRun_spec (levelAt levels) levels.length).2.2 p]
  simp [List.mem_filter]

theorem sorted_filter_range (q : Nat → Bool) (n : Nat) :
    List.Sorted (· < ·) ((List.range n).filter q) :=
  List.Pairwise.filter _ (List.sorted_lt_range n)

theorem siblings_iff_parentOf (levels : List Int) (i j : Nat)
    (hi : i < levels.length) (hj : j < levels.length) :
    Siblings levels i j ↔ parentOf (levelAt levels) i = parentOf (levelAt levels) j := by
  unfold Siblings
  simp only [mem_tree_iff, mem_children_iff, hi, hj, true_and]
  constructor
  · rintro (⟨h1, h2⟩ | ⟨p, _, h1, h2⟩)
    · rw [h1, h2]
    · rw [h1, h2]
  · intro h
    cases hp : parentOf (levelAt levels) j with
    | none => left; exact ⟨by rw [h, hp], rfl⟩
    | some p =>
      right
      refine ⟨p, ?_, by rw [h, hp], rfl⟩
      have := nearestBelow_lt _ _ _ _ hp
      omega

theorem nearestBelow_same_level (lvl : Nat → Int) (i j : Nat) (hij : i < j)
    (hl : lvl i = lvl j) :
    nearestBelow lvl (lvl i) i = nearestBelow lvl (lvl j) j ↔
      ∀ k, i < k → k < j → lvl i ≤ lvl k := by
  rw [← hl]
  constructor
  · intro h k hik hkj
    by_contra hlt
    have hlt : lvl k < lvl i := not_le.mp hlt
    cases hp : nearestBelow lvl (lvl i) j with
    | none =>
      have := (nearestBelow_eq_none lvl (lvl i) j).mp hp k hkj
      omega
    | some q =>
      obtain ⟨_, _, h3⟩ := (nearestBelow_eq_some lvl (lvl i) j q).mp hp
      have hqk : k ≤ q := by
        by_contra hc
        have := h3 k (by omega) hkj
        omega
      rw [hp] at h
      have := nearestBelow_lt lvl (lvl i) i q h
      omega
  · intro h
    cases hp : nearestBelow lvl (lvl i) i with
    | none =>
      symm
      rw [nearestBelow_eq_none] at hp ⊢
      intro k hk
      rcases Nat.lt_trichotomy k i with hki | rfl | hki
      · exact hp k hki
      · exact le_refl _
      · exact h k hki hk
    | some q =>
      symm
      rw [nearestBelow_eq_some] at hp ⊢
      obtain ⟨h1, h2, h3⟩ := hp
      refine ⟨by omega, h2, fun k hqk hkj => ?_⟩
      rcases Nat.lt_trichotomy k i with hki | rfl | hki
      · exact h3 k hqk hki
      · exact le_refl _
      · exact h k hki hkj

/-- C1. Parent rule of `buildTree`: item `j` is in the `children` array of item
`p` exactly when `p` is the nearest position before `j` whose level is strictly
smaller than the level of `j`; item `j` is a root exactly when no position
before it has a strictly smaller level; the roots and every `children` array
are in strictly increasing position, that is, in source order without
repetition. -/
theorem buildTree_parent_rule (levels : List Int) :
    (∀ p j, j ∈ (buildTree levels).children p ↔
        (j < levels.length ∧ p < j ∧ levelAt levels p < levelAt levels j ∧
          ∀ k, p < k → k < j → ¬ levelAt levels k < levelAt levels j)) ∧
    (∀ j, j ∈ (buildTree levels).tree ↔
        (j < levels.length ∧ ∀ k, k < j → ¬ levelAt levels k < levelAt levels j)) ∧
    List.Sorted (· < ·) (buildTree levels).tree ∧
    (∀ p, List.Sorted (· < ·) ((buildTree levels).children p)) := by
  refine ⟨fun p j => ?_, fun j => ?_, ?_, fun p => ?_⟩
  · rw [mem_children_iff, parentOf, nearestBelow_eq_some]
    simp only [not_lt]
  · rw [mem_tree_iff, parentOf, nearestBelow_eq_none]
    simp only [not_lt]
  · unfold buildTree
    rw [(buildRun_spec (levelAt levels) levels.length).2.1]
    exact sorted_filter_range _ _
  · unfold buildTree
    rw [(buildRun_spec (levelAt levels) levels.length).2.2 p]
    exact sorted_filter_range _ _

/-- C2 (as stated, refuted). For the levels `[0,1,2,1]` the claim asks for
items 2 and 3 nested under item 1 and for two roots, item 1 and item 4
(positions 0 and 3); the tree built does not have these two roots. -/
theorem buildTree_0121_two_roots_false :
    ¬ ((1 ∈ (buildTree [0, 1, 2, 1]).children 0 ∧ 2 ∈ (buildTree [0, 1, 2, 1]).children 1) ∧
        (buildTree [0, 1, 2, 1]).tree = [0, 3]) := by
  decide

/-- C2 (amended). For the levels `[0,1,2,1]`, `buildTree` returns the single
root item 1 (position 0); its children are items 2 and 4 (positions 1 and 3) in
that order, item 3 (position 2) is the only child of item 2, and items 3 and 4
have no children. -/
theorem buildTree_0121 :
    (buildTree [0, 1, 2, 1]).tree = [0] ∧
    (buildTree [0, 1, 2, 1]).children 0 = [1, 3] ∧
    (buildTree [0, 1, 2, 1]).children 1 = [2] ∧
    (buildTree [0, 1, 2, 1]).children 2 = [] ∧
    (buildTree [0, 1, 2, 1]).children 3 = [] := by
  decide

/-- C3 (as stated, refuted). In the list of levels `[1,0,1]` the first and
the third item carry the same level, and they are not siblings: the first is a
root, the third is a child of the second. -/
theorem same_level_not_siblings :
    levelAt [1, 0, 1] 0 = levelAt [1, 0, 1] 2 ∧
    0 ∈ (buildTree [1, 0, 1]).tree ∧ 2 ∈ (buildTree [1, 0, 1]).children 1 ∧
    ¬ Siblings [1, 0, 1] 0 2 := by
  decide

/-- C3 (amended). Two items of the list that carry the same level are siblings
(same parent, or both roots) exactly when no item between them has a strictly
smaller level. -/
theorem same_level_siblings_iff (levels : List Int) (i j : Nat) (hij : i < j)
    (hj : j < levels.length) (hl : levelAt levels i = levelAt levels j) :
    Siblings levels i j ↔ ∀ k, i < k → k < j → ¬ levelAt levels k < levelAt levels i := by
  rw [siblings_iff_parentOf levels i j (by omega) hj]
  unfold parentOf
  rw [nearestBelow_same_level _ i j hij hl]
  simp only [not_lt]

theorem same_level_siblings_iff_witness :
    Siblings [0, 1, 2, 1] 1 3 ↔
      ∀ k, 1 < k → k < 3 → ¬ levelAt [0, 1, 2, 1] k < levelAt [0, 1, 2, 1] 1 :=
  same_level_siblings_iff [0, 1, 2, 1] 1 3 (by decide) (by decide) (by decide)

/-! ## Proofs: `removeDuplicates` -/

theorem digitChar_value (k : Nat) (h : k < 10) :
    digitValue (Nat.digitChar k) = k ∧ Nat.digitChar k ≠ '-' := by
  interval_cases k <;> decide

theorem toDigitsCore_append (fuel n : Nat) (ds : List Char) :
    Nat.toDigitsCore 10 fuel n ds = Nat.toDigitsCore 10 fuel n [] ++ ds := by
  induction fuel generalizing n ds with
  | zero => simp [Nat.toDigitsCore]
  | succ fuel ih =>
    simp only [Nat.toDigitsCore]
    split
    · simp
    · rw [ih (n / 10) (Nat.digitChar (n % 10) :: ds), ih (n / 10) [Nat.digitChar (n % 10)]]
      simp

theorem decimalValue_append_singleton (ds : List Char) (c : Char) :
    decimalValue (ds ++ [c]) = 10 * decimalValue ds + digitValue c := by
  simp [decimalValue, List.foldl_append]

theorem toDigitsCore_value (fuel n : Nat) (h : n < fuel) :
    decimalValue (Nat.toDigitsCore 10 fuel n []) = n ∧
      ∀ c ∈ Nat.toDigitsCore 10 fuel n [], c ≠ '-' := by
  induction fuel generalizing n with
  | zero => omega
  | succ fuel ih =>
    have hd := digitChar_value (n % 10) (Nat.mod_lt _ (by decide))
    simp only [Nat.toDigitsCore]
    split
    · rename_i h0
      constructor
      · simp only [decimalValue, List.foldl_cons, List.foldl_nil, hd.1]
        omega
      · intro c hc
        simp only [List.mem_singleton] at hc
        rw [hc]; exact hd.2
    · rename_i h0
      have hlt : n / 10 < fuel := by omega
      obtain ⟨hv, hc⟩ := ih (n / 10) hlt
      rw [toDigitsCore_append]
      constructor
      · rw [decimalValue_append_singleton, hv, hd.1]
        omega
      · intro c hmem
        rcases List.mem_append.mp hmem with hm | hm
        · exact hc c hm
        · simp only [List.mem_singleton] at hm
          rw [hm]; exact hd.2

theorem toDigits_injective (a b : Nat) (h : Nat.toDigits 10 a = Nat.toDigits 10 b) : a = b := by
  have ha := (toDigitsCore_value (a + 1) a (Nat.lt_succ_self a)).1
  have hb := (toDigitsCore_value (b + 1) b (Nat.lt_succ_self b)).1
  unfold Nat.toDigits at h
  rw [← ha, ← hb, h]

theorem toDigits_no_dash (a : Nat) : ∀ c ∈ Nat.toDigits 10 a, c ≠ '-' :=
  (toDigitsCore_value (a + 1) a (Nat.lt_succ_self a)).2

theorem append_dash_cancel (xs ys us vs : List Char)
    (hx : ∀ c ∈ xs, c ≠ '-') (hy : ∀ c ∈ ys, c ≠ '-')
    (h : xs ++ '-' :: us = ys ++ '-' :: vs) : xs = ys ∧ us = vs := by
  induction xs generalizing ys with
  | nil =>
    cases ys with
    | nil => simpa using h
    | cons y ys =>
      simp only [List.nil_append, List.cons_append, List.cons.injEq] at h
      exact absurd h.1.symm (hy y (List.mem_cons_self _ _))
  | cons x xs ih =>
    cases ys with
    | nil =>
      simp only [List.nil_append, List.cons_append, List.cons.injEq] at h
      exact absurd h.1 (hx x (List.mem_cons_self _ _))
    | cons y ys =>
      simp only [List.cons_append, List.cons.injEq] at h
      obtain ⟨h1, h2⟩ := ih ys (fun c hc => hx c (List.mem_cons_of_mem _ hc))
        (fun c hc => hy c (List.mem_cons_of_mem _ hc)) h.2
      exact ⟨by rw [h.1, h1], h2⟩

theorem itemKey_eq_iff (a b : Item) (ha : a.name ≠ "") (hb : b.name ≠ "") :
    itemKey a = itemKey b ↔ linePair a = linePair b := by
  unfold itemKey linePair
  simp only [ha, hb, if_false, Prod.mk.injEq]
  constructor
  · intro h
    obtain ⟨h1, h2⟩ := append_dash_cancel _ _ _ _ (toDigits_no_dash _) (toDigits_no_dash _) h
    exact ⟨toDigits_injective _ _ h1, String.ext h2⟩
  · rintro ⟨h1, h2⟩
    rw [h1, h2]

theorem removeDuplicatesFrom_sublist (seen : List (List Char)) (outline : List Item) :
    List.Sublist (removeDuplicatesFrom seen outline) outline := by
  induction outline generalizing seen with
  | nil => exact List.Sublist.slnil
  | cons item rest ih =>
    unfold removeDuplicatesFrom
    split
    · exact List.Sublist.cons _ (ih seen)
    · exact List.Sublist.cons₂ _ (ih _)

theorem removeDuplicatesFrom_fresh (seen : List (List Char)) (outline : List Item) :
    ((removeDuplicatesFrom seen outline).map itemKey).Nodup ∧
      ∀ r ∈ removeDuplicatesFrom seen outline, itemKey r ∉ seen := by
  induction outline generalizing seen with
  | nil => simp [removeDuplicatesFrom]
  | cons item rest ih =>
    unfold removeDuplicatesFrom
    split
    · exact ih seen
    · rename_i hnew
      obtain ⟨h1, h2⟩ := ih (itemKey item :: seen)
      constructor
      · rw [List.map_cons, List.nodup_cons]
        refine ⟨?_, h1⟩
        intro hmem
        obtain ⟨r, hr, hk⟩ := List.mem_map.mp hmem
        exact h2 r hr (by rw [hk]; exact List.mem_cons_self _ _)
      · intro r hr
        rcases List.mem_cons.mp hr with rfl | hr
        · exact hnew
        · exact fun hs => h2 r hr (List.mem_cons_of_mem _ hs)

theorem removeDuplicatesFrom_covers (seen : List (List Char)) (outline : List Item) :
    ∀ item ∈ outline, itemKey item ∈ seen ∨
      ∃ r ∈ removeDuplicatesFrom seen outline, itemKey r = itemKey item := by
  induction outline generalizing seen with
  | nil => intro item h; cases h
  | cons first rest ih =>
    intro item hitem
    unfold removeDuplicatesFrom
    rcases List.mem_cons.mp hitem with rfl | hrest
    · by_cases hs : itemKey item ∈ seen
      · exact Or.inl hs
      · right
        simp only [hs, if_false]
        exact ⟨item, List.mem_cons_self _ _, rfl⟩
    · by_cases hs : itemKey first ∈ seen
      · simp only [hs, if_true]
        exact ih seen item hrest
      · simp only [hs, if_false]
        rcases ih (itemKey first :: seen) item hrest with h | ⟨r, hr, hk⟩
        · rcases List.mem_cons.mp h with h | h
          · exact Or.inr ⟨first, List.mem_cons_self _ _, h.symm⟩
          · exact Or.inl h
        · exact Or.inr ⟨r, List.mem_cons_of_mem _ hr, hk⟩

theorem removeDuplicatesFrom_first (seen : List (List Char)) (outline : List Item) :
    ∀ r ∈ removeDuplicatesFrom seen outline,
      outline.find? (fun x => decide (itemKey x = itemKey r)) = some r := by
  induction outline generalizing seen with
  | nil => intro r h; simp [removeDuplicatesFrom] at h
  | cons first rest ih =>
    intro r hr
    unfold removeDuplicatesFrom at hr
    by_cases hs : itemKey first ∈ seen
    · simp only [hs, if_true] at hr
      have hne : itemKey first ≠ itemKey r := by
        intro h
        exact (removeDuplicatesFrom_fresh seen rest).2 r hr (h ▸ hs)
      rw [List.find?_cons_of_neg _ (by simpa using hne)]
      exact ih seen r hr
    · simp only [hs, if_false] at hr
      rcases List.mem_cons.mp hr with rfl | hr
      · simp
      · have hne : itemKey first ≠ itemKey r := by
          intro h
          exact (removeDuplicatesFrom_fresh _ rest).2 r hr (by rw [h]; exact List.mem_cons_self _ _)
        rw [List.find?_cons_of_neg _ (by simpa using hne)]
        exact ih _ r hr

theorem find_congr_mem {α : Type} (l : List α) (p q : α → Bool) (h : ∀ x ∈ l, p x = q x) :
    l.find? p = l.find? q := by
  induction l with
  | nil => rfl
  | cons a l ih =>
    have ha := h a (List.mem_cons_self _ _)
    have ih2 := ih (fun x hx => h x (List.mem_cons_of_mem _ hx))
    simp only [List.find?_cons, ha, ih2]

/-- C4. For every list of outline items with non-empty names, the result of
`removeDuplicates` is a sublist of the input (the survivors keep their order),
no two of its items have the same pair of line and name, every survivor is the
first item of the input that carries its pair, and for every item of the input
the result holds an item with the same pair (items with different pairs are
not merged). -/
theorem removeDuplicates_spec (outline : List Item) (hname : ∀ item ∈ outline, item.name ≠ "") :
    List.Sublist (removeDuplicates outline) outline ∧
    ((removeDuplicates outline).map linePair).Nodup ∧
    (∀ r ∈ removeDuplicates outline,
        outline.find? (fun x => decide (linePair x = linePair r)) = some r) ∧
    (∀ item ∈ outline, ∃ r ∈ removeDuplicates outline, linePair r = linePair item) := by
  have hsub := removeDuplicatesFrom_sublist [] outline
  have hin : ∀ r ∈ removeDuplicates outline, r ∈ outline := fun r hr => hsub.subset hr
  refine ⟨hsub, ?_, ?_, ?_⟩
  · have hnd := (removeDuplicatesFrom_fresh [] outline).1
    refine List.Nodup.of_map (fun p : Nat × String =>
      Nat.toDigits 10 p.1 ++ '-' :: (if p.2 = "" then "undefined".toList else p.2.toList)) ?_
    rw [List.map_map]
    exact hnd
  · intro r hr
    have h := removeDuplicatesFrom_first [] outline r hr
    rw [← h]
    apply find_congr_mem
    intro x hx
    have := itemKey_eq_iff x r (hname x hx) (hname r (hin r hr))
    simp only [this]
  · intro item hitem
    rcases removeDuplicatesFrom_covers [] outline item hitem with h | ⟨r, hr, hk⟩
    · cases h
    · exact ⟨r, hr, (itemKey_eq_iff r item (hname r (hin r hr)) (hname item hitem)).mp hk⟩

theorem removeDuplicates_spec_witness :
    List.Sublist (removeDuplicates duplicateOutline) duplicateOutline ∧
    ((removeDuplicates duplicateOutline).map linePair).Nodup ∧
    (∀ r ∈ removeDuplicates duplicateOutline,
        duplicateOutline.find? (fun x => decide (linePair x = linePair r)) = some r) ∧
    (∀ item ∈ duplicateOutline,
        ∃ r ∈ removeDuplicates duplicateOutline, linePair r = linePair item) :=
  removeDuplicates_spec duplicateOutline (by decide)

/-! ## Proofs: the regular-expression matcher -/

theorem mem_seq_run (a b : Re) (s t : MState) :
    t ∈ (Re.seq a b).run s ↔ ∃ u, u ∈ a.run s ∧ t ∈ b.run u := by
  simp [Re.run, List.mem_flatMap]

theorem lookup_cons_isSome (caps : List (Nat × List Char)) (n k : Nat) (v : List Char)
    (h : (caps.lookup k).isSome) : (List.lookup k ((n, v) :: caps)).isSome := by
  rw [List.lookup_cons]
  split
  · rfl
  · exact h

theorem starLoop_caps (m : MState → List MState)
    (hm : ∀ s t, t ∈ m s → ∀ k, (s.caps.lookup k).isSome → (t.caps.lookup k).isSome)
    (fuel : Nat) : ∀ s t, t ∈ starLoop m fuel s →
      ∀ k, (s.caps.lookup k).isSome → (t.caps.lookup k).isSome := by
  induction fuel with
  | zero =>
    intro s t ht k hk
    simp only [starLoop, List.mem_singleton] at ht
    rw [ht]; exact hk
  | succ fuel ih =>
    intro s t ht k hk
    simp only [starLoop, List.mem_append, List.mem_flatMap, List.mem_filter,
      List.mem_singleton] at ht
    rcases ht with ⟨u, ⟨hu, _⟩, htu⟩ | rfl
    · exact ih u t htu k (hm s u hu k hk)
    · exact hk

/-- Matching never forgets a capture. -/
theorem run_caps (re : Re) : ∀ s t, t ∈ re.run s →
    ∀ k, (s.caps.lookup k).isSome → (t.caps.lookup k).isSome := by
  induction re with
  | cls p =>
    intro s t ht k hk
    simp only [Re.run] at ht
    split at ht
    · split at ht
      · simp only [List.mem_singleton] at ht
        rw [ht]; exact hk
      · cases ht
    · cases ht
  | eps =>
    intro s t ht k hk
    simp only [Re.run, List.mem_singleton] at ht
    rw [ht]; exact hk
  | bol =>
    intro s t ht k hk
    simp only [Re.run] at ht
    split at ht
    · simp only [List.mem_singleton] at ht
      rw [ht]; exact hk
    · cases ht
  | wordb =>
    intro s t ht k hk
    simp only [Re.run] at ht
    split at ht
    · simp only [List.mem_singleton] at ht
      rw [ht]; exact hk
    · cases ht
  | seq a b iha ihb =>
    intro s t ht k hk
    obtain ⟨u, hu, htu⟩ := (mem_seq_run a b s t).mp ht
    exact ihb u t htu k (iha s u hu k hk)
  | alt a b iha ihb =>
    intro s t ht k hk
    simp only [Re.run, List.mem_append] at ht
    rcases ht with h | h
    · exact iha s t h k hk
    · exact ihb s t h k hk
  | opt a iha =>
    intro s t ht k hk
    simp only [Re.run, List.mem_append, List.mem_filter, List.mem_singleton] at ht
    rcases ht with ⟨h, _⟩ | rfl
    · exact iha s t h k hk
    · exact hk
  | star a iha =>
    intro s t ht k hk
    simp only [Re.run] at ht
    exact starLoop_caps _ iha _ s t ht k hk
  | group n a iha =>
    intro s t ht k hk
    simp only [Re.run, List.mem_map] at ht
    obtain ⟨u, hu, rfl⟩ := ht
    exact lookup_cons_isSome _ _ _ _ (iha s u hu k hk)

/-- A capturing group has its capture in every match. -/
theorem run_group_binds (n : Nat) (a : Re) (s t : MState) (ht : t ∈ (Re.group n a).run s) :
    (t.caps.lookup n).isSome := by
  simp only [Re.run, List.mem_map] at ht
  obtain ⟨u, _, rfl⟩ := ht
  simp [List.lookup_cons]

/-- A successful search returns the captures of a match found from a position
without captures. -/
theorem execFrom_some (re : Re) (rest : List Char) : ∀ (prev : Option Char)
    (caps : List (Nat × List Char)), re.execFrom prev rest = some caps →
      ∃ s0 t, s0.caps = [] ∧ t ∈ re.run s0 ∧ t.caps = caps := by
  induction rest with
  | nil =>
    intro prev caps h
    simp only [Re.execFrom] at h
    split at h
    · rename_i t ht
      cases h
      exact ⟨_, t, rfl, List.mem_of_mem_head? ht, rfl⟩
    · cases h
  | cons c cs ih =>
    intro prev caps h
    simp only [Re.execFrom] at h
    split at h
    · rename_i t ht
      cases h
      exact ⟨_, t, rfl, List.mem_of_mem_head? ht, rfl⟩
    · exact ih _ _ h

/-- A bound of the iteration above the length of the remaining input changes
nothing. -/
theorem starLoop_fuel_enough (m : MState → List MState) (fuel : Nat) :
    ∀ s : MState, s.rest.length ≤ fuel → starLoop m (fuel + 1) s = starLoop m fuel s := by
  induction fuel with
  | zero =>
    intro s hs
    have h0 : ∀ t : MState, ¬ t.rest.length < s.rest.length := fun t => by omega
    simp [starLoop, h0]
  | succ fuel ih =>
    intro s hs
    rw [starLoop, starLoop]
    congr 1
    apply List.flatMap_congr
    intro t ht
    have hlt : t.rest.length < s.rest.length := by
      simpa using (List.mem_filter.mp ht).2
    exact ih t (by omega)

theorem starLoop_ne_nil (m : MState → List MState) (fuel : Nat) (s : MState) :
    starLoop m fuel s ≠ [] := by
  cases fuel <;> simp [starLoop]

/-- The expression `/^(\s*)/` matches every string, and captures group 1. -/
theorem indentRe_exec (l : List Char) :
    ∃ caps indent, indentRe.exec l = some caps ∧ capture caps 1 = some indent := by
  have hrun : ∀ rest : List Char,
      ∃ t, (indentRe.run { prev := none, rest := rest, caps := [] }).head? = some t ∧
        (t.caps.lookup 1).isSome := by
    intro rest
    cases hh : (indentRe.run { prev := none, rest := rest, caps := [] }).head? with
    | none =>
      exfalso
      rw [List.head?_eq_none_iff] at hh
      obtain ⟨x, hx⟩ := List.exists_mem_of_ne_nil _
        (starLoop_ne_nil (fun s' => (Re.cls isJsSpace).run s') rest.length
          { prev := none, rest := rest, caps := [] })
      have hmem : ({ x with caps := (1, rest.take (rest.length - x.rest.length)) :: x.caps } : MState)
          ∈ indentRe.run { prev := none, rest := rest, caps := [] } := by
        simp only [indentRe, cat, List.foldr]
        refine (mem_seq_run _ _ _ _).mpr
          ⟨{ prev := none, rest := rest, caps := [] }, by simp [Re.run], ?_⟩
        refine (mem_seq_run _ _ _ _).mpr
          ⟨{ x with caps := (1, rest.take (rest.length - x.rest.length)) :: x.caps }, ?_,
            by simp [Re.run]⟩
        simp only [Re.run, ws, List.mem_map]
        exact ⟨x, hx, rfl⟩
      rw [hh] at hmem
      cases hmem
    | some t =>
      refine ⟨t, rfl, ?_⟩
      have hmem := List.mem_of_mem_head? hh
      simp only [indentRe, cat, List.foldr] at hmem
      obtain ⟨u, _, hu⟩ := (mem_seq_run _ _ _ _).mp hmem
      obtain ⟨v, hv, hvt⟩ := (mem_seq_run _ _ _ _).mp hu
      exact run_caps _ v t hvt 1 (run_group_binds 1 _ u v hv)
  unfold Re.exec capture
  cases l with
  | nil =>
    obtain ⟨t, ht, hc⟩ := hrun []
    simp only [Re.execFrom, ht]
    obtain ⟨indent, hi⟩ := Option.isSome_iff_exists.mp hc
    exact ⟨_, indent, rfl, hi⟩
  | cons c cs =>
    obtain ⟨t, ht, hc⟩ := hrun (c :: cs)
    simp only [Re.execFrom, ht]
    obtain ⟨indent, hi⟩ := Option.isSome_iff_exists.mp hc
    exact ⟨_, indent, rfl, hi⟩

/-- Every match of `/^(sub|procedure|proc)\s+(\w+)/i` captures group 1. -/
theorem subRe_exec (l : List Char) (caps : List (Nat × List Char))
    (h : subRe.exec l = some caps) : ∃ k, capture caps 1 = some k := by
  obtain ⟨s0, t, _, ht, rfl⟩ := execFrom_some subRe l none caps h
  simp only [subRe, cat, List.foldr] at ht
  obtain ⟨u, _, hu⟩ := (mem_seq_run _ _ _ _).mp ht
  obtain ⟨v, hv, hvt⟩ := (mem_seq_run _ _ _ _).mp hu
  exact Option.isSome_iff_exists.mp (run_caps _ v t hvt 1 (run_group_binds 1 _ u v hv))

/-! ## Proofs: the outline scanner -/

theorem scanBack_total (lines : List (List Char)) (currentLine : Nat) :
    ∀ i, i < lines.length → ∃ r, scanBack lines currentLine i = some r := by
  have body : ∀ i next, i < lines.length → (∃ r, next = some r) →
      ∃ r, scanBackBody lines currentLine i next = some r := by
    intro i next hi hnext
    unfold scanBackBody
    rw [List.get?_eq_get hi]
    simp only
    split
    · exact ⟨_, rfl⟩
    · split
      · exact ⟨_, rfl⟩
      · exact hnext
  intro i
  induction i with
  | zero => intro hi; exact body 0 _ hi ⟨_, rfl⟩
  | succ i ih =>
    intro hi
    exact body (i + 1) _ hi (ih (Nat.lt_of_succ_lt hi))

theorem getContext_total (lines : List (List Char)) (currentLine : Nat)
    (h : currentLine < lines.length) : ∃ context, getContext lines currentLine = some context := by
  obtain ⟨⟨inClass, className⟩, hr⟩ := scanBack_total lines currentLine currentLine h
  obtain ⟨caps, indent, hexec, hcap⟩ := indentRe_exec (lines.get ⟨currentLine, h⟩)
  unfold getContext
  rw [hr, List.get?_eq_get h]
  simp only [hexec, hcap]
  exact ⟨_, rfl⟩

theorem methodItems_total (lines : List (List Char)) (index : Nat) (trimmed : List Char)
    (h : index < lines.length) : ∃ items, methodItems lines index trimmed = some items := by
  obtain ⟨context, hc⟩ := getContext_total lines index h
  unfold methodItems
  rw [hc]
  split
  · split
    · exact ⟨_, rfl⟩
    · exact ⟨_, rfl⟩
  · exact ⟨_, rfl⟩

theorem subItems_total (index : Nat) (trimmed : List Char) :
    ∃ items, subItems index trimmed = some items := by
  unfold subItems
  split
  · rename_i m hm
    obtain ⟨k, hk⟩ := subRe_exec trimmed m hm
    rw [hk]
    exact ⟨_, rfl⟩
  · exact ⟨_, rfl⟩

theorem scanLine_total (lines : List (List Char)) (index : Nat) (line : List Char)
    (h : index < lines.length) : ∃ items, scanLine lines index line = some items := by
  unfold scanLine
  split
  · exact ⟨_, rfl⟩
  · obtain ⟨ms, hms⟩ := methodItems_total lines index (trim line) h
    obtain ⟨ss, hss⟩ := subItems_total index (trim line)
    unfold scanTrimmed
    rw [hms, hss]
    exact ⟨_, rfl⟩

theorem scanFrom_total (lines : List (List Char)) :
    ∀ (rest : List (List Char)) (index : Nat), index + rest.length ≤ lines.length →
      ∃ items, scanFrom lines index rest = some items := by
  intro rest
  induction rest with
  | nil => intro index _; exact ⟨_, rfl⟩
  | cons line rest ih =>
    intro index h
    simp only [List.length_cons] at h
    obtain ⟨here, hhere⟩ := scanLine_total lines index line (by omega)
    obtain ⟨later, hlater⟩ := ih (index + 1) (by omega)
    unfold scanFrom
    rw [hhere, hlater]
    exact ⟨_, rfl⟩

theorem scanTrimmed_line (lines : List (List Char)) (index : Nat) (trimmed : List Char)
    (items : List Item) (h : scanTrimmed lines index trimmed = some items) :
    ∀ item ∈ items, item.line = index := by
  unfold scanTrimmed at h
  split at h
  · rename_i methods subs hm hs
    cases h
    have h1 : ∀ item ∈ methods, item.line = index := by
      unfold methodItems at hm
      split at hm
      · split at hm
        · cases hm; intro item hi; cases hi
        · split at hm
          · cases hm
          · cases hm; intro item hi
            simp only [List.mem_singleton] at hi
            rw [hi]
      · cases hm; intro item hi; cases hi
    have h2 : ∀ item ∈ subs, item.line = index := by
      unfold subItems at hs
      split at hs
      · split at hs
        · cases hs
        · cases hs; intro item hi
          simp only [List.mem_singleton] at hi
          rw [hi]
      · cases hs; intro item hi; cases hi
    intro item hi
    simp only [List.mem_append] at hi
    rcases hi with ((((((((((hi | hi) | hi) | hi) | hi) | hi) | hi) | hi) | hi) | hi) | hi) | hi
    · unfold jsFunctionItems at hi
      split at hi <;> simp at hi
      rw [hi]
    · unfold arrowItems at hi
      split at hi
      · simp at hi; rw [hi]
      · split at hi <;> simp at hi
        rw [hi]
    · exact h1 item hi
    · unfold getterSetterItems at hi
      split at hi <;> simp at hi
      rw [hi]
    · unfold classItems at hi
      split at hi <;> simp at hi
      rw [hi]
    · exact h2 item hi
    · unfold pythonItems at hi
      split at hi <;> simp at hi
      rw [hi]
    · unfold goItems at hi
      split at hi <;> simp at hi
      rw [hi]
    · unfold phpItems at hi
      split at hi
      · split at hi <;> simp at hi
        rw [hi]
      · simp at hi
    · unfold csharpItems at hi
      split at hi
      · split at hi
        · split at hi
          · split at hi <;> simp at hi
            rw [hi]
          · simp at hi
        · simp at hi
      · simp at hi
    · unfold constructorItems at hi
      split at hi <;> simp at hi
      rw [hi]
    · unfold destructorItems at hi
      split at hi <;> simp at hi
      rw [hi]
  · cases h

theorem scanLine_line (lines : List (List Char)) (index : Nat) (line : List Char)
    (items : List Item) (h : scanLine lines index line = some items) :
    ∀ item ∈ items, item.line = index := by
  unfold scanLine at h
  split at h
  · cases h; intro item hi; cases hi
  · exact scanTrimmed_line lines index _ items h

theorem get_append_length {α : Type} (pre : List α) (x : α) (rest : List α) :
    (pre ++ x :: rest).get? pre.length = some x := by
  induction pre with
  | nil => rfl
  | cons a pre ih => simpa using ih

theorem scanFrom_origin (lines : List (List Char)) :
    ∀ (rest pre : List (List Char)) (items : List Item), lines = pre ++ rest →
      scanFrom lines pre.length rest = some items →
      ∀ item ∈ items, ∃ line pushed, lines.get? item.line = some line ∧
        scanLine lines item.line line = some pushed ∧ item ∈ pushed := by
  intro rest
  induction rest with
  | nil =>
    intro pre items _ h item hi
    simp only [scanFrom, Option.some.injEq] at h
    rw [← h] at hi; cases hi
  | cons line rest ih =>
    intro pre items hl h item hi
    unfold scanFrom at h
    split at h
    · rename_i here later hhere hlater
      cases h
      rcases List.mem_append.mp hi with hi | hi
      · have hline := scanLine_line lines pre.length line here hhere item hi
        refine ⟨line, here, ?_, ?_, hi⟩
        · rw [hline, hl]; exact get_append_length pre line rest
        · rw [hline]; exact hhere
      · have := ih (pre ++ [line]) later (by rw [hl]; simp) (by simpa using hlater)
        exact this item hi
    · cases h

theorem splitLines_space (content : List Char) (h : ∀ c ∈ content, isJsSpace c = true) :
    ∀ l ∈ splitLines content, ∀ c ∈ l, isJsSpace c = true := by
  induction content with
  | nil =>
    intro l hl c hc
    simp only [splitLines, List.mem_singleton] at hl
    rw [hl] at hc; cases hc
  | cons a content ih =>
    have ih2 := ih (fun c hc => h c (List.mem_cons_of_mem _ hc))
    intro l hl c hc
    unfold splitLines at hl
    split at hl
    · rcases List.mem_cons.mp hl with rfl | hl
      · cases hc
      · exact ih2 l hl c hc
    · split at hl
      · rename_i l0 ls heq
        rcases List.mem_cons.mp hl with rfl | hl
        · rcases List.mem_cons.mp hc with rfl | hc
          · exact h _ (List.mem_cons_self _ _)
          · exact ih2 l0 (by rw [heq]; exact List.mem_cons_self _ _) c hc
        · exact ih2 l (by rw [heq]; exact List.mem_cons_of_mem _ hl) c hc
      · simp only [List.mem_singleton] at hl
        rw [hl] at hc
        simp only [List.mem_singleton] at hc
        rw [hc]; exact h _ (List.mem_cons_self _ _)

theorem trim_space (l : List Char) (h : ∀ c ∈ l, isJsSpace c = true) : trim l = [] := by
  have h1 : l.dropWhile isJsSpace = [] := by
    rw [List.dropWhile_eq_nil_iff]; exact h
  simp [trim, h1]

theorem scanLine_blank (lines : List (List Char)) (index : Nat) (line : List Char)
    (h : trim line = []) : scanLine lines index line = some [] := by
  unfold scanLine
  rw [h]
  rfl

theorem scanFrom_blank (lines : List (List Char)) :
    ∀ (rest : List (List Char)) (index : Nat), (∀ l ∈ rest, trim l = []) →
      scanFrom lines index rest = some [] := by
  intro rest
  induction rest with
  | nil => intro _ _; rfl
  | cons line rest ih =>
    intro index h
    unfold scanFrom
    rw [scanLine_blank lines index line (h line (List.mem_cons_self _ _)),
      ih (index + 1) (fun l hl => h l (List.mem_cons_of_mem _ hl))]
    rfl

/-- C5. For the document `function foo() {}` / `export async function bar() {}`
/ `class Baz {}`, `parseOutline` returns exactly three objects, all roots and
without children: the function `foo` (not async, line 0), the function `bar`
(async, exported, line 1) and the class `Baz` (line 2). For every document,
every object of the returned outline was pushed by the callback on the line
whose zero-based index is the `line` field of the object. -/
theorem parseOutline_three_declarations :
    (∃ o, parseOutline demoDocument = some o ∧
      o.items =
        [{ type := "function", name := "foo", line := 0, level := 1, async := some false,
           exportFlag := some false },
         { type := "function", name := "bar", line := 1, level := 1, async := some true,
           exportFlag := some true },
         { type := "class", name := "Baz", line := 2, level := 0, exportFlag := some false }] ∧
      o.tree = [0, 1, 2] ∧ o.children 0 = [] ∧ o.children 1 = [] ∧ o.children 2 = []) ∧
    (∀ content o, parseOutline content = some o → ∀ item ∈ o.items,
      ∃ line pushed, (splitLines content).get? item.line = some line ∧
        scanLine (splitLines content) item.line line = some pushed ∧ item ∈ pushed) := by
  constructor
  · have h : (parseOutline demoDocument).map
        (fun o => (o.items, o.tree, o.children 0, o.children 1, o.children 2)) = some
        ([{ type := "function", name := "foo", line := 0, level := 1, async := some false,
            exportFlag := some false },
          { type := "function", name := "bar", line := 1, level := 1, async := some true,
            exportFlag := some true },
          { type := "class", name := "Baz", line := 2, level := 0, exportFlag := some false }],
          [0, 1, 2], [], [], []) := by decide!
    cases ho : parseOutline demoDocument with
    | none => rw [ho] at h; cases h
    | some o =>
      rw [ho] at h
      simp only [Option.map_some', Option.some.injEq, Prod.mk.injEq] at h
      exact ⟨o, rfl, h.1, h.2.1, h.2.2.1, h.2.2.2.1, h.2.2.2.2⟩
  · intro content o ho item hi
    unfold parseOutline at ho
    split at ho
    · cases ho
    · rename_i outline hscan
      cases ho
      have hmem : item ∈ outline := (removeDuplicatesFrom_sublist [] outline).subset hi
      exact scanFrom_origin (splitLines content) (splitLines content) [] outline rfl hscan
        item hmem

/-- C6. For every text that consists of white space only (the empty text
included), `parseOutline` returns the empty tree. -/
theorem parseOutline_blank (content : List Char) (h : ∀ c ∈ content, isJsSpace c = true) :
    ∃ o, parseOutline content = some o ∧ o.items = [] ∧ o.tree = [] := by
  have hscan : scanOutline content = some [] :=
    scanFrom_blank _ _ 0 (fun l hl => trim_space l (splitLines_space content h l hl))
  unfold parseOutline
  rw [hscan]
  exact ⟨_, rfl, rfl, rfl⟩

theorem parseOutline_blank_witness :
    ∃ o, parseOutline " \n\t \n".toList = some o ∧ o.items = [] ∧ o.tree = [] :=
  parseOutline_blank " \n\t \n".toList (by decide)

/-- C7 (evaluation at the failing input). In the lines `class A {`, fifty
empty lines, `foo() {` (52 lines), no line with index 1 to 51 declares a class, and
`getContext(lines, 51)` reports `inClass = true` with the class name `A`, taken
from line 0, which is 51 lines above line 51; `parseOutline` reaches this call
on line 51 and pushes the method `foo` with level 2 and class `A`. -/
theorem getContext_reads_line_51_above :
    getContext farClassLines 51 =
      some { inClass := true, className := some "A", indentLevel := 0 } ∧
    farClassLines.length = 52 ∧
    (∀ l ∈ farClassLines.drop (51 - 50), contextClassRe.exec (trim l) = none) ∧
    scanLine farClassLines 51 "foo() \x7b".toList =
      some [{ type := "method", name := "foo", line := 51, level := 2, async := some false,
              classField := some (some "A") }] := by
  decide!

/-- C8. `parseOutline` is total: for every input string it returns an outline
(no operation of the model raises); for every line index of the document,
`getContext` returns a context, so the indices of its backward scan stay
within the array of lines and the indentation match it dereferences exists. -/
theorem parseOutline_total (content : List Char) :
    (∃ o, parseOutline content = some o) ∧
    (∀ k, k < (splitLines content).length →
      ∃ context, getContext (splitLines content) k = some context) := by
  constructor
  · obtain ⟨outline, h⟩ := scanFrom_total (splitLines content) (splitLines content) 0
      (by omega)
    unfold parseOutline scanOutline
    rw [h]
    exact ⟨_, rfl⟩
  · intro k hk
    exact getContext_total _ k hk

theorem parseOutline_total_witness :
    ∃ context, getContext (splitLines "class A \x7b\n  foo() \x7b".toList) 1 = some context :=
  (parseOutline_total "class A \x7b\n  foo() \x7b".toList).2 1 (by decide)

/-! ## Proofs: dirty tracking -/

theorem mapGet_mapSet_same {β : Type} (m : List (String × β)) (k : String) (v : β) :
    mapGet (mapSet m k v) k = some v := by
  induction m with
  | nil => simp [mapSet, mapGet]
  | cons e m ih =>
    obtain ⟨k', v'⟩ := e
    by_cases h : k' = k
    · simp [mapSet, mapGet, h]
    · simp [mapSet, mapGet, h, ih]

theorem storePreviousTab_openTabs (st : AppState) (paneData : PaneData)
    (tabId paneId : String) : (storePreviousTab st paneData tabId paneId).openTabs = st.openTabs := by
  unfold storePreviousTab
  split
  · split
    · split
      · split <;> rfl
      · rfl
    · rfl
  · rfl

theorem showTab_openTabs (st : AppState) (tabId : String) (tabInfo : Tab) (paneId : String) :
    (showTab st tabId tabInfo paneId).openTabs = st.openTabs := by
  unfold showTab handleEditorTab
  split
  · rfl
  · simp only
    split <;> rfl

theorem switchToTabInPane_openTabs (st : AppState) (tabId paneId : String) :
    (switchToTabInPane st tabId paneId).openTabs = st.openTabs := by
  unfold switchToTabInPane
  split
  · split
    · rfl
    · simp only [updateUIFocus, showTab_openTabs, storePreviousTab_openTabs]
  · rfl

theorem switchToTabInPane_active (st : AppState) (tabId paneId : String) (tabInfo : Tab)
    (paneData : PaneData) (ht : mapGet st.openTabs tabId = some tabInfo)
    (hp : mapGet st.panes paneId = some paneData) :
    (switchToTabInPane st tabId paneId).activeTabId = some tabId := by
  unfold switchToTabInPane
  rw [ht, hp]
  simp only
  split
  · rfl
  · rfl

theorem getActiveTab_eq (st : AppState) (tabId : String) (hid : tabId ≠ "")
    (ha : st.activeTabId = some tabId) : getActiveTab st = mapGet st.openTabs tabId := by
  simp [getActiveTab, ha, hid]

theorem updateActiveTab_spec (st : AppState) (tabId : String) (tab : Tab) (f : Tab → Tab)
    (hid : tabId ≠ "") (ha : st.activeTabId = some tabId)
    (ht : mapGet st.openTabs tabId = some tab) :
    (updateActiveTab st f).activeTabId = some tabId ∧
      mapGet (updateActiveTab st f).openTabs tabId = some (f tab) := by
  have h1 : getActiveTab st = some tab := by rw [getActiveTab_eq st tabId hid ha, ht]
  have h2 : updateActiveTab st f = { st with openTabs := mapSet st.openTabs tabId (f tab) } := by
    unfold updateActiveTab
    rw [ha, h1]
  rw [h2]
  exact ⟨ha, mapGet_mapSet_same _ _ _⟩

theorem setDirty_true_spec (st : AppState) (tabId : String) (tab : Tab)
    (hid : tabId ≠ "") (ha : st.activeTabId = some tabId)
    (ht : mapGet st.openTabs tabId = some tab) :
    (setDirty st true false).activeTabId = some tabId ∧
      mapGet (setDirty st true false).openTabs tabId = some { tab with dirty := true } := by
  unfold setDirty
  have h := updateActiveTab_spec st tabId tab (fun tab =>
    { tab with
      dirty := true
      lastContent :=
        if (false && true) = true then some (currentContent st { tab with dirty := true })
        else tab.lastContent }) hid ha ht
  simpa using h

theorem notifyIfClean_spec (st : AppState) (tabId : String) (tab : Tab)
    (hid : tabId ≠ "") (ha : st.activeTabId = some tabId)
    (ht : mapGet st.openTabs tabId = some tab) :
    (notifyIfClean st).activeTabId = some tabId ∧
      mapGet (notifyIfClean st).openTabs tabId = some { tab with dirty := true } := by
  have h1 : getActiveTab st = some tab := by rw [getActiveTab_eq st tabId hid ha, ht]
  unfold notifyIfClean
  rw [h1]
  simp only
  by_cases hd : tab.dirty = true
  · rw [if_pos hd]
    refine ⟨ha, ?_⟩
    rw [ht]
    cases tab
    simp only at hd
    simp [hd]
  · rw [if_neg hd]
    obtain ⟨ha2, ht2⟩ := updateActiveTab_spec st tabId tab (fun t => { t with dirty := true })
      hid ha ht
    obtain ⟨ha3, ht3⟩ := setDirty_true_spec _ tabId _ hid ha2 ht2
    exact ⟨ha3, ht3⟩

theorem docChanged_spec (st : AppState) (paneId content tabId : String) (tab : Tab)
    (hid : tabId ≠ "") (ha : st.activeTabId = some tabId)
    (ht : mapGet st.openTabs tabId = some tab) :
    (docChanged st paneId content).activeTabId = some tabId ∧
    mapGet (docChanged st paneId content).openTabs tabId =
      some { tab with lastContent := some content, dirty := true } := by
  unfold docChanged
  simp only
  have h0 : ∀ s0 : AppState, s0.activeTabId = some tabId → mapGet s0.openTabs tabId = some tab →
      (notifyIfClean (handleContentChange s0 content)).activeTabId = some tabId ∧
      mapGet (notifyIfClean (handleContentChange s0 content)).openTabs tabId =
        some { tab with lastContent := some content, dirty := true } := by
    intro s0 ha0 ht0
    obtain ⟨ha1, ht1⟩ := updateActiveTab_spec s0 tabId tab
      (fun tab => { tab with lastContent := some content }) hid ha0 ht0
    exact notifyIfClean_spec (handleContentChange s0 content) tabId _ hid ha1 ht1
  split
  · exact h0 _ ha ht
  · exact h0 _ ha ht

theorem docChangedAll_spec (events : List String) : ∀ (st : AppState) (paneId tabId : String)
    (tab : Tab), tabId ≠ "" → st.activeTabId = some tabId →
    mapGet st.openTabs tabId = some tab →
    ∃ tab2, getActiveTab (docChangedAll st paneId events) = some tab2 ∧
      tab2.savedContent = tab.savedContent ∧
      tab2.lastContent = (match events with
        | [] => tab.lastContent
        | first :: more => some (latestContent first more)) ∧
      tab2.dirty = (tab.dirty || !events.isEmpty) := by
  induction events with
  | nil =>
    intro st paneId tabId tab hid ha ht
    refine ⟨tab, ?_, rfl, rfl, by simp⟩
    simp only [docChangedAll, List.foldl_nil]
    rw [getActiveTab_eq st tabId hid ha, ht]
  | cons c events ih =>
    intro st paneId tabId tab hid ha ht
    obtain ⟨ha1, ht1⟩ := docChanged_spec st paneId c tabId tab hid ha ht
    obtain ⟨tab2, h1, h2, h3, h4⟩ := ih (docChanged st paneId c) paneId tabId _ hid ha1 ht1
    refine ⟨tab2, ?_, ?_, ?_, ?_⟩
    · simpa [docChangedAll] using h1
    · rw [h2]
    · rw [h3]
      cases events with
      | nil => rfl
      | cons e es => rfl
    · rw [h4]; simp

/-- C10 (as stated, refuted). An editor tab is created with the content `X`
and made active; its content is changed to `Y` and then back to `X`. The
latest content equals `savedContent`, and the `dirty` flag of the tab is
true: the flag is not "true exactly when the latest content differs from
`savedContent`". -/
theorem dirty_flag_after_edit_back :
    ¬ (∀ tab, getActiveTab editedBackState = some tab →
        (tab.dirty = true ↔ tab.lastContent ≠ tab.savedContent)) := by
  intro h
  have h1 : getActiveTab editedBackState =
      some { fileName := "a.txt", type := "editor", url := none, dirty := true, filePath := none,
             savedContent := some "X", lastContent := some "X", pane := "left" } := by decide!
  have h2 := h _ h1
  simp at h2

/-- C10 (amended). For an editor tab created with the content `X` and made
active, after every sequence of content-change events the `savedContent` of
the tab is `X`, its `lastContent` is the latest content, and its `dirty` flag
is true exactly when at least one content-change event has occurred; so the
flag is true whenever the latest content differs from `savedContent`. -/
theorem dirty_flag_after_events (st : AppState) (tabId filename content pane : String)
    (events : List String) (hid : tabId ≠ "") (hpane : (mapGet st.panes pane).isSome = true) :
    ∃ tab,
      getActiveTab (docChangedAll
        (switchToTabInPane (createEditorTab st tabId filename content pane) tabId pane)
        pane events) = some tab ∧
      tab.savedContent = some content ∧
      tab.lastContent = some (latestContent content events) ∧
      (tab.dirty = true ↔ events ≠ []) ∧
      (tab.lastContent ≠ tab.savedContent → tab.dirty = true) := by
  obtain ⟨paneData, hp⟩ := Option.isSome_iff_exists.mp hpane
  have ht : mapGet (createEditorTab st tabId filename content pane).openTabs tabId =
      some { fileName := filename, type := "editor", url := none, dirty := false,
             filePath := none, savedContent := some content, lastContent := some content,
             pane := pane } := mapGet_mapSet_same _ _ _
  have hp2 : mapGet (createEditorTab st tabId filename content pane).panes pane = some paneData := hp
  have ha := switchToTabInPane_active _ tabId pane _ paneData ht hp2
  have ht2 := ht
  rw [← switchToTabInPane_openTabs _ tabId pane] at ht2
  obtain ⟨tab, h1, h2, h3, h4⟩ := docChangedAll_spec events _ pane tabId _ hid ha ht2
  have hlast : tab.lastContent = some (latestContent content events) := by
    rw [h3]
    cases events with
    | nil => rfl
    | cons e es => rfl
  have hdirty : tab.dirty = true ↔ events ≠ [] := by
    rw [h4]
    cases events <;> simp
  refine ⟨tab, h1, h2, hlast, hdirty, ?_⟩
  intro hne
  rw [hdirty]
  rintro rfl
  rw [hlast, h2] at hne
  exact hne rfl

theorem dirty_flag_after_events_witness :
    ∃ tab,
      getActiveTab (docChangedAll
        (switchToTabInPane
          (createEditorTab (initializePane initialAppState "left") "tab-1-left" "a.txt" "X" "left")
          "tab-1-left" "left")
        "left" ["Y", "X"]) = some tab ∧
      tab.savedContent = some "X" ∧
      tab.lastContent = some (latestContent "X" ["Y", "X"]) ∧
      (tab.dirty = true ↔ ["Y", "X"] ≠ []) ∧
      (tab.lastContent ≠ tab.savedContent → tab.dirty = true) :=
  dirty_flag_after_events (initializePane initialAppState "left") "tab-1-left" "a.txt" "X" "left"
    ["Y", "X"] (by decide) (by decide)

/-! ## Proofs: tab manager -/

theorem mapGet_mapSet_other {β : Type} (m : List (String × β)) (k k2 : String) (v : β)
    (h : k2 ≠ k) : mapGet (mapSet m k v) k2 = mapGet m k2 := by
  induction m with
  | nil =>
    have h' : ¬ (k = k2) := fun e => h e.symm
    simp [mapSet, mapGet, h']
  | cons e m ih =>
    obtain ⟨k', v'⟩ := e
    by_cases hk : k' = k
    · subst hk
      have h' : ¬ (k' = k2) := fun e => h e.symm
      simp [mapSet, mapGet, h']
    · by_cases hk2 : k' = k2
      · subst hk2
        simp [mapSet, mapGet, hk]
      · simp [mapSet, mapGet, hk, hk2, ih]

theorem mapSet_absent {β : Type} (m : List (String × β)) (k : String) (v : β)
    (h : mapGet m k = none) : mapSet m k v = m ++ [(k, v)] := by
  induction m with
  | nil => rfl
  | cons e m ih =>
    obtain ⟨k', v'⟩ := e
    by_cases hk : k' = k
    · simp [mapGet, hk] at h
    · simp only [mapGet, hk, if_false] at h
      simp [mapSet, hk, ih h]

theorem mapGet_mapDelete_other {β : Type} (m : List (String × β)) (k k2 : String)
    (h : k2 ≠ k) : mapGet (mapDelete m k) k2 = mapGet m k2 := by
  induction m with
  | nil => rfl
  | cons e m ih =>
    obtain ⟨k', v'⟩ := e
    by_cases hk : k' = k
    · subst hk
      have h' : ¬ (k' = k2) := fun e => h e.symm
      simp [mapDelete, mapGet, h']
    · by_cases hk2 : k' = k2
      · subst hk2
        simp [mapDelete, mapGet, hk]
      · simp [mapDelete, mapGet, hk, hk2, ih]

theorem mapGet_isSome_of_mem {β : Type} (m : List (String × β)) (k : String) (v : β)
    (h : (k, v) ∈ m) : (mapGet m k).isSome = true := by
  induction m with
  | nil => cases h
  | cons e m ih =>
    obtain ⟨k', v'⟩ := e
    by_cases hk : k' = k
    · simp [mapGet, hk]
    · rcases List.mem_cons.mp h with h | h
      · simp only [Prod.mk.injEq] at h
        exact absurd h.1.symm hk
      · simp [mapGet, hk, ih h]

theorem mapGet_of_mem_nodup {β : Type} (m : List (String × β)) (k : String) (v : β)
    (hk : (m.map Prod.fst).Nodup) (h : (k, v) ∈ m) : mapGet m k = some v := by
  induction m with
  | nil => cases h
  | cons e m ih =>
    obtain ⟨k', v'⟩ := e
    simp only [List.map_cons, List.nodup_cons] at hk
    rcases List.mem_cons.mp h with h | h
    · simp only [Prod.mk.injEq] at h
      simp [mapGet, h.1, h.2]
    · have hne : k' ≠ k := by
        rintro rfl
        exact hk.1 (List.mem_map.mpr ⟨(k', v), h, rfl⟩)
      simp [mapGet, hne, ih hk.2 h]

theorem mem_of_mapGet {β : Type} (m : List (String × β)) (k : String) (v : β)
    (h : mapGet m k = some v) : (k, v) ∈ m := by
  induction m with
  | nil => simp [mapGet] at h
  | cons e m ih =>
    obtain ⟨k', v'⟩ := e
    by_cases hk : k' = k
    · simp only [mapGet, hk, if_true, Option.some.injEq] at h
      simp [hk, h]
    · simp only [mapGet, hk, if_false] at h
      exact List.mem_cons_of_mem _ (ih h)

theorem mem_mapDelete {β : Type} (m : List (String × β)) (k : String) (e : String × β)
    (hk : (m.map Prod.fst).Nodup) (h : e ∈ mapDelete m k) : e ∈ m ∧ e.1 ≠ k := by
  induction m with
  | nil => cases h
  | cons e0 m ih =>
    obtain ⟨k', v'⟩ := e0
    simp only [List.map_cons, List.nodup_cons] at hk
    by_cases hkk : k' = k
    · simp only [mapDelete, hkk, if_true] at h
      refine ⟨List.mem_cons_of_mem _ h, ?_⟩
      intro he
      apply hk.1
      rw [hkk, ← he]
      exact List.mem_map.mpr ⟨e, h, rfl⟩
    · simp only [mapDelete, hkk, if_false] at h
      rcases List.mem_cons.mp h with h | h
      · rw [h]; exact ⟨List.mem_cons_self _ _, hkk⟩
      · obtain ⟨h1, h2⟩ := ih hk.2 h
        exact ⟨List.mem_cons_of_mem _ h1, h2⟩

theorem getActiveTab_some (st : AppState) (tab : Tab) (h : getActiveTab st = some tab) :
    ∃ tabId, tabId ≠ "" ∧ st.activeTabId = some tabId ∧ mapGet st.openTabs tabId = some tab := by
  unfold getActiveTab at h
  split at h
  · cases h
  · rename_i id hid
    by_cases he : id = ""
    · simp [he] at h
    · simp only [he, if_false] at h
      exact ⟨id, he, hid, h⟩

theorem currentContent_updateActiveTab (st : AppState) (f : Tab → Tab) (tab2 tab : Tab) :
    currentContent (updateActiveTab st f) tab2 = currentContent st tab := by
  have h : (updateActiveTab st f).editorInstance = st.editorInstance ∧
      (updateActiveTab st f).panes = st.panes ∧
      (updateActiveTab st f).activePane = st.activePane ∧
      (updateActiveTab st f).tabStates = st.tabStates ∧
      (updateActiveTab st f).activeTabId = st.activeTabId := by
    unfold updateActiveTab
    split <;> exact ⟨rfl, rfl, rfl, rfl, rfl⟩
  obtain ⟨h1, h2, h3, h4, h5⟩ := h
  simp only [currentContent, getValue, getTabContent, nullish, h1, h2, h3, h4, h5]
  cases st.editorInstance <;> simp

/-! ## Proofs: `isDirty` and `markAsClean` -/

theorem updateActiveTab_frame (st : AppState) (f : Tab → Tab) :
    (updateActiveTab st f).editorInstance = st.editorInstance ∧
    (updateActiveTab st f).panes = st.panes ∧
    (updateActiveTab st f).activePane = st.activePane ∧
    (updateActiveTab st f).tabStates = st.tabStates ∧
    (updateActiveTab st f).activeTabId = st.activeTabId := by
  unfold updateActiveTab
  split <;> exact ⟨rfl, rfl, rfl, rfl, rfl⟩

theorem notifyIfClean_frame (st : AppState) :
    (notifyIfClean st).editorInstance = st.editorInstance ∧
    (notifyIfClean st).panes = st.panes ∧
    (notifyIfClean st).activePane = st.activePane ∧
    (notifyIfClean st).tabStates = st.tabStates := by
  unfold notifyIfClean
  split
  · exact ⟨rfl, rfl, rfl, rfl⟩
  · split
    · exact ⟨rfl, rfl, rfl, rfl⟩
    · obtain ⟨a1, a2, a3, a4, _⟩ := updateActiveTab_frame st (fun t => { t with dirty := true })
      obtain ⟨b1, b2, b3, b4, _⟩ := updateActiveTab_frame
        (updateActiveTab st (fun t => { t with dirty := true }))
        (fun tab =>
          { tab with
            dirty := true
            lastContent :=
              if (false && true) = true then
                some (currentContent (updateActiveTab st (fun t => { t with dirty := true }))
                  { tab with dirty := true })
              else tab.lastContent })
      exact ⟨b1.trans a1, b2.trans a2, b3.trans a3, b4.trans a4⟩

/-- A content-change event changes the document of the view of its pane, and
neither the registration of the editor instance, nor the active pane, nor the
stored editor states. -/
theorem docChanged_frame (st : AppState) (paneId content : String) :
    (docChanged st paneId content).editorInstance = st.editorInstance ∧
    (docChanged st paneId content).activePane = st.activePane ∧
    (docChanged st paneId content).tabStates = st.tabStates ∧
    (docChanged st paneId content).panes =
      (match mapGet st.panes paneId with
        | some pane => mapSet st.panes paneId { pane with doc := content }
        | none => st.panes) := by
  have h0 : ∀ s0 : AppState,
      (notifyIfClean (handleContentChange s0 content)).editorInstance = s0.editorInstance ∧
      (notifyIfClean (handleContentChange s0 content)).activePane = s0.activePane ∧
      (notifyIfClean (handleContentChange s0 content)).tabStates = s0.tabStates ∧
      (notifyIfClean (handleContentChange s0 content)).panes = s0.panes := by
    intro s0
    obtain ⟨a1, a2, a3, a4⟩ := notifyIfClean_frame (handleContentChange s0 content)
    obtain ⟨b1, b2, b3, b4, _⟩ :=
      updateActiveTab_frame s0 (fun tab => { tab with lastContent := some content })
    exact ⟨a1.trans b1, a3.trans b3, a4.trans b4, a2.trans b2⟩
  unfold docChanged
  simp only
  split
  · rename_i pane hp
    obtain ⟨c1, c2, c3, c4⟩ :=
      h0 { st with panes := mapSet st.panes paneId { pane with doc := content } }
    exact ⟨c1, c2, c3, c4⟩
  · exact h0 st

/-- After the content-change events `events` of the pane `paneId`, the
document of the view of that pane is the latest content. -/
theorem docChangedAll_view (paneId : String) (events : List String) :
    ∀ (st : AppState) (pane : PaneData), mapGet st.panes paneId = some pane →
      (docChangedAll st paneId events).editorInstance = st.editorInstance ∧
      (docChangedAll st paneId events).activePane = st.activePane ∧
      mapGet (docChangedAll st paneId events).panes paneId =
        some { pane with doc := latestContent pane.doc events } := by
  induction events with
  | nil =>
    intro st pane hp
    exact ⟨rfl, rfl, hp⟩
  | cons c events ih =>
    intro st pane hp
    obtain ⟨d1, d2, _, d4⟩ := docChanged_frame st paneId c
    rw [hp] at d4
    have hp2 : mapGet (docChanged st paneId c).panes paneId = some { pane with doc := c } := by
      rw [d4]; exact mapGet_mapSet_same _ _ _
    obtain ⟨e1, e2, e3⟩ := ih (docChanged st paneId c) _ hp2
    refine ⟨?_, ?_, ?_⟩
    · show (docChangedAll (docChanged st paneId c) paneId events).editorInstance = _
      rw [e1, d1]
    · show (docChangedAll (docChanged st paneId c) paneId events).activePane = _
      rw [e2, d2]
    · show mapGet (docChangedAll (docChanged st paneId c) paneId events).panes paneId = _
      rw [e3]
      rfl

/-- C9 (as stated, refuted). The tab `a.txt` with the content `X` is open in the
left pane, the split has been switched on (which creates the empty tab
`tab-2-right`) and off again, and no content change has occurred. The active
tab is `tab-2-right`: its `savedContent`, its `lastContent`, its stored editor
state and the document of the view that shows it (the hidden right pane) are
all empty and its `dirty` flag is false, and `isDirty()` returns true, since it
reads the document `X` of the view of the active pane `left`. -/
theorem isDirty_after_split_off :
    splitOffState.activeTabId = some "tab-2-right" ∧
    getActiveTab splitOffState =
      some { fileName := "Unbenannt.txt", type := "editor", url := none, dirty := false,
             filePath := none, savedContent := some "", lastContent := some "",
             pane := "right" } ∧
    getTabContent splitOffState (some "tab-2-right") = "" ∧
    mapGet splitOffState.panes "right" = some { doc := "", activeTabId := some "tab-2-right" } ∧
    splitOffState.backendCalls = [] ∧
    splitOffState.activePane = "left" ∧
    mapGet splitOffState.panes "left" = some { doc := "X", activeTabId := some "tab-1-left" } ∧
    isDirty splitOffState = true := by
  decide!

/-- C9 (amended). With no active tab `isDirty()` returns false. With an active
tab and the editor instance registered, it compares the document of the view
of the active pane with `savedContent ?? ''`: after every sequence of
content-change events in that pane it returns true exactly when the latest
content differs from `savedContent ?? ''`, whatever the contents in between
and whatever the `dirty` flag (the empty string stands for the document when
the active pane has no view). Before any view has received the focus (no
editor instance registered) it compares the document of the stored editor
state of the active tab, or the empty string when there is none. -/
theorem isDirty_spec (st : AppState) :
    (getActiveTab st = none → isDirty st = false) ∧
    (∀ tab paneId pane events, getActiveTab st = some tab → st.editorInstance = true →
      paneId = (if st.activePane = "" then "left" else st.activePane) →
      mapGet st.panes paneId = some pane →
      (isDirty (docChangedAll st paneId events) = true ↔
        latestContent pane.doc events ≠ tab.savedContent.getD "")) ∧
    (∀ tab, getActiveTab st = some tab → st.editorInstance = true →
      mapGet st.panes (if st.activePane = "" then "left" else st.activePane) = none →
      (isDirty st = true ↔ "" ≠ tab.savedContent.getD "")) ∧
    (∀ tab tabId, getActiveTab st = some tab → st.activeTabId = some tabId →
      st.editorInstance = false →
      (isDirty st = true ↔
        ((mapGet st.tabStates tabId).map TabState.doc).getD "" ≠ tab.savedContent.getD "")) ∧
    isDirty (docChangedAll openedFileFocusedState "left" ["Y"]) = true ∧
    isDirty (docChangedAll openedFileFocusedState "left" ["Y", "X"]) = false := by
  refine ⟨fun h => ?_, fun tab paneId pane events hact hinst hpid hpane => ?_,
    fun tab hact hinst hpane => ?_, fun tab tabId hact hid hinst => ?_, by decide!, by decide!⟩
  · simp [isDirty, h]
  · obtain ⟨tabId, hne, ha, ht⟩ := getActiveTab_some st tab hact
    obtain ⟨tab2, h1, h2, _, _⟩ := docChangedAll_spec events st paneId tabId tab hne ha ht
    obtain ⟨v1, v2, v3⟩ := docChangedAll_view paneId events st pane hpane
    have hget : getValue (docChangedAll st paneId events) = latestContent pane.doc events := by
      unfold getValue
      rw [v2, ← hpid, v3]
    unfold isDirty
    rw [h1]
    simp only [currentContent, nullish, v1, hinst, if_true, Option.getD_some, hget, h2]
    simp
  · unfold isDirty
    rw [hact]
    simp only [currentContent, nullish, hinst, if_true, Option.getD_some, getValue, hpane]
    simp
  · unfold isDirty
    rw [hact]
    simp only [currentContent, nullish, hinst, getTabContent, hid]
    cases mapGet st.tabStates tabId <;> simp

/-- C11 (as stated, refuted). In the state of `splitOffState` (split switched
on and off again, no content change) the active tab is the empty tab
`tab-2-right`, whose stored editor state and whose view (the hidden right
pane) hold the empty document. `markAsClean()` returns true and writes `X`,
the document of the tab `a.txt` shown in the left pane, into the `savedContent`
and the `lastContent` of `tab-2-right`. -/
theorem markAsClean_after_split_off :
    getActiveTab splitOffState =
      some { fileName := "Unbenannt.txt", type := "editor", url := none, dirty := false,
             filePath := none, savedContent := some "", lastContent := some "",
             pane := "right" } ∧
    getTabContent splitOffState (some "tab-2-right") = "" ∧
    mapGet splitOffState.panes "right" = some { doc := "", activeTabId := some "tab-2-right" } ∧
    mapGet splitOffState.panes "left" = some { doc := "X", activeTabId := some "tab-1-left" } ∧
    (markAsClean splitOffState).2 = true ∧
    getActiveTab (markAsClean splitOffState).1 =
      some { fileName := "Unbenannt.txt", type := "editor", url := none, dirty := false,
             filePath := none, savedContent := some "X", lastContent := some "X",
             pane := "right" } := by
  decide!

theorem isDirty_of_saved (st : AppState) (tabId : String) (tab : Tab) (content : String)
    (hne : tabId ≠ "") (ha : st.activeTabId = some tabId)
    (ht : mapGet st.openTabs tabId = some tab) (hsaved : tab.savedContent = some content)
    (hcur : currentContent st tab = content) : isDirty st = false := by
  have hg : getActiveTab st = some tab := by rw [getActiveTab_eq st tabId hne ha, ht]
  unfold isDirty
  rw [hg]
  simp [hcur, hsaved]

/-- C11 (amended). With no active tab `markAsClean()` returns false and changes
nothing. With an active tab it returns true and changes only the entry of that
tab: `savedContent` and `lastContent` become the document of the view of the
active pane when the editor instance is registered (the empty string when that
pane has no view), and the document of the stored editor state of the tab
(the empty string when there is none) before any view has received the focus;
the `dirty` flag becomes false, and `isDirty()` called right after returns
false. -/
theorem markAsClean_spec (st : AppState) :
    (getActiveTab st = none → markAsClean st = (st, false)) ∧
    (∀ tabId tab pane, st.activeTabId = some tabId → getActiveTab st = some tab →
      st.editorInstance = true →
      mapGet st.panes (if st.activePane = "" then "left" else st.activePane) = some pane →
      markAsClean st =
        ({ st with openTabs := (mapSet st.openTabs tabId
            { tab with savedContent := some pane.doc, dirty := false,
                       lastContent := some pane.doc }) }, true) ∧
      isDirty (markAsClean st).1 = false) ∧
    (∀ tabId tab, st.activeTabId = some tabId → getActiveTab st = some tab →
      st.editorInstance = true →
      mapGet st.panes (if st.activePane = "" then "left" else st.activePane) = none →
      markAsClean st =
        ({ st with openTabs := (mapSet st.openTabs tabId
            { tab with savedContent := some "", dirty := false, lastContent := some "" }) },
          true) ∧
      isDirty (markAsClean st).1 = false) ∧
    (∀ tabId tab, st.activeTabId = some tabId → getActiveTab st = some tab →
      st.editorInstance = false →
      markAsClean st =
        ({ st with openTabs := (mapSet st.openTabs tabId
            { tab with
              savedContent := some (((mapGet st.tabStates tabId).map TabState.doc).getD ""),
              dirty := false,
              lastContent := some (((mapGet st.tabStates tabId).map TabState.doc).getD "") }) },
          true) ∧
      isDirty (markAsClean st).1 = false) ∧
    getActiveTab (markAsClean (docChangedAll openedFileFocusedState "left" ["Y"])).1 =
      some { fileName := "a.txt", type := "editor", url := none, dirty := false,
             filePath := some "/home/a.txt", savedContent := some "Y", lastContent := some "Y",
             pane := "left" } := by
  have hshape : ∀ (tabId : String) (tab : Tab) (content : String),
      st.activeTabId = some tabId → getActiveTab st = some tab →
      (∀ t, currentContent st t = content) →
      markAsClean st =
        ({ st with openTabs := (mapSet st.openTabs tabId
            { tab with savedContent := some content, dirty := false,
                       lastContent := some content }) }, true) ∧
      isDirty (markAsClean st).1 = false := by
    intro tabId tab content ha hact hcur
    have hne : tabId ≠ "" := by
      obtain ⟨id, hid, ha2, _⟩ := getActiveTab_some st tab hact
      rw [ha] at ha2
      cases ha2
      exact hid
    have hm : markAsClean st =
        ({ st with openTabs := (mapSet st.openTabs tabId
            { tab with savedContent := some content, dirty := false,
                       lastContent := some content }) }, true) := by
      unfold markAsClean
      rw [hact]
      simp only [hcur]
      unfold updateActiveTab
      rw [ha, hact]
    refine ⟨hm, ?_⟩
    rw [hm]
    exact isDirty_of_saved _ tabId _ content hne ha (mapGet_mapSet_same _ _ _) rfl (hcur _)
  refine ⟨fun h => ?_, fun tabId tab pane ha hact hinst hpane => ?_,
    fun tabId tab ha hact hinst hpane => ?_, fun tabId tab ha hact hinst => ?_, by decide!⟩
  · simp [markAsClean, h]
  · apply hshape tabId tab pane.doc ha hact
    intro t
    simp only [currentContent, nullish, hinst, if_true, Option.getD_some, getValue, hpane]
  · apply hshape tabId tab "" ha hact
    intro t
    simp only [currentContent, nullish, hinst, if_true, Option.getD_some, getValue, hpane]
  · apply hshape tabId tab _ ha hact
    intro t
    simp only [currentContent, nullish, hinst, getTabContent, ha]
    cases mapGet st.tabStates tabId <;> simp

/-! ## Proofs: tab manager, creation and closing of tabs -/

theorem initializePane_openTabs (st : AppState) (paneId : String) :
    (initializePane st paneId).openTabs = st.openTabs := by
  unfold initializePane
  split <;> rfl

theorem initializePane_pane (st : AppState) (paneId : String) :
    (mapGet (initializePane st paneId).panes paneId).isSome = true := by
  unfold initializePane
  split
  · rename_i pd h
    simp [h]
  · simp [mapGet_mapSet_same]

/-- The tab object that `createNewTab` registers for the initial string. -/
theorem createTabOfKind_openTabs (st : AppState) (tabId filename s targetPane : String) :
    (createTabOfKind st tabId filename s targetPane).openTabs =
      mapSet st.openTabs tabId
        (if startsWith s.toList "http://".toList || startsWith s.toList "https://".toList then
          { fileName := filename, type := "web", url := some s, dirty := false,
            filePath := none, savedContent := some "", lastContent := some "",
            pane := targetPane }
        else if startsWith s.toList "StarteAI".toList then
          { fileName := filename, type := "ai", url := some "", dirty := false,
            filePath := none, savedContent := some "", lastContent := some "",
            pane := targetPane }
        else
          { fileName := filename, type := "editor", url := none, dirty := false,
            filePath := none, savedContent := some s, lastContent := some s,
            pane := targetPane }) := by
  unfold createTabOfKind
  split
  · rfl
  · split <;> rfl

theorem createNewTab_new (st : AppState) (filename s : String) (paneId : Option String)
    (now : Nat) (hnew : existingTab st filename = none) :
    (createNewTab st filename s paneId now).2 = makeTabId now (targetPaneOf st paneId) ∧
    (createNewTab st filename s paneId now).1.openTabs =
      (createTabOfKind (initializePane st (targetPaneOf st paneId))
        (makeTabId now (targetPaneOf st paneId)) filename s (targetPaneOf st paneId)).openTabs := by
  unfold createNewTab
  rw [hnew]
  refine ⟨rfl, ?_⟩
  show (switchToTabInPane _ _ _).openTabs = _
  rw [switchToTabInPane_openTabs]
  rfl

/-- C12 (as stated, refuted). The initial string `StarteAI und mehr` does not
start with `http://` or `https://` and is not equal to the marker `StarteAI`,
and the tab created for it is of kind `ai`, not of kind `editor`. -/
theorem createNewTab_marker_prefix :
    ¬ (∀ tab, mapGet (createNewTab initialAppState "Notiz" "StarteAI und mehr" none 1).1.openTabs
          (createNewTab initialAppState "Notiz" "StarteAI und mehr" none 1).2 = some tab →
        (tab.type = "ai" ↔ "StarteAI und mehr" = "StarteAI")) := by
  intro h
  have h1 : mapGet (createNewTab initialAppState "Notiz" "StarteAI und mehr" none 1).1.openTabs
      (createNewTab initialAppState "Notiz" "StarteAI und mehr" none 1).2 =
      some { fileName := "Notiz", type := "ai", url := some "", dirty := false,
             filePath := none, savedContent := some "", lastContent := some "",
             pane := "left" } := by decide!
  have h2 := (h _ h1).mp rfl
  revert h2
  decide

/-- C12 (amended). When `createNewTab` creates a tab for the initial string
`s`, the tab registered under the returned id is of kind `web` exactly when
`s` starts with `http://` or `https://`; otherwise it is of kind `ai` exactly
when `s` starts with the marker `StarteAI`; otherwise it is of kind `editor`
with `savedContent` and `lastContent` equal to `s`. -/
theorem createNewTab_kind (st : AppState) (filename s : String) (paneId : Option String)
    (now : Nat) (hnew : existingTab st filename = none) :
    ∃ tab, mapGet (createNewTab st filename s paneId now).1.openTabs
        (createNewTab st filename s paneId now).2 = some tab ∧
      (tab.type = "web" ↔
        (startsWith s.toList "http://".toList = true ∨
          startsWith s.toList "https://".toList = true)) ∧
      (tab.type ≠ "web" → (tab.type = "ai" ↔ startsWith s.toList "StarteAI".toList = true)) ∧
      (tab.type ≠ "web" → tab.type ≠ "ai" →
        tab.type = "editor" ∧ tab.savedContent = some s ∧ tab.lastContent = some s) := by
  obtain ⟨hid, hopen⟩ := createNewTab_new st filename s paneId now hnew
  rw [hid, hopen, createTabOfKind_openTabs, mapGet_mapSet_same]
  refine ⟨_, rfl, ?_⟩
  generalize startsWith s.toList "http://".toList = a
  generalize startsWith s.toList "https://".toList = b
  generalize startsWith s.toList "StarteAI".toList = c
  cases a <;> cases b <;> cases c <;> simp

theorem createNewTab_kind_witness :
    ∃ tab, mapGet (createNewTab initialAppState "Notiz" "StarteAI" none 1).1.openTabs
        (createNewTab initialAppState "Notiz" "StarteAI" none 1).2 = some tab ∧
      (tab.type = "web" ↔
        (startsWith "StarteAI".toList "http://".toList = true ∨
          startsWith "StarteAI".toList "https://".toList = true)) ∧
      (tab.type ≠ "web" →
        (tab.type = "ai" ↔ startsWith "StarteAI".toList "StarteAI".toList = true)) ∧
      (tab.type ≠ "web" → tab.type ≠ "ai" →
        tab.type = "editor" ∧ tab.savedContent = some "StarteAI" ∧
          tab.lastContent = some "StarteAI") :=
  createNewTab_kind initialAppState "Notiz" "StarteAI" none 1 (by decide)

theorem makeTabId_injective (now now2 : Nat) (pane pane2 : String)
    (h : makeTabId now pane = makeTabId now2 pane2) : now = now2 ∧ pane = pane2 := by
  unfold makeTabId at h
  have h1 : "tab-".toList ++ (Nat.toDigits 10 now ++ '-' :: pane.toList) =
      "tab-".toList ++ (Nat.toDigits 10 now2 ++ '-' :: pane2.toList) := by
    simpa using congrArg String.data h
  have h2 := List.append_cancel_left h1
  obtain ⟨h3, h4⟩ := append_dash_cancel _ _ _ _ (toDigits_no_dash _) (toDigits_no_dash _) h2
  exact ⟨toDigits_injective _ _ h3, String.ext h4⟩

/-- C14 (as stated, refuted). A tab `tab-5-left` is open; a call of
`createNewTab` for another file at the same clock reading 5 and in the same
pane creates a tab under the same id, which overwrites the entry of the open
tab: the registry still has one entry. -/
theorem createNewTab_same_clock_overwrites :
    (mapGet oneTabState.openTabs "tab-5-left").isSome = true ∧
    existingTab oneTabState "b.txt" = none ∧
    (createNewTab oneTabState "b.txt" "Y" none 5).2 = "tab-5-left" ∧
    oneTabState.openTabs.length = 1 ∧
    (createNewTab oneTabState "b.txt" "Y" none 5).1.openTabs.length = 1 := by
  decide!

/-- C14 (amended). A call of `createNewTab` that creates a new tab returns the
id `tab-<now>-<pane>` of its clock reading and target pane; the ids of two
different pairs of clock reading and pane differ; and when no open tab has the
returned id, the registry keeps all its entries and grows by exactly one entry
at its end. -/
theorem createNewTab_fresh_id (st : AppState) (filename s : String) (paneId : Option String)
    (now : Nat) (hnew : existingTab st filename = none)
    (hfresh : mapGet st.openTabs (makeTabId now (targetPaneOf st paneId)) = none) :
    (createNewTab st filename s paneId now).2 = makeTabId now (targetPaneOf st paneId) ∧
    (∀ now2 pane2, makeTabId now2 pane2 = makeTabId now (targetPaneOf st paneId) →
      now2 = now ∧ pane2 = targetPaneOf st paneId) ∧
    (∃ tab, (createNewTab st filename s paneId now).1.openTabs =
      st.openTabs ++ [((createNewTab st filename s paneId now).2, tab)]) ∧
    (createNewTab st filename s paneId now).1.openTabs.length = st.openTabs.length + 1 := by
  obtain ⟨hid, hopen⟩ := createNewTab_new st filename s paneId now hnew
  have happ : ∃ tab, (createNewTab st filename s paneId now).1.openTabs =
      st.openTabs ++ [((createNewTab st filename s paneId now).2, tab)] := by
    rw [hid, hopen, createTabOfKind_openTabs, initializePane_openTabs]
    exact ⟨_, mapSet_absent _ _ _ hfresh⟩
  refine ⟨hid, fun now2 pane2 h => makeTabId_injective _ _ _ _ h, happ, ?_⟩
  obtain ⟨tab, htab⟩ := happ
  rw [htab]
  simp

theorem createNewTab_fresh_id_witness :
    (createNewTab oneTabState "b.txt" "Y" none 6).2 = makeTabId 6 (targetPaneOf oneTabState none) ∧
    (∀ now2 pane2, makeTabId now2 pane2 = makeTabId 6 (targetPaneOf oneTabState none) →
      now2 = 6 ∧ pane2 = targetPaneOf oneTabState none) ∧
    (∃ tab, (createNewTab oneTabState "b.txt" "Y" none 6).1.openTabs =
      oneTabState.openTabs ++ [((createNewTab oneTabState "b.txt" "Y" none 6).2, tab)]) ∧
    (createNewTab oneTabState "b.txt" "Y" none 6).1.openTabs.length =
      oneTabState.openTabs.length + 1 :=
  createNewTab_fresh_id oneTabState "b.txt" "Y" none 6 (by decide!) (by decide!)

/-- C19. `closeTab` opens the confirmation dialog exactly when the tab is an
open editor tab with `dirty = true`, and reads the answer only then; if the
user declines, or if the id is not an open tab, the whole state (the registry
of open tabs, the stored editor states, `activeTabId`, `activePane`, the split
flags and the rest) is left unchanged. -/
theorem closeTab_confirmation (st : AppState) (tabId : String) :
    (closeTabAsks st tabId = true ↔
      ∃ tab, mapGet st.openTabs tabId = some tab ∧ tab.type = "editor" ∧ tab.dirty = true) ∧
    (closeTabAsks st tabId = false → closeTab st tabId false = closeTab st tabId true) ∧
    (closeTabAsks st tabId = true → closeTab st tabId false = st) ∧
    (mapGet st.openTabs tabId = none → ∀ confirmed, closeTab st tabId confirmed = st) := by
  refine ⟨?_, ?_, ?_, ?_⟩
  · unfold closeTabAsks
    cases h : mapGet st.openTabs tabId with
    | none => simp
    | some tabInfo =>
      simp only [Bool.and_eq_true, decide_eq_true_eq, Option.some.injEq, exists_eq_left']
      exact ⟨fun ⟨a, b⟩ => ⟨b, a⟩, fun ⟨a, b⟩ => ⟨b, a⟩⟩
  · unfold closeTabAsks closeTab
    cases h : mapGet st.openTabs tabId with
    | none => simp
    | some tabInfo =>
      intro hasks
      simp only at hasks
      simp [hasks]
  · unfold closeTabAsks closeTab
    cases h : mapGet st.openTabs tabId with
    | none => simp
    | some tabInfo =>
      intro hasks
      simp only at hasks
      simp [hasks]
  · intro h confirmed
    unfold closeTab
    rw [h]

theorem storePreviousTab_frame (st : AppState) (paneData : PaneData) (tabId paneId : String) :
    (storePreviousTab st paneData tabId paneId).panes = st.panes ∧
    (storePreviousTab st paneData tabId paneId).activePane = st.activePane ∧
    (storePreviousTab st paneData tabId paneId).isVSplitActive = st.isVSplitActive ∧
    (storePreviousTab st paneData tabId paneId).isHSplitActive = st.isHSplitActive ∧
    (storePreviousTab st paneData tabId paneId).rightPaneHidden = st.rightPaneHidden ∧
    (storePreviousTab st paneData tabId paneId).dividerHidden = st.dividerHidden := by
  unfold storePreviousTab
  split
  · split
    · split
      · split <;> exact ⟨rfl, rfl, rfl, rfl, rfl, rfl⟩
      · exact ⟨rfl, rfl, rfl, rfl, rfl, rfl⟩
    · exact ⟨rfl, rfl, rfl, rfl, rfl, rfl⟩
  · exact ⟨rfl, rfl, rfl, rfl, rfl, rfl⟩

theorem showTab_frame (st : AppState) (tabId : String) (tabInfo : Tab) (paneId : String) :
    (showTab st tabId tabInfo paneId).activePane = st.activePane ∧
    (showTab st tabId tabInfo paneId).isVSplitActive = st.isVSplitActive ∧
    (showTab st tabId tabInfo paneId).isHSplitActive = st.isHSplitActive ∧
    (showTab st tabId tabInfo paneId).rightPaneHidden = st.rightPaneHidden ∧
    (showTab st tabId tabInfo paneId).dividerHidden = st.dividerHidden := by
  unfold showTab handleEditorTab
  split
  · exact ⟨rfl, rfl, rfl, rfl, rfl⟩
  · simp only
    split <;> exact ⟨rfl, rfl, rfl, rfl, rfl⟩

theorem showTab_pane (st : AppState) (tabId : String) (tabInfo : Tab) (paneId : String)
    (h : (mapGet st.panes paneId).isSome = true) :
    (mapGet (showTab st tabId tabInfo paneId).panes paneId).isSome = true := by
  unfold showTab handleEditorTab
  split
  · exact h
  · simp only
    split
    · simp [mapGet_mapSet_same]
    · exact h

theorem switchToTabInPane_flags (st : AppState) (tabId paneId : String) :
    (switchToTabInPane st tabId paneId).isVSplitActive = st.isVSplitActive ∧
    (switchToTabInPane st tabId paneId).isHSplitActive = st.isHSplitActive ∧
    (switchToTabInPane st tabId paneId).rightPaneHidden = st.rightPaneHidden ∧
    (switchToTabInPane st tabId paneId).dividerHidden = st.dividerHidden := by
  unfold switchToTabInPane
  split
  · rename_i tabInfo paneData _ _
    split
    · exact ⟨rfl, rfl, rfl, rfl⟩
    · obtain ⟨_, _, a1, a2, a3, a4⟩ := storePreviousTab_frame st paneData tabId paneId
      obtain ⟨_, b1, b2, b3, b4⟩ :=
        showTab_frame (storePreviousTab st paneData tabId paneId) tabId tabInfo paneId
      simp only [updateUIFocus]
      exact ⟨b1.trans a1, b2.trans a2, b3.trans a3, b4.trans a4⟩
  · exact ⟨rfl, rfl, rfl, rfl⟩

/-- The pane in which `switchToTabInPane` leaves the focus: the old one when
the tab or the pane is missing, a pane that already shows the tab, or the
pane asked for. -/
theorem switchToTabInPane_activePane (st : AppState) (tabId paneId : String) :
    (switchToTabInPane st tabId paneId).activePane = st.activePane ∨
    (switchToTabInPane st tabId paneId).activePane = paneId ∨
    (∃ entry, entry ∈ st.panes ∧ entry.2.activeTabId = some tabId ∧
      (mapGet st.openTabs tabId).isSome = true ∧
      (switchToTabInPane st tabId paneId).activePane = entry.1) := by
  unfold switchToTabInPane
  split
  · rename_i tabInfo paneData hopen _
    split
    · rename_i existingPaneId pd hfind
      right; right
      refine ⟨(existingPaneId, pd), List.mem_of_find?_eq_some hfind, ?_, by simp [hopen], rfl⟩
      have := List.find?_some hfind
      simpa using this
    · right; left; rfl
  · left; rfl

/-- After a switch to an open tab in an initialised pane, the pane that has
the focus shows the tab. -/
theorem switchToTabInPane_shows (st : AppState) (tabId paneId : String) (tabInfo : Tab)
    (paneData : PaneData) (ht : mapGet st.openTabs tabId = some tabInfo)
    (hp : mapGet st.panes paneId = some paneData) :
    ∃ pd, mapGet (switchToTabInPane st tabId paneId).panes
        (switchToTabInPane st tabId paneId).activePane = some pd ∧
      pd.activeTabId = some tabId := by
  have hfocus : ∀ (s : AppState) (k : String), (mapGet s.panes k).isSome = true →
      ∃ pd, mapGet (updateUIFocus s tabId k).panes (updateUIFocus s tabId k).activePane = some pd ∧
        pd.activeTabId = some tabId := by
    intro s k hk
    obtain ⟨pd0, hpd0⟩ := Option.isSome_iff_exists.mp hk
    simp only [updateUIFocus, hpd0]
    exact ⟨_, mapGet_mapSet_same _ _ _, rfl⟩
  unfold switchToTabInPane
  rw [ht, hp]
  simp only
  split
  · rename_i existingPaneId pd hfind
    exact hfocus st existingPaneId
      (mapGet_isSome_of_mem _ _ _ (List.mem_of_find?_eq_some hfind))
  · apply hfocus
    apply showTab_pane
    rw [(storePreviousTab_frame st paneData tabId paneId).1, hp]
    rfl

/-- C13. When the registry holds a tab with the file name `f` (not the default
name) and a file path, `createNewTab(f, ...)` creates nothing: the registry is
unchanged, the returned id is the id of such a tab (the first one; the given
one when it is the only one), and that tab becomes the active tab. The
registry is a map (its keys are distinct) and the pane of every open tab has
been initialised, as `createNewTab` does before it registers a tab. -/
theorem createNewTab_existing (st : AppState) (f content : String) (paneId : Option String)
    (now : Nat) (id0 : String) (tab0 : Tab) (hf : f ≠ defaultTabName)
    (hkeys : (st.openTabs.map Prod.fst).Nodup)
    (hpanes : ∀ entry ∈ st.openTabs,
      (mapGet st.panes (if entry.2.pane = "" then "left" else entry.2.pane)).isSome = true)
    (hmem : (id0, tab0) ∈ st.openTabs) (hname : tab0.fileName = f)
    (hpath : truthyString tab0.filePath = true) :
    (createNewTab st f content paneId now).1.openTabs = st.openTabs ∧
    (∃ tab, ((createNewTab st f content paneId now).2, tab) ∈ st.openTabs ∧
      tab.fileName = f ∧ truthyString tab.filePath = true) ∧
    ((∀ entry ∈ st.openTabs, entry.2.fileName = f → truthyString entry.2.filePath = true →
        entry.1 = id0) → (createNewTab st f content paneId now).2 = id0) ∧
    (createNewTab st f content paneId now).1.activeTabId =
      some (createNewTab st f content paneId now).2 := by
  have hex : ∃ entry, existingTab st f = some entry := by
    unfold existingTab
    rw [if_pos hf]
    apply Option.isSome_iff_exists.mp
    rw [List.find?_isSome]
    exact ⟨(id0, tab0), hmem, by simp [hname, hpath]⟩
  obtain ⟨⟨id, tab⟩, hfind⟩ := hex
  have hfind2 := hfind
  unfold existingTab at hfind2
  rw [if_pos hf] at hfind2
  have hin : (id, tab) ∈ st.openTabs := List.mem_of_find?_eq_some hfind2
  have hprop := List.find?_some hfind2
  simp only [Bool.and_eq_true, decide_eq_true_eq] at hprop
  have hget : mapGet st.openTabs id = some tab := mapGet_of_mem_nodup _ _ _ hkeys hin
  obtain ⟨pd, hpd⟩ := Option.isSome_iff_exists.mp (hpanes (id, tab) hin)
  have hres : createNewTab st f content paneId now =
      (switchToTabInPane st id (if tab.pane = "" then "left" else tab.pane), id) := by
    unfold createNewTab
    rw [hfind]
  rw [hres]
  refine ⟨switchToTabInPane_openTabs _ _ _, ⟨tab, hin, hprop.1, hprop.2⟩, ?_, ?_⟩
  · intro huniq
    exact huniq (id, tab) hin hprop.1 hprop.2
  · exact switchToTabInPane_active st id _ tab pd hget hpd

theorem createNewTab_existing_witness :
    (createNewTab openedFileState "a.txt" "X" none 2).1.openTabs = openedFileState.openTabs ∧
    (∃ tab, ((createNewTab openedFileState "a.txt" "X" none 2).2, tab) ∈ openedFileState.openTabs ∧
      tab.fileName = "a.txt" ∧ truthyString tab.filePath = true) ∧
    ((∀ entry ∈ openedFileState.openTabs, entry.2.fileName = "a.txt" →
        truthyString entry.2.filePath = true → entry.1 = "tab-1-left") →
      (createNewTab openedFileState "a.txt" "X" none 2).2 = "tab-1-left") ∧
    (createNewTab openedFileState "a.txt" "X" none 2).1.activeTabId =
      some (createNewTab openedFileState "a.txt" "X" none 2).2 :=
  createNewTab_existing openedFileState "a.txt" "X" none 2 "tab-1-left"
    { fileName := "a.txt", type := "editor", url := none, dirty := false,
      filePath := some "/home/a.txt", savedContent := some "X", lastContent := some "X",
      pane := "left" }
    (by decide) (by decide!) (by decide!) (by decide!) rfl rfl

/-- C15 (evaluation at the failing input). Two editor tabs `tab-1-left` and
`tab-2-left` are open in the left pane, the second one active and not dirty.
After `closeTab('tab-2-left')` the registry has no entry for `tab-2-left`, the
active tab is `tab-1-left`, and `tabStates` holds an entry for `tab-2-left`
again: the fallback switch has stored the state of the view under the id that
the pane still names as its active tab. -/
theorem closeTab_leaves_stored_state :
    mapGet twoTabsState.openTabs "tab-2-left" =
      some { fileName := "b.txt", type := "editor", url := none, dirty := false,
             filePath := none, savedContent := some "Y", lastContent := some "Y",
             pane := "left" } ∧
    twoTabsState.activeTabId = some "tab-2-left" ∧
    mapGet (closeTab twoTabsState "tab-2-left" true).openTabs "tab-2-left" = none ∧
    (closeTab twoTabsState "tab-2-left" true).activeTabId = some "tab-1-left" ∧
    mapGet (closeTab twoTabsState "tab-2-left" true).tabStates "tab-2-left" =
      some { doc := "Y", pane := "left" } := by
  decide!

/-- C18 (evaluation at the failing input). One editor tab is open in the left
pane and the split has been switched on, which created the tab `tab-2-right`
in the right pane. After `resetSplitWindow()`, and likewise after
`toggleSplit()`, the split is off, the active pane is the left one and the
stored editor state of `tab-2-right` is assigned to the left pane, and the
entry of `tab-2-right` in the registry still has `pane = 'right'`. -/
theorem split_off_keeps_registry_pane :
    splitState.isVSplitActive = true ∧
    (resetSplitWindow splitState).isVSplitActive = false ∧
    (resetSplitWindow splitState).activePane = "left" ∧
    (mapGet (resetSplitWindow splitState).tabStates "tab-2-right").map TabState.pane =
      some "left" ∧
    (mapGet (resetSplitWindow splitState).openTabs "tab-2-right").map Tab.pane = some "right" ∧
    (toggleSplit splitState 3).isVSplitActive = false ∧
    (toggleSplit splitState 3).activePane = "left" ∧
    (mapGet (toggleSplit splitState 3).tabStates "tab-2-right").map TabState.pane = some "left" ∧
    (mapGet (toggleSplit splitState 3).openTabs "tab-2-right").map Tab.pane = some "right" := by
  decide!

theorem mapGet_mapDelete_same {β : Type} (m : List (String × β)) (k : String)
    (hk : (m.map Prod.fst).Nodup) : mapGet (mapDelete m k) k = none := by
  cases h : mapGet (mapDelete m k) k with
  | none => rfl
  | some v =>
    exfalso
    exact (mem_mapDelete m k (k, v) hk (mem_of_mapGet _ _ _ h)).2 rfl

theorem typeCleanup_frame (st : AppState) (tabId : String) (tabInfo : Tab) :
    (typeCleanup st tabId tabInfo).openTabs = st.openTabs ∧
    (typeCleanup st tabId tabInfo).tabElements = st.tabElements ∧
    (typeCleanup st tabId tabInfo).panes = st.panes ∧
    (typeCleanup st tabId tabInfo).activeTabId = st.activeTabId ∧
    (typeCleanup st tabId tabInfo).isVSplitActive = st.isVSplitActive := by
  unfold typeCleanup
  split
  · simp only
    split
    · split <;> exact ⟨rfl, rfl, rfl, rfl, rfl⟩
    · exact ⟨rfl, rfl, rfl, rfl, rfl⟩
  · exact ⟨rfl, rfl, rfl, rfl, rfl⟩

theorem removeTab_frame (st : AppState) (tabId : String) (tabInfo : Tab) :
    (removeTab st tabId tabInfo).openTabs = mapDelete st.openTabs tabId ∧
    (removeTab st tabId tabInfo).tabElements = removeTabElement st.tabElements tabId ∧
    (removeTab st tabId tabInfo).panes = st.panes ∧
    (removeTab st tabId tabInfo).activeTabId = st.activeTabId ∧
    (removeTab st tabId tabInfo).isVSplitActive = st.isVSplitActive := by
  obtain ⟨h1, h2, h3, h4, h5⟩ := typeCleanup_frame st tabId tabInfo
  refine ⟨?_, ?_, h3, h4, h5⟩
  · show mapDelete (typeCleanup st tabId tabInfo).openTabs tabId = _
    rw [h1]
  · show removeTabElement (typeCleanup st tabId tabInfo).tabElements tabId = _
    rw [h2]

/-- After the entry has been removed from the registry, `setDirty(false)`
finds no active tab and changes nothing, so the reset only clears
`activeTabId`. -/
theorem resetActive_frame (st : AppState) (tabId : String)
    (hgone : mapGet st.openTabs tabId = none) :
    (resetActive st tabId).openTabs = st.openTabs ∧
    (resetActive st tabId).tabElements = st.tabElements ∧
    (resetActive st tabId).panes = st.panes ∧
    (resetActive st tabId).isVSplitActive = st.isVSplitActive ∧
    (resetActive st tabId).activeTabId =
      (if st.activeTabId = some tabId then none else st.activeTabId) := by
  unfold resetActive
  by_cases ha : st.activeTabId = some tabId
  · have hnone : getActiveTab st = none := by
      unfold getActiveTab
      rw [ha]
      simp only
      split
      · rfl
      · exact hgone
    have hset : setDirty st false false = st := by
      unfold setDirty updateActiveTab
      rw [ha, hnone]
    simp only [ha, if_true, hset]
    exact ⟨trivial, trivial, trivial, trivial, trivial⟩
  · simp only [ha, if_false]
    exact ⟨trivial, trivial, trivial, trivial, trivial⟩

theorem cleanupEmptyPane_frame (st : AppState) (pane : String) :
    (cleanupEmptyPane st pane).openTabs = st.openTabs ∧
    (cleanupEmptyPane st pane).tabElements = st.tabElements ∧
    (cleanupEmptyPane st pane).panes = st.panes ∧
    (cleanupEmptyPane st pane).activeTabId = st.activeTabId := by
  unfold cleanupEmptyPane
  simp only
  split <;> split <;> exact ⟨rfl, rfl, rfl, rfl⟩

/-- When the closed tab was the only tab of the right pane and the split is
on, `cleanupEmptyPane` switches the split off, hides the right pane and the
divider, and gives the focus to the left pane. -/
theorem cleanupEmptyPane_collapse (st : AppState)
    (hnone : (st.openTabs.filter (fun entry => entry.2.pane = "right")).length = 0)
    (hsplit : st.isVSplitActive = true) :
    (cleanupEmptyPane st "right").isVSplitActive = false ∧
    (cleanupEmptyPane st "right").isHSplitActive = false ∧
    (cleanupEmptyPane st "right").rightPaneHidden = true ∧
    (cleanupEmptyPane st "right").dividerHidden = true ∧
    (cleanupEmptyPane st "right").activePane = "left" := by
  unfold cleanupEmptyPane
  simp only [hnone, hsplit, and_self, if_true]
  split <;> exact ⟨rfl, rfl, rfl, rfl, rfl⟩

/-- The state of `closeTab` when the closing goes on, before the switch to
a remaining tab. -/
theorem closeTab_go (st : AppState) (tabId : String) (confirmed : Bool) (tabInfo : Tab)
    (hopen : mapGet st.openTabs tabId = some tabInfo)
    (hgo : closeTabAsks st tabId = true → confirmed = true) :
    closeTab st tabId confirmed =
      (if (cleanupEmptyPane (resetActive (removeTab st tabId tabInfo) tabId)
            tabInfo.pane).activeTabId = some tabId ∨
          truthyString (cleanupEmptyPane (resetActive (removeTab st tabId tabInfo) tabId)
            tabInfo.pane).activeTabId = false then
        fallbackSwitch
          (cleanupEmptyPane (resetActive (removeTab st tabId tabInfo) tabId) tabInfo.pane)
      else cleanupEmptyPane (resetActive (removeTab st tabId tabInfo) tabId) tabInfo.pane) := by
  have hgo2 : ¬ (((tabInfo.dirty && decide (tabInfo.type = "editor")) && !confirmed) = true) := by
    intro h
    simp only [Bool.and_eq_true, Bool.not_eq_true', decide_eq_true_eq] at h
    have hasks : closeTabAsks st tabId = true := by
      simp [closeTabAsks, hopen, h.1.1, h.1.2]
    rw [hgo hasks] at h
    exact Bool.noConfusion h.2
  unfold closeTab
  rw [hopen]
  simp only
  rw [if_neg hgo2]

/-- The pane in which `switchToTabInPane` activates the tab: the first pane
that already shows the tab if there is one, the pane named in the call
otherwise. -/
theorem switchToTabInPane_pane (st : AppState) (tabId paneId : String) (tabInfo : Tab)
    (paneData : PaneData) (ht : mapGet st.openTabs tabId = some tabInfo)
    (hp : mapGet st.panes paneId = some paneData) :
    (switchToTabInPane st tabId paneId).activePane =
      ((st.panes.find? (fun entry => entry.2.activeTabId = some tabId)).map Prod.fst).getD
        paneId := by
  unfold switchToTabInPane
  rw [ht, hp]
  simp only
  split
  · rename_i existingPaneId pd hfind
    rw [hfind]
    rfl
  · rename_i hfind
    rw [hfind]
    rfl

/-- C16 (as stated, refuted). The split of `splitState` has been reset and the
user has clicked on the tab `a.txt`, which is the active tab. The other tab,
`tab-2-right`, now belongs to the left pane (the class of its tab element is
`pane-left`, and its stored editor state names the pane `left`), and the right
pane is hidden. After `closeTab` of the tab `a.txt` the remaining tab
`tab-2-right` is the active tab, and it has been activated in the right pane,
which is still hidden; the left pane does not show it. -/
theorem closeTab_activates_hidden_pane :
    resetSplitClickedState.activeTabId = some "tab-1-left" ∧
    removeTabElement resetSplitClickedState.tabElements "tab-1-left" =
      [{ tabId := "tab-2-right", pane := "left" }] ∧
    mapGet resetSplitClickedState.tabStates "tab-2-right" = some { doc := "", pane := "left" } ∧
    resetSplitClickedState.rightPaneHidden = true ∧
    (closeTab resetSplitClickedState "tab-1-left" true).activeTabId = some "tab-2-right" ∧
    (closeTab resetSplitClickedState "tab-1-left" true).activePane = "right" ∧
    (closeTab resetSplitClickedState "tab-1-left" true).rightPaneHidden = true ∧
    mapGet (closeTab resetSplitClickedState "tab-1-left" true).panes "left" =
      some { doc := "X", activeTabId := some "tab-1-left" } := by
  decide!

/-- C16 (amended). A tab is closed (it is open, and the user confirms when
asked). If it was the active tab, or no tab was active, then afterwards the
active tab is the last element of the tab strip among those remaining; the tab
is activated in the first pane that already shows it (hidden or not) and, when
no pane shows it, in the pane named by the class of its tab element (`right`
for the class `pane-right`, `left` otherwise), and the active pane shows it.
If no element remains, `activeTabId` is `null` when the closed tab was the
active tab and is unchanged otherwise. If another tab was the active tab,
`activeTabId` is unchanged. The registry is a map (its keys are distinct), and
every remaining element of the tab strip names an open tab other than the
closed one, the pane of its class being initialised. -/
theorem closeTab_fallback (st : AppState) (tabId : String) (confirmed : Bool) (tabInfo : Tab)
    (hopen : mapGet st.openTabs tabId = some tabInfo)
    (hgo : closeTabAsks st tabId = true → confirmed = true)
    (hkeys : (st.openTabs.map Prod.fst).Nodup)
    (hstrip : ∀ el ∈ removeTabElement st.tabElements tabId, el.tabId ≠ tabId ∧
      (mapGet st.openTabs el.tabId).isSome = true ∧
      (mapGet st.panes (if el.pane = "right" then "right" else "left")).isSome = true) :
    ((st.activeTabId = some tabId ∨ st.activeTabId = none ∨ st.activeTabId = some "") →
      (∀ el, (removeTabElement st.tabElements tabId).getLast? = some el →
        (closeTab st tabId confirmed).activeTabId = some el.tabId ∧
        (closeTab st tabId confirmed).activePane =
          ((st.panes.find? (fun entry => entry.2.activeTabId = some el.tabId)).map
            Prod.fst).getD (if el.pane = "right" then "right" else "left") ∧
        ∃ pd, mapGet (closeTab st tabId confirmed).panes (closeTab st tabId confirmed).activePane
            = some pd ∧ pd.activeTabId = some el.tabId) ∧
      ((removeTabElement st.tabElements tabId).getLast? = none →
        (closeTab st tabId confirmed).activeTabId =
          (if st.activeTabId = some tabId then none else st.activeTabId))) ∧
    (∀ other, st.activeTabId = some other → other ≠ "" → other ≠ tabId →
      (closeTab st tabId confirmed).activeTabId = some other) := by
  obtain ⟨r1, r2, r3, r4, _⟩ := removeTab_frame st tabId tabInfo
  have hgone : mapGet (removeTab st tabId tabInfo).openTabs tabId = none := by
    rw [r1]; exact mapGet_mapDelete_same _ _ hkeys
  obtain ⟨a1, a2, a3, _, a5⟩ := resetActive_frame (removeTab st tabId tabInfo) tabId hgone
  obtain ⟨c1, c2, c3, c4⟩ :=
    cleanupEmptyPane_frame (resetActive (removeTab st tabId tabInfo) tabId) tabInfo.pane
  have hact5 : (cleanupEmptyPane (resetActive (removeTab st tabId tabInfo) tabId)
      tabInfo.pane).activeTabId = (if st.activeTabId = some tabId then none else st.activeTabId) := by
    rw [c4, a5, r4]
  rw [closeTab_go st tabId confirmed tabInfo hopen hgo]
  constructor
  · intro hact
    have hfalse : truthyString (cleanupEmptyPane (resetActive (removeTab st tabId tabInfo) tabId)
        tabInfo.pane).activeTabId = false := by
      rw [hact5]
      by_cases h : st.activeTabId = some tabId
      · rw [if_pos h]; rfl
      · rw [if_neg h]
        rcases hact with h2 | h2 | h2
        · exact absurd h2 h
        · rw [h2]; rfl
        · rw [h2]; rfl
    rw [if_pos (Or.inr hfalse)]
    unfold fallbackSwitch
    rw [c2, a2, r2]
    constructor
    · intro el hlast
      rw [hlast]
      simp only
      obtain ⟨hne, hopenEl, hpaneEl⟩ := hstrip el (List.mem_of_getLast?_eq_some hlast)
      have hopen2 : (mapGet (cleanupEmptyPane (resetActive (removeTab st tabId tabInfo) tabId)
          tabInfo.pane).openTabs el.tabId).isSome = true := by
        rw [c1, a1, r1, mapGet_mapDelete_other _ _ _ hne]; exact hopenEl
      have hpanes : (cleanupEmptyPane (resetActive (removeTab st tabId tabInfo) tabId)
          tabInfo.pane).panes = st.panes := by
        rw [c3, a3, r3]
      have hpane2 : (mapGet (cleanupEmptyPane (resetActive (removeTab st tabId tabInfo) tabId)
          tabInfo.pane).panes (elementPane el)).isSome = true := by
        rw [hpanes]; exact hpaneEl
      obtain ⟨tab2, htab2⟩ := Option.isSome_iff_exists.mp hopen2
      obtain ⟨pd2, hpd2⟩ := Option.isSome_iff_exists.mp hpane2
      refine ⟨switchToTabInPane_active _ _ _ tab2 pd2 htab2 hpd2, ?_,
        switchToTabInPane_shows _ _ _ tab2 pd2 htab2 hpd2⟩
      rw [switchToTabInPane_pane _ _ _ tab2 pd2 htab2 hpd2, hpanes]
      rfl
    · intro hlast
      rw [hlast]
      exact hact5
  · intro other hact hne1 hne2
    have hsome : (cleanupEmptyPane (resetActive (removeTab st tabId tabInfo) tabId)
        tabInfo.pane).activeTabId = some other := by
      rw [hact5, hact]
      have : ¬ (some other = some tabId) := fun h => hne2 (Option.some.inj h)
      rw [if_neg this]
    have hcond : ¬ ((cleanupEmptyPane (resetActive (removeTab st tabId tabInfo) tabId)
          tabInfo.pane).activeTabId = some tabId ∨
        truthyString (cleanupEmptyPane (resetActive (removeTab st tabId tabInfo) tabId)
          tabInfo.pane).activeTabId = false) := by
      rw [hsome]
      simp [truthyString, hne1, hne2]
    rw [if_neg hcond]
    exact hsome

theorem closeTab_fallback_witness :
    ((twoTabsState.activeTabId = some "tab-2-left" ∨ twoTabsState.activeTabId = none ∨
        twoTabsState.activeTabId = some "") →
      (∀ el, (removeTabElement twoTabsState.tabElements "tab-2-left").getLast? = some el →
        (closeTab twoTabsState "tab-2-left" true).activeTabId = some el.tabId ∧
        (closeTab twoTabsState "tab-2-left" true).activePane =
          ((twoTabsState.panes.find? (fun entry => entry.2.activeTabId = some el.tabId)).map
            Prod.fst).getD (if el.pane = "right" then "right" else "left") ∧
        ∃ pd, mapGet (closeTab twoTabsState "tab-2-left" true).panes
            (closeTab twoTabsState "tab-2-left" true).activePane = some pd ∧
          pd.activeTabId = some el.tabId) ∧
      ((removeTabElement twoTabsState.tabElements "tab-2-left").getLast? = none →
        (closeTab twoTabsState "tab-2-left" true).activeTabId =
          (if twoTabsState.activeTabId = some "tab-2-left" then none
            else twoTabsState.activeTabId))) ∧
    (∀ other, twoTabsState.activeTabId = some other → other ≠ "" → other ≠ "tab-2-left" →
      (closeTab twoTabsState "tab-2-left" true).activeTabId = some other) :=
  closeTab_fallback twoTabsState "tab-2-left" true
    { fileName := "b.txt", type := "editor", url := none, dirty := false, filePath := none,
      savedContent := some "Y", lastContent := some "Y", pane := "left" }
    (by decide!) (fun _ => rfl) (by decide!) (by decide!)

/-- C17. The vertical split is on and the tab being closed is the only open
tab whose pane is `right` (in the registry, in the classes of the tab strip,
and no pane but the left one shows another open tab); the user confirms when
asked. After `closeTab` the split flags are false, the right pane and the
divider are hidden, and the active pane is the left one. -/
theorem closeTab_split_collapse (st : AppState) (tabId : String) (confirmed : Bool)
    (tabInfo : Tab) (hopen : mapGet st.openTabs tabId = some tabInfo)
    (hgo : closeTabAsks st tabId = true → confirmed = true)
    (hkeys : (st.openTabs.map Prod.fst).Nodup)
    (hright : tabInfo.pane = "right") (hsplit : st.isVSplitActive = true)
    (honly : ∀ entry ∈ st.openTabs, entry.2.pane = "right" → entry.1 = tabId)
    (hstrip : ∀ el ∈ removeTabElement st.tabElements tabId, el.pane ≠ "right")
    (hpanes : ∀ entry ∈ st.panes, ∀ other, entry.2.activeTabId = some other →
      other ≠ tabId → (mapGet st.openTabs other).isSome = true → entry.1 = "left") :
    (closeTab st tabId confirmed).isVSplitActive = false ∧
    (closeTab st tabId confirmed).isHSplitActive = false ∧
    (closeTab st tabId confirmed).rightPaneHidden = true ∧
    (closeTab st tabId confirmed).dividerHidden = true ∧
    (closeTab st tabId confirmed).activePane = "left" := by
  obtain ⟨r1, r2, r3, r4, r5⟩ := removeTab_frame st tabId tabInfo
  have hgone : mapGet (removeTab st tabId tabInfo).openTabs tabId = none := by
    rw [r1]; exact mapGet_mapDelete_same _ _ hkeys
  obtain ⟨a1, a2, a3, a4, a5⟩ := resetActive_frame (removeTab st tabId tabInfo) tabId hgone
  obtain ⟨c1, c2, c3, c4⟩ :=
    cleanupEmptyPane_frame (resetActive (removeTab st tabId tabInfo) tabId) "right"
  have hnoright : ((resetActive (removeTab st tabId tabInfo) tabId).openTabs.filter
      (fun entry => entry.2.pane = "right")).length = 0 := by
    rw [a1, r1, List.length_eq_zero, List.filter_eq_nil_iff]
    intro entry hmem hp
    obtain ⟨h1, h2⟩ := mem_mapDelete _ _ _ hkeys hmem
    exact h2 (honly entry h1 (by simpa using hp))
  obtain ⟨k1, k2, k3, k4, k5⟩ := cleanupEmptyPane_collapse
    (resetActive (removeTab st tabId tabInfo) tabId) hnoright (by rw [a4, r5]; exact hsplit)
  rw [closeTab_go st tabId confirmed tabInfo hopen hgo, hright]
  split
  · unfold fallbackSwitch
    split
    · rename_i el hlast
      rw [c2, a2, r2] at hlast
      have hel := hstrip el (List.mem_of_getLast?_eq_some hlast)
      have hleft : elementPane el = "left" := by simp [elementPane, hel]
      obtain ⟨f1, f2, f3, f4⟩ := switchToTabInPane_flags
        (cleanupEmptyPane (resetActive (removeTab st tabId tabInfo) tabId) "right")
        el.tabId (elementPane el)
      refine ⟨f1.trans k1, f2.trans k2, f3.trans k3, f4.trans k4, ?_⟩
      rcases switchToTabInPane_activePane
        (cleanupEmptyPane (resetActive (removeTab st tabId tabInfo) tabId) "right")
        el.tabId (elementPane el) with h | h | ⟨entry, hmem, hshow, hisopen, h⟩
      · rw [h]; exact k5
      · rw [h]; exact hleft
      · rw [h]
        rw [c3, a3, r3] at hmem
        rw [c1, a1, r1] at hisopen
        have hne : el.tabId ≠ tabId := by
          rintro heq
          rw [heq, mapGet_mapDelete_same _ _ hkeys] at hisopen
          exact Bool.noConfusion hisopen
        rw [mapGet_mapDelete_other _ _ _ hne] at hisopen
        exact hpanes entry hmem el.tabId hshow hne hisopen
    · exact ⟨k1, k2, k3, k4, k5⟩
  · exact ⟨k1, k2, k3, k4, k5⟩

theorem closeTab_split_collapse_witness :
    (closeTab splitState "tab-2-right" true).isVSplitActive = false ∧
    (closeTab splitState "tab-2-right" true).isHSplitActive = false ∧
    (closeTab splitState "tab-2-right" true).rightPaneHidden = true ∧
    (closeTab splitState "tab-2-right" true).dividerHidden = true ∧
    (closeTab splitState "tab-2-right" true).activePane = "left" :=
  closeTab_split_collapse splitState "tab-2-right" true
    { fileName := "Unbenannt.txt", type := "editor", url := none, dirty := false,
      filePath := none, savedContent := some "", lastContent := some "", pane := "right" }
    (by decide!) (fun _ => rfl) (by decide!) rfl (by decide!) (by decide!) (by decide!)
    (by
      have hp : splitState.panes =
          [("left", { doc := "X", activeTabId := some "tab-1-left" }),
           ("right", { doc := "", activeTabId := some "tab-2-right" })] := by decide!
      intro entry hmem other hshow hne _
      rw [hp] at hmem
      simp only [List.mem_cons, List.mem_singleton, List.not_mem_nil, or_false] at hmem
      rcases hmem with rfl | rfl
      · rfl
      · simp only [Option.some.injEq] at hshow
        exact absurd hshow.symm hne)

/-! ## Proofs: file explorer -/

theorem sortInsert_perm (compare : Entry → Entry → Int) (a : Entry) (l : List Entry) :
    List.Perm (sortInsert compare a l) (a :: l) := by
  induction l with
  | nil => exact List.Perm.refl _
  | cons b rest ih =>
    unfold sortInsert
    split
    · exact List.Perm.refl _
    · exact (List.Perm.cons b ih).trans (List.Perm.swap a b rest)

theorem sortInsert_sorted (compare : Entry → Entry → Int)
    (hanti : ∀ a b, 0 ≤ compare a b → compare b a ≤ 0)
    (htrans : ∀ a b c, compare a b ≤ 0 → compare b c ≤ 0 → compare a c ≤ 0)
    (a : Entry) (l : List Entry) (hl : List.Pairwise (fun x y => compare x y ≤ 0) l) :
    List.Pairwise (fun x y => compare x y ≤ 0) (sortInsert compare a l) := by
  induction l with
  | nil => simp [sortInsert]
  | cons b rest ih =>
    rw [List.pairwise_cons] at hl
    unfold sortInsert
    split
    · rename_i hlt
      rw [List.pairwise_cons]
      refine ⟨?_, List.pairwise_cons.mpr hl⟩
      intro y hy
      rcases List.mem_cons.mp hy with rfl | hy
      · omega
      · exact htrans a b y (by omega) (hl.1 y hy)
    · rename_i hge
      rw [List.pairwise_cons]
      refine ⟨?_, ih hl.2⟩
      intro y hy
      rcases List.mem_cons.mp ((sortInsert_perm compare a rest).subset hy) with rfl | hy
      · exact hanti y b (by omega)
      · exact hl.1 y hy

theorem arraySort_spec (compare : Entry → Entry → Int)
    (hanti : ∀ a b, 0 ≤ compare a b → compare b a ≤ 0)
    (htrans : ∀ a b c, compare a b ≤ 0 → compare b c ≤ 0 → compare a c ≤ 0)
    (entries : List Entry) :
    List.Perm (arraySort compare entries) entries ∧
    List.Pairwise (fun x y => compare x y ≤ 0) (arraySort compare entries) := by
  have h : ∀ (l acc : List Entry), List.Pairwise (fun x y => compare x y ≤ 0) acc →
      List.Perm (l.foldl (fun sorted a => sortInsert compare a sorted) acc) (acc ++ l) ∧
      List.Pairwise (fun x y => compare x y ≤ 0)
        (l.foldl (fun sorted a => sortInsert compare a sorted) acc) := by
    intro l
    induction l with
    | nil => intro acc hacc; simpa using hacc
    | cons a l ih =>
      intro acc hacc
      obtain ⟨h1, h2⟩ := ih (sortInsert compare a acc)
        (sortInsert_sorted compare hanti htrans a acc hacc)
      refine ⟨?_, h2⟩
      simp only [List.foldl_cons]
      refine h1.trans ?_
      have hp : List.Perm (sortInsert compare a acc ++ l) ((a :: acc) ++ l) :=
        List.Perm.append_right l (sortInsert_perm compare a acc)
      refine hp.trans ?_
      have hm : List.Perm (acc ++ a :: l) (a :: (acc ++ l)) := List.perm_middle
      simpa using hm.symm
  obtain ⟨h1, h2⟩ := h entries [] List.Pairwise.nil
  exact ⟨by simpa [arraySort] using h1, h2⟩

theorem entryCompare_anti (localeCompare : String → String → Int)
    (hanti : ∀ a b, 0 ≤ localeCompare a b → localeCompare b a ≤ 0) (a b : Entry)
    (h : 0 ≤ entryCompare localeCompare a b) : entryCompare localeCompare b a ≤ 0 := by
  unfold entryCompare at h ⊢
  cases ha : a.isDir <;> cases hb : b.isDir <;> simp [ha, hb] at h ⊢
  · exact hanti _ _ h
  · exact hanti _ _ h

theorem entryCompare_trans (localeCompare : String → String → Int)
    (htrans : ∀ a b c, localeCompare a b ≤ 0 → localeCompare b c ≤ 0 → localeCompare a c ≤ 0)
    (a b c : Entry) (h1 : entryCompare localeCompare a b ≤ 0)
    (h2 : entryCompare localeCompare b c ≤ 0) : entryCompare localeCompare a c ≤ 0 := by
  unfold entryCompare at h1 h2 ⊢
  cases ha : a.isDir <;> cases hb : b.isDir <;> cases hc : c.isDir <;>
    simp [ha, hb, hc] at h1 h2 ⊢
  · exact htrans _ _ _ h1 h2
  · exact htrans _ _ _ h1 h2

/-- C20 (as stated, refuted). For the base path `/home`, `render` puts the
item `..` before the items of the entries: the rendered sequence of the four
entries of `demoEntries` has five items, begins with `..`, and is not a
permutation of the entries. -/
theorem render_up_item_not_entry :
    (render lengthCompare demoEntries "/home").length = 5 ∧
    (render lengthCompare demoEntries "/home").head? = some { name := "..", isDir := true } ∧
    ¬ List.Perm (render lengthCompare demoEntries "/home") demoEntries := by
  refine ⟨by decide!, by decide!, fun h => ?_⟩
  have hlen := h.length_eq
  have h5 : (render lengthCompare demoEntries "/home").length = 5 := by decide!
  have h4 : demoEntries.length = 4 := rfl
  omega

/-- C20 (amended). For a collation `localeCompare` that is a consistent
comparator and every list of directory entries, the sequence rendered by
`render` is a sequence `rest` for the base path `/`, and the item `..`
followed by a sequence `rest` for every other base path, where `rest` is a
permutation of the entries in which, within the directories and within the
files, the names are in non-decreasing collation order; and in the whole
rendered sequence no file precedes a directory. -/
theorem render_order (localeCompare : String → String → Int)
    (hanti : ∀ a b, 0 ≤ localeCompare a b → localeCompare b a ≤ 0)
    (htrans : ∀ a b c, localeCompare a b ≤ 0 → localeCompare b c ≤ 0 → localeCompare a c ≤ 0)
    (entries : List Entry) (basePath : String) :
    (∃ rest,
      render localeCompare entries basePath =
        (if basePath = "/" then rest else { name := "..", isDir := true } :: rest) ∧
      List.Perm rest entries ∧
      List.Pairwise (fun a b => localeCompare a.name b.name ≤ 0) (rest.filter (fun e => e.isDir)) ∧
      List.Pairwise (fun a b => localeCompare a.name b.name ≤ 0)
        (rest.filter (fun e => !e.isDir))) ∧
    List.Pairwise (fun a b => ¬ (a.isDir = false ∧ b.isDir = true))
      (render localeCompare entries basePath) := by
  obtain ⟨hperm, hsorted⟩ := arraySort_spec (entryCompare localeCompare)
    (entryCompare_anti localeCompare hanti) (entryCompare_trans localeCompare htrans) entries
  have hdirs : List.Pairwise (fun a b => ¬ (a.isDir = false ∧ b.isDir = true))
      (sortedEntries localeCompare entries) := by
    refine List.Pairwise.imp ?_ hsorted
    intro a b h ⟨ha, hb⟩
    simp [entryCompare, ha, hb] at h
  refine ⟨⟨sortedEntries localeCompare entries, ?_, hperm, ?_, ?_⟩, ?_⟩
  · unfold render upItems
    by_cases hb : basePath = "/"
    · simp [hb]
    · simp [hb]
  · refine List.Pairwise.imp_of_mem ?_ (List.Pairwise.filter _ hsorted)
    intro a b ha hb h
    have ha2 : a.isDir = true := (List.mem_filter.mp ha).2
    have hb2 : b.isDir = true := (List.mem_filter.mp hb).2
    simpa [entryCompare, ha2, hb2] using h
  · refine List.Pairwise.imp_of_mem ?_ (List.Pairwise.filter _ hsorted)
    intro a b ha hb h
    have ha2 : a.isDir = false := by simpa using (List.mem_filter.mp ha).2
    have hb2 : b.isDir = false := by simpa using (List.mem_filter.mp hb).2
    simpa [entryCompare, ha2, hb2] using h
  · unfold render upItems
    by_cases hb : basePath = "/"
    · simpa [hb] using hdirs
    · simp only [ne_eq, hb, not_false_eq_true, if_true, List.singleton_append]
      refine List.pairwise_cons.mpr ⟨?_, hdirs⟩
      intro b _ h
      exact Bool.noConfusion h.1

theorem render_order_witness :
    (∃ rest,
      render lengthCompare demoEntries "/home" =
        (if "/home" = "/" then rest else { name := "..", isDir := true } :: rest) ∧
      List.Perm rest demoEntries ∧
      List.Pairwise (fun a b => lengthCompare a.name b.name ≤ 0) (rest.filter (fun e => e.isDir)) ∧
      List.Pairwise (fun a b => lengthCompare a.name b.name ≤ 0)
        (rest.filter (fun e => !e.isDir))) ∧
    List.Pairwise (fun a b => ¬ (a.isDir = false ∧ b.isDir = true))
      (render lengthCompare demoEntries "/home") :=
  render_order lengthCompare
    (fun a b h => by unfold lengthCompare at h ⊢; omega)
    (fun a b c h1 h2 => by unfold lengthCompare at h1 h2 ⊢; omega)
    demoEntries "/home"

/-! ## Proofs: saving, closing all tabs, menu state -/

/-- C21 (evaluation at the failing input). The file `/home/a.txt` is open in
a clean active tab. The first content change marks the tab dirty and sends
`SetUnsavedChanges(true)` and `MarkFileAsUnsaved(undefined)`: the argument is
the property `filename`, which the tab object does not have, not the file path
`/home/a.txt`. A second content change sends nothing more. -/
theorem docChanged_notifies_undefined :
    (getActiveTab openedFileState).map (fun tab => (tab.dirty, tab.filePath)) =
      some (false, some "/home/a.txt") ∧
    openedFileState.backendCalls = [] ∧
    (getActiveTab (docChanged openedFileState "left" "Y")).map Tab.dirty = some true ∧
    (docChanged openedFileState "left" "Y").backendCalls =
      [BackendCall.setUnsavedChanges true, BackendCall.markFileAsUnsaved none] ∧
    (docChanged (docChanged openedFileState "left" "Y") "left" "Z").backendCalls =
      [BackendCall.setUnsavedChanges true, BackendCall.markFileAsUnsaved none] := by
  decide!

theorem validateContent_blank (content : String)
    (h : ∀ c ∈ content.toList, isJsSpace c = true) : validateContent content = false := by
  unfold validateContent
  rw [trim_space content.toList h]
  simp

/-- C22. When the content of the editor is empty or consists of white space
only, `saveFile` returns false and leaves the whole state unchanged: no call
of the backend is made, and `savedContent`, `filePath`, `fileName` and the
`dirty` flag of the active tab stay as they are. -/
theorem saveFile_blank (st : AppState) (backendResult : Bool)
    (h : ∀ c ∈ (getValue st).toList, isJsSpace c = true) :
    saveFile st backendResult = (st, false) := by
  unfold saveFile
  rw [validateContent_blank _ h]
  rfl

theorem saveFile_blank_witness : saveFile blankTabState true = (blankTabState, false) :=
  saveFile_blank blankTabState true (by decide!)

/-- C23 (evaluation at the failing input). Two clean editor tabs are open.
After `closeAllTabs()` the state is the same as before: both tabs are still in
the registry and no untitled tab has been created, since
`closeTabWithoutConfirmation` closes nothing. -/
theorem closeAllTabs_closes_nothing :
    twoTabsState.openTabs.map Prod.fst = ["tab-1-left", "tab-2-left"] ∧
    closeAllTabs twoTabsState true 3 = twoTabsState ∧
    (closeAllTabs twoTabsState true 3).openTabs.map Prod.fst = ["tab-1-left", "tab-2-left"] := by
  decide!

/-- C28 (evaluation at the failing input). The active tab holds the file
`/home/a.txt` with the content `X`. After a successful `saveFile()` the backend
has been asked to save to `/home/a.txt`, `savedContent` is `X` and the tab is
clean, and the `filePath` of the tab is `a.txt`: `saveFile` hands the file
name, not the path, to `updateCurrentTabOnSave`. -/
theorem saveFile_replaces_path :
    (getActiveTab openedFileState).map (fun tab => (tab.fileName, tab.filePath)) =
      some ("a.txt", some "/home/a.txt") ∧
    (saveFile openedFileState true).2 = true ∧
    (saveFile openedFileState true).1.backendCalls =
      [BackendCall.saveFile "X" "/home/a.txt" true] ∧
    (getActiveTab (saveFile openedFileState true).1).map
        (fun tab => (tab.fileName, tab.filePath, tab.savedContent, tab.dirty)) =
      some ("a.txt", some "a.txt", some "X", false) := by
  decide!

/-- C30 (evaluation at the failing input). After `toggleSplit()` has switched
the split on, two tabs are open and `isVSplitActive` is true, and `canSplit`
is true: `updateMenuState` reads the property `isSplitActive`, which is never
assigned. -/
theorem canSplit_ignores_split :
    splitState.openTabs.length = 2 ∧
    splitState.isVSplitActive = true ∧
    splitState.isSplitActive = none ∧
    canSplit splitState = true := by
  decide!

/-! ## Proofs: comment filter and class context -/

/-- C25 (evaluation at the failing input). The line
`function foo() {} // helper` does not begin with `#` or `//`, and the pattern
of JavaScript functions yields the node `foo` on it; the comment filter
matches the `//` further right, and `parseOutline` returns no node. -/
theorem comment_filter_drops_declaration :
    startsWith (trim trailingCommentDocument) "#".toList = false ∧
    startsWith (trim trailingCommentDocument) "//".toList = false ∧
    (jsFunctionItems 0 (trim trailingCommentDocument)).map Item.name = ["foo"] ∧
    (commentRe.exec (trim trailingCommentDocument)).isSome = true ∧
    (parseOutline trailingCommentDocument).map Outline.items = some [] := by
  decide!

/-- C29 (evaluation at the failing input). In the document `export class Foo {`
/ `bar() {`, `parseOutline` records the class `Foo` on line 0 and the method
`bar` on line 1 with level 1 and the class `null`: the expression of
`getContext` asks for `class` at the start of the line and does not see the
exported class. -/
theorem exported_class_not_a_context :
    (parseOutline exportedClassDocument).map Outline.items = some
      [{ type := "class", name := "Foo", line := 0, level := 0, exportFlag := some true },
       { type := "method", name := "bar", line := 1, level := 1, async := some false,
         classField := some none }] ∧
    getContext (splitLines exportedClassDocument) 1 =
      some { inClass := false, className := none, indentLevel := 0 } := by
  decide!

/-! ## Proofs: language detector -/

theorem detectLoop_first (lower : List Char) (before after : List Rule) (rule : Rule)
    (hbefore : ∀ r ∈ before, ruleMatches lower r = false) (hrule : ruleMatches lower rule = true) :
    detectLoop lower (before ++ rule :: after) = rule.tag := by
  induction before with
  | nil => simp [detectLoop, hrule]
  | cons r before ih =>
    have hr := hbefore r (List.mem_cons_self _ _)
    simp only [List.cons_append, detectLoop, hr]
    exact ih (fun x hx => hbefore x (List.mem_cons_of_mem _ hx))

theorem detectLoop_none (lower : List Char) (rs : List Rule)
    (hnone : ∀ r ∈ rs, ruleMatches lower r = false) :
    detectLoop lower rs =
      (if has lower "c " && !has lower "c#" && !has lower "c++" then "c" else "general") := by
  induction rs with
  | nil => rfl
  | cons r rs ih =>
    have hr := hnone r (List.mem_cons_self _ _)
    simp only [detectLoop, hr]
    exact ih (fun x hx => hnone x (List.mem_cons_of_mem _ hx))

/-- C24. `detect` is first-match-wins in the order of the array `rules`: for
the empty prompt it returns `general`; for a non-empty prompt it returns the
tag of the first rule one of whose keywords occurs in the lower-cased prompt
or whose test holds on it; if no rule matches it returns `c` when the
lower-cased prompt contains `c ` and neither `c#` nor `c++`, and `general`
otherwise. The two examples of the source give `//py` and `sql`. -/
theorem detect_first_match (toLowerCase : List Char → List Char) :
    detect toLowerCase [] = "general" ∧
    (∀ prompt before rule after, prompt ≠ [] → rules = before ++ rule :: after →
      (∀ r ∈ before, ruleMatches (toLowerCase prompt) r = false) →
      ruleMatches (toLowerCase prompt) rule = true →
      detect toLowerCase prompt = rule.tag) ∧
    (∀ prompt, prompt ≠ [] → (∀ r ∈ rules, ruleMatches (toLowerCase prompt) r = false) →
      detect toLowerCase prompt =
        (if has (toLowerCase prompt) "c " && !has (toLowerCase prompt) "c#" &&
            !has (toLowerCase prompt) "c++" then "c" else "general")) ∧
    detect asciiLowerCase "How to write a function in Python?".toList = "//py" ∧
    detect asciiLowerCase "SELECT * FROM users".toList = "sql" := by
  refine ⟨rfl, ?_, ?_, by decide!, by decide!⟩
  · intro prompt before rule after hne hsplit hbefore hrule
    unfold detect
    rw [if_neg hne, hsplit]
    exact detectLoop_first _ before after rule hbefore hrule
  · intro prompt hne hnone
    unfold detect
    rw [if_neg hne]
    exact detectLoop_none _ rules hnone

/-! ## Proofs: shape of the tree of `buildTree` -/

theorem buildStep_stack (lvl : Nat → Int) (st : BuildState) (i : Nat) :
    (buildStep lvl st i).stack = i :: popWhile lvl (lvl i) st.stack := by
  unfold buildStep
  cases h : popWhile lvl (lvl i) st.stack <;> simp

theorem buildRun_succ (lvl : Nat → Int) (n : Nat) :
    buildRun lvl (n + 1) = buildStep lvl (buildRun lvl n) n := by
  simp [buildRun, List.range_succ, List.foldl_append]

theorem popWhile_pairwise (lvl : Nat → Int) (level : Int) (s : List Nat)
    (h : List.Pairwise (fun a b => lvl b < lvl a) s) :
    List.Pairwise (fun a b => lvl b < lvl a) (popWhile lvl level s) ∧
      ∀ x ∈ popWhile lvl level s, lvl x < level := by
  induction s with
  | nil => simp [popWhile]
  | cons t s ih =>
    rw [List.pairwise_cons] at h
    by_cases ht : lvl t ≥ level
    · simp only [popWhile, ht, if_true]
      exact ih h.2
    · simp only [popWhile, ht, if_false]
      refine ⟨List.pairwise_cons.mpr h, fun x hx => ?_⟩
      rcases List.mem_cons.mp hx with rfl | hx
      · omega
      · have := h.1 x hx
        omega

theorem buildRun_stack_pairwise (lvl : Nat → Int) (n : Nat) :
    List.Pairwise (fun a b => lvl b < lvl a) (buildRun lvl n).stack := by
  induction n with
  | zero => simp [buildRun]
  | succ n ih =>
    rw [buildRun_succ, buildStep_stack]
    have h := popWhile_pairwise lvl (lvl n) _ ih
    exact List.pairwise_cons.mpr ⟨h.2, h.1⟩

/-- C27. Level monotonicity of `buildTree`: an item in the `children` array of
item `p` has a level strictly greater than the level of `p`; after every run of
the callback the working stack is strictly increasing in level from its bottom
to its top (the head of the list is the top); and of two items of the returned
array `tree`, the later one has a level at most the level of the earlier
one. -/
theorem buildTree_level_monotone (levels : List Int) :
    (∀ p j, j ∈ (buildTree levels).children p → levelAt levels p < levelAt levels j) ∧
    (∀ k, List.Pairwise (fun a b => levelAt levels b < levelAt levels a)
        (buildRun (levelAt levels) k).stack) ∧
    List.Pairwise (fun a b => levelAt levels b ≤ levelAt levels a) (buildTree levels).tree := by
  refine ⟨fun p j hj => ?_, fun k => buildRun_stack_pairwise _ k, ?_⟩
  · have h := ((mem_children_iff levels p j).mp hj).2
    exact ((nearestBelow_eq_some _ _ _ _).mp h).2.1
  · have hs : List.Sorted (· < ·) (buildTree levels).tree := by
      unfold buildTree
      rw [(buildRun_spec (levelAt levels) levels.length).2.1]
      exact sorted_filter_range _ _
    refine List.Pairwise.imp_of_mem ?_ hs
    intro a b _ hb hab
    have h := ((mem_tree_iff levels b).mp hb).2
    exact (nearestBelow_eq_none _ _ _).mp h a hab

theorem parentOf_lt (lvl : Nat → Int) (j p : Nat) (h : parentOf lvl j = some p) : p < j :=
  nearestBelow_lt _ _ _ _ h

/-- An item strictly between an item `p` and a child of `p` has its parent at
`p` or after `p`. -/
theorem parentOf_between (lvl : Nat → Int) (p c j : Nat) (hpc : p < c) (hcj : c < j)
    (hj : parentOf lvl j = some p) : ∃ p', parentOf lvl c = some p' ∧ p ≤ p' := by
  obtain ⟨_, hlt, hall⟩ := (nearestBelow_eq_some _ _ _ _).mp hj
  have hc : lvl j ≤ lvl c := hall c hpc hcj
  cases hp : parentOf lvl c with
  | none =>
    have := (nearestBelow_eq_none _ _ _).mp hp p hpc
    omega
  | some p' =>
    refine ⟨p', rfl, ?_⟩
    by_contra hlt'
    obtain ⟨_, _, hall'⟩ := (nearestBelow_eq_some _ _ _ _).mp hp
    have := hall' p (by omega) hpc
    omega

theorem preorder_nil (ch : Nat → List Nat) (f : Nat) : preorder ch f [] = [] := by
  cases f <;> simp [preorder]

theorem preorder_cons (ch : Nat → List Nat) (f v : Nat) (l : List Nat) :
    preorder ch (f + 1) (v :: l) = v :: (preorder ch f (ch v) ++ preorder ch (f + 1) l) := by
  simp [preorder]

theorem range_window (n lo m : Nat) (hle : lo + m ≤ n) :
    List.range n
      = List.range' 0 lo ++ (List.range' lo m ++ List.range' (lo + m) (n - (lo + m))) := by
  rw [List.range_eq_range', List.range'_append_1]
  have h := List.range'_append_1 0 lo (n - (lo + m) + m)
  rw [Nat.zero_add] at h
  rw [h]
  congr 1
  omega

theorem filter_range_window (q : Nat → Bool) (n lo m : Nat) (hle : lo + m ≤ n)
    (h : ∀ j, j < n → q j = true → lo ≤ j ∧ j < lo + m) :
    (List.range n).filter q = (List.range' lo m).filter q := by
  rw [range_window n lo m hle, List.filter_append, List.filter_append]
  have h1 : (List.range' 0 lo).filter q = [] := by
    rw [List.filter_eq_nil_iff]
    intro j hj hq
    rw [List.mem_range'_1] at hj
    have := h j (by omega) hq
    omega
  have h2 : (List.range' (lo + m) (n - (lo + m))).filter q = [] := by
    rw [List.filter_eq_nil_iff]
    intro j hj hq
    rw [List.mem_range'_1] at hj
    have := h j (by omega) hq
    omega
  rw [h1, h2]
  simp

/-- The traversal of a closed segment `[a, a + len)` of the items: the items
of the segment whose parent is `q` (an item before the segment, or none) are
the roots of a forest whose pre-order traversal is the segment. -/
theorem preorder_segment (lvl : Nat → Int) (n : Nat) (ch : Nat → List Nat)
    (hch : ∀ p, ch p = (List.range n).filter (fun j => decide (parentOf lvl j = some p))) :
    ∀ len a q f, len ≤ f → a + len ≤ n →
      (∀ pq, q = some pq → pq < a) →
      (∀ j, a ≤ j → j < a + len →
        parentOf lvl j = q ∨ ∃ p, parentOf lvl j = some p ∧ a ≤ p) →
      (∀ j p, a + len ≤ j → j < n → parentOf lvl j = some p → p < a ∨ a + len ≤ p) →
      preorder ch f ((List.range' a len).filter (fun j => decide (parentOf lvl j = q)))
        = List.range' a len := by
  intro len
  induction len using Nat.strong_induction_on with
  | _ len ih =>
    intro a q f hf hn hq hclosed hright
    cases len with
    | zero => simp [preorder_nil]
    | succ len' =>
      obtain ⟨f', rfl⟩ : ∃ f', f = f' + 1 := ⟨f - 1, by omega⟩
      have hPa : parentOf lvl a = q := by
        rcases hclosed a (le_refl _) (by omega) with h | ⟨p, hp, hap⟩
        · exact h
        · have := parentOf_lt lvl a p hp
          omega
      obtain ⟨m, hm_le, hm_none, hm_next⟩ : ∃ m, m ≤ len' ∧
          (∀ j, a + 1 ≤ j → j < a + 1 + m → parentOf lvl j ≠ q) ∧
          (m < len' → parentOf lvl (a + 1 + m) = q) := by
        by_cases hex : ∃ k, k < len' ∧ parentOf lvl (a + 1 + k) = q
        · refine ⟨Nat.find hex, le_of_lt (Nat.find_spec hex).1, fun j h1 h2 hj => ?_,
            fun _ => (Nat.find_spec hex).2⟩
          have hlt : j - (a + 1) < Nat.find hex := by omega
          have hmin := Nat.find_min hex hlt
          have hspec := (Nat.find_spec hex).1
          apply hmin
          refine ⟨by omega, ?_⟩
          have he : a + 1 + (j - (a + 1)) = j := by omega
          rw [he]
          exact hj
        · refine ⟨len', le_refl _, fun j h1 h2 hj => hex ⟨j - (a + 1), by omega, ?_⟩,
            fun h => absurd h (lt_irrefl _)⟩
          have he : a + 1 + (j - (a + 1)) = j := by omega
          rw [he]
          exact hj
      have hX : ∀ j p, a + 1 + m ≤ j → j < n → parentOf lvl j = some p →
          p < a ∨ a + 1 + m ≤ p := by
        intro j p hj hjn hp
        by_contra hcon
        have hcon : a ≤ p ∧ p < a + 1 + m := by omega
        by_cases hm : m < len'
        · have hc := hm_next hm
          by_cases hjc : j = a + 1 + m
          · subst hjc
            rw [hc] at hp
            have := hq p hp
            omega
          · obtain ⟨p', hp', hpp'⟩ :=
              parentOf_between lvl p (a + 1 + m) j hcon.2 (by omega) hp
            rw [hc] at hp'
            have := hq p' hp'
            omega
        · have := hright j p (by omega) hjn hp
          omega
      have hcha : ch a
          = (List.range' (a + 1) m).filter (fun j => decide (parentOf lvl j = some a)) := by
        rw [hch a]
        apply filter_range_window _ _ _ _ (by omega)
        intro j hjn hj
        have hj : parentOf lvl j = some a := of_decide_eq_true hj
        have h1 := parentOf_lt lvl j a hj
        refine ⟨h1, ?_⟩
        by_contra hge
        have := hX j a (by omega) hjn hj
        omega
      have hinner : preorder ch f' (ch a) = List.range' (a + 1) m := by
        rw [hcha]
        apply ih m (by omega) (a + 1) (some a) f' (by omega) (by omega)
        · intro pq hpq
          cases hpq
          omega
        · intro j h1 h2
          rcases hclosed j (by omega) (by omega) with h | ⟨p, hp, hap⟩
          · exact absurd h (hm_none j h1 h2)
          · by_cases hpa : p = a
            · left; rw [hp, hpa]
            · right; exact ⟨p, hp, by omega⟩
        · intro j p h1 h2 hp
          have := hX j p h1 h2 hp
          omega
      have houter : preorder ch (f' + 1)
            ((List.range' (a + 1 + m) (len' - m)).filter (fun j => decide (parentOf lvl j = q)))
          = List.range' (a + 1 + m) (len' - m) := by
        apply ih (len' - m) (by omega) (a + 1 + m) q (f' + 1) (by omega) (by omega)
        · intro pq hpq
          have := hq pq hpq
          omega
        · intro j h1 h2
          rcases hclosed j (by omega) (by omega) with h | ⟨p, hp, hap⟩
          · left; exact h
          · have := hX j p h1 (by omega) hp
            right; exact ⟨p, hp, by omega⟩
        · intro j p h1 h2 hp
          have := hright j p (by omega) h2 hp
          omega
      have hsplit : List.range' (a + 1) len'
          = List.range' (a + 1) m ++ List.range' (a + 1 + m) (len' - m) := by
        rw [List.range'_append_1]
        congr 1
        omega
      have hnil : (List.range' (a + 1) m).filter (fun j => decide (parentOf lvl j = q)) = [] := by
        rw [List.filter_eq_nil_iff]
        intro j hj hjq
        rw [List.mem_range'_1] at hj
        exact hm_none j hj.1 hj.2 (of_decide_eq_true hjq)
      rw [List.range'_succ, List.filter_cons_of_pos (by simpa using hPa), hsplit,
        List.filter_append, hnil, List.nil_append, preorder_cons, hinner, houter]

/-- The pre-order traversal of the tree of `buildTree` lists the positions of
the items in their order, whenever the fuel is at least the number of
items. -/
theorem preorder_buildTree (levels : List Int) (fuel : Nat) (h : levels.length ≤ fuel) :
    preorder (buildTree levels).children fuel (buildTree levels).tree
      = List.range levels.length := by
  have hspec := buildRun_spec (levelAt levels) levels.length
  have htree : (buildTree levels).tree = (List.range' 0 levels.length).filter
      (fun j => decide (parentOf (levelAt levels) j = none)) := by
    unfold buildTree
    rw [hspec.2.1, List.range_eq_range']
  rw [htree, List.range_eq_range']
  apply preorder_segment (levelAt levels) levels.length _ (fun p => hspec.2.2 p)
    levels.length 0 none fuel h (by omega)
  · intro pq hpq; cases hpq
  · intro j _ _
    cases hp : parentOf (levelAt levels) j with
    | none => left; rfl
    | some p => right; exact ⟨p, rfl, Nat.zero_le _⟩
  · intro j p h1 h2 _
    omega

theorem map_levelAt_range (levels : List Int) :
    (List.range levels.length).map (levelAt levels) = levels := by
  apply List.ext_getElem
  · simp
  · intro i h1 h2
    simp [levelAt, List.getD_eq_getElem?_getD, List.getElem?_eq_getElem h2]

/-- C26. `buildTree` preserves its input (the items being distinct objects,
told apart by their position): the pre-order traversal of the returned forest,
children in the order of their `children` array, visits the positions
`0, 1, ..., n - 1` of the `n` items in this order, with a fuel of `n` or more;
so the levels read along the traversal are the input list, no item is visited
twice, and the tree has `n` nodes. -/
theorem buildTree_preserves_input (levels : List Int) :
    (∀ fuel, levels.length ≤ fuel →
      preorder (buildTree levels).children fuel (buildTree levels).tree
        = List.range levels.length) ∧
    (preorder (buildTree levels).children levels.length (buildTree levels).tree).map
        (levelAt levels) = levels ∧
    (preorder (buildTree levels).children levels.length (buildTree levels).tree).Nodup ∧
    (preorder (buildTree levels).children levels.length (buildTree levels).tree).length
      = levels.length := by
  have h := preorder_buildTree levels levels.length (le_refl _)
  refine ⟨fun fuel hf => preorder_buildTree levels fuel hf, ?_, ?_, ?_⟩
  · rw [h]; exact map_levelAt_range levels
  · rw [h]; exact List.nodup_range _
  · rw [h]; exact List.length_range _

end Leoedit
